import Mathlib

/-!
# crosspty: launch-configuration normalisation

A shallow embedding of `pty.go` (package `crosspty`): `ApplyEnvFallbackAndInject`
and `NormalizeCommandConfig`, with the properties the specification states about
them.

Conventions of the embedding.

* A Go `string` is a list of bytes (`GoString`).
* A Go `map[string]string` is the list of its entries (`GoMap`).  A function that
  ranges over a map receives the entries in the order the `range` loop visits
  them; Go leaves that order unspecified, so statements quantify over every list.
  That the keys of a map are pairwise distinct is a hypothesis where a statement
  depends on it.  A nil map has no entries; where the code tests `== nil` the
  field is an `Option`.
* Everything `NormalizeCommandConfig` reads from the process or the standard
  library (`os.Getwd`, `os.Environ`, `exec.LookPath`, `filepath.IsAbs/Join/Base`,
  `strings.EqualFold`, `runtime.GOOS`, the visiting order of a `range` over a map)
  is a field of `Host`.
* Go slices and maps are references.  `NormalizeCommandConfig` copies the struct
  it is given, not the storage behind `Argv` and `EnvInject`; `Frame` carries the
  caller's value next to the local one, so that stores through shared storage
  are recorded on both.
-/

namespace Crosspty

/-! ## Strings, errors and maps -/

/-- A Go `string`: a sequence of bytes. -/
abbrev GoString := List UInt8

/-- The bytes of a string literal (UTF-8, as in Go source text). -/
def str (s : String) : GoString := s.toUTF8.data.toList

/-- A Go `error`, identified with the text its `Error()` method returns. -/
abbrev GoError := GoString

/-- The byte `'='`. -/
def eqByte : UInt8 := 61

/-- Go's `strings.Cut(s, string(sep))` for a one-byte separator: the text before the
first occurrence of `sep`, the text after it, and whether `sep` occurs; when it
does not, the result is `(s, "", false)`. -/
def stringsCut (sep : UInt8) : GoString → GoString × GoString × Bool
  | [] => ([], [], false)
  | c :: s =>
    if c = sep then ([], s, true)
    else
      let r := stringsCut sep s
      (c :: r.1, r.2.1, r.2.2)

/-- The key of an environment entry: `k` in `k, _, _ := strings.Cut(s, "=")`. -/
def envKey (s : GoString) : GoString := (stringsCut eqByte s).1

/-- The entry `k + "=" + v`. -/
def envEntry (k v : GoString) : GoString := k ++ str "=" ++ v

/-- A Go `map[string]string`, as the list of its entries. -/
abbrev GoMap := List (GoString × GoString)

/-- The keys of a map. -/
def GoMap.keys (m : GoMap) : List GoString := m.map Prod.fst

/-- Map read `v, ok := m[k]`: `some v` when `ok`. -/
def GoMap.get : GoMap → GoString → Option GoString
  | [], _ => none
  | (k', v) :: m, k => if k' = k then some v else GoMap.get m k

/-- The test `_, ok := m[k]`. -/
def GoMap.has (m : GoMap) (k : GoString) : Bool := (m.get k).isSome

/-- Map store `m[k] = v`: replaces the value of an existing key, adds the entry otherwise. -/
def GoMap.set : GoMap → GoString → GoString → GoMap
  | [], k, v => [(k, v)]
  | (k', v') :: m, k, v => if k' = k then (k', v) :: m else (k', v') :: GoMap.set m k v

/-! ## `ApplyEnvFallbackAndInject` (pty.go, lines 79-114) -/

/-- Body of the loop over `Env` (lines 84-94).  The state is `(New, envKeys)`;
`envKeys` is used as a set, kept here as the list of the keys stored into it. -/
def envStep (Inject : GoMap) (st : List GoString × List GoString) (s : GoString) :
    List GoString × List GoString :=
  let k := (stringsCut eqByte s).1
  let envKeys := k :: st.2
  if Inject.has k then (st.1, envKeys)
  else (st.1 ++ [s], envKeys)

/-- Body of the loop over `Inject` (lines 96-101). -/
def injectStep (New : List GoString) (kv : GoString × GoString) : List GoString :=
  if kv.2 = [] then New
  else New ++ [kv.1 ++ str "=" ++ kv.2]

/-- Body of the loop over `Fallback` (lines 103-112). -/
def fallbackStep (envKeys : List GoString) (Inject : GoMap) (New : List GoString)
    (kv : GoString × GoString) : List GoString :=
  if kv.1 ∈ envKeys then New
  else if Inject.has kv.1 then New
  else New ++ [kv.1 ++ str "=" ++ kv.2]

/-- The function `ApplyEnvFallbackAndInject(Env, Fallback, Inject)`.  `Fallback` and
`Inject` list the map entries in the order the two `range` loops visit them. -/
def ApplyEnvFallbackAndInject (Env : List GoString) (Fallback Inject : GoMap) :
    List GoString :=
  let st := Env.foldl (envStep Inject) ([], [])
  let New := Inject.foldl injectStep st.1
  Fallback.foldl (fallbackStep st.2 Inject) New

/-! ## `NormalizeCommandConfig` (pty.go, lines 116-179) -/

/-- The struct `TermSize`; the four fields are `uint16` values. -/
structure TermSize where
  Rows : Nat
  Cols : Nat
  X : Nat
  Y : Nat
  deriving DecidableEq

/-- The struct `CommandConfig`.  `none` is a nil slice or a nil map. -/
structure CommandConfig where
  Argv : List GoString
  Dir : GoString
  Env : Option (List GoString)
  EnvFallback : Option GoMap
  EnvInject : Option GoMap
  Size : TermSize
  deriving DecidableEq

/-- What the function reads from the process and the standard library. -/
structure Host where
  /-- The test `runtime.GOOS == "windows"`. -/
  windows : Bool
  /-- The call `os.Getwd()`: the directory and the error (`none` is `nil`). -/
  getwd : GoString × Option GoError
  /-- The call `os.Environ()`. -/
  environ : List GoString
  /-- The call `exec.LookPath(file)`: the path and the error. -/
  lookPath : GoString → GoString × Option GoError
  /-- The call `filepath.IsAbs(path)`. -/
  isAbs : GoString → Bool
  /-- The call `filepath.Join(a, b)`. -/
  join : GoString → GoString → GoString
  /-- The call `filepath.Base(path)`. -/
  base : GoString → GoString
  /-- The call `strings.EqualFold(s, t)`. -/
  equalFold : GoString → GoString → Bool
  /-- The order in which a `range` loop visits the entries of a map. -/
  rangeOrder : GoMap → GoMap

/-- The local variable `cc` together with the caller's `cc_` as read through the
storage the two share. -/
structure Frame where
  cc : CommandConfig
  arg : CommandConfig

/-- What a call leaves behind: the returned `cc` and `err`, and the caller's argument
as it reads after the call. -/
structure Outcome where
  cc : CommandConfig
  err : Option GoError
  arg : CommandConfig

/-- The statement `return cc, err`. -/
def Frame.ret (f : Frame) (err : Option GoError) : Outcome :=
  { cc := f.cc, err := err, arg := f.arg }

/-- The read `cc.Argv[0]` (made only after `len(cc.Argv) < 1` was excluded). -/
def Frame.argv0 (f : Frame) : GoString := f.cc.Argv.headD []

/-- The store `cc.Argv[0] = v`.  `cc.Argv` is never reassigned, so it is the caller's
slice: the element is written in the backing array both share. -/
def Frame.storeArgv0 (f : Frame) (v : GoString) : Frame :=
  { cc := { f.cc with Argv := f.cc.Argv.set 0 v },
    arg := { f.arg with Argv := f.arg.Argv.set 0 v } }

/-- The assignment `cc.Dir = v` (a field of the local copy). -/
def Frame.setDir (f : Frame) (v : GoString) : Frame :=
  { f with cc := { f.cc with Dir := v } }

/-- The store `cc.EnvInject[k] = v`.  `cc.EnvInject` is the caller's map unless the
caller's was nil and a fresh one was assigned (line 164). -/
def Frame.storeInject (f : Frame) (k v : GoString) : Frame :=
  { cc := { f.cc with EnvInject := some ((f.cc.EnvInject.getD []).set k v) },
    arg := { f.arg with EnvInject := f.arg.EnvInject.map (fun m => m.set k v) } }

/-- Lines 152-161 when `cc.EnvFallback == nil`: the fresh map `{"TERM": "vt100"}`,
to which on Windows every `SYSTEMROOT` entry of `osenv` is stored under its own
spelling of the key. -/
def defaultFallback (h : Host) (osenv : List GoString) : GoMap :=
  let m : GoMap := [(str "TERM", str "vt100")]
  if h.windows then
    osenv.foldl (fun m s =>
      let c := stringsCut eqByte s
      if h.equalFold c.1 (str "SYSTEMROOT") then m.set c.1 c.2.1 else m) m
  else m

/-- Lines 129-131: `if cc.Dir == "" { cc.Dir = wd }`. -/
def Frame.defaultDir (wd : GoString) (f : Frame) : Frame :=
  if f.cc.Dir = [] then f.setDir wd else f

/-- Lines 133-135: `if !filepath.IsAbs(cc.Dir) { cc.Dir = filepath.Join(wd, cc.Dir) }`. -/
def Frame.absDir (h : Host) (wd : GoString) (f : Frame) : Frame :=
  if ¬ h.isAbs f.cc.Dir then f.setDir (h.join wd f.cc.Dir) else f

/-- Lines 144-146: `if !filepath.IsAbs(cc.Argv[0]) { cc.Argv[0] = filepath.Join(wd, cc.Argv[0]) }`. -/
def Frame.absArgv0 (h : Host) (wd : GoString) (f : Frame) : Frame :=
  if ¬ h.isAbs f.argv0 then f.storeArgv0 (h.join wd f.argv0) else f

/-- Lines 148-150: `if cc.Env == nil { cc.Env = osenv }`. -/
def Frame.defaultEnv (osenv : List GoString) (f : Frame) : Frame :=
  if f.cc.Env = none then { f with cc := { f.cc with Env := some osenv } } else f

/-- Lines 152-161: `if cc.EnvFallback == nil { cc.EnvFallback = ... }`. -/
def Frame.defaultEnvFallback (h : Host) (osenv : List GoString) (f : Frame) : Frame :=
  if f.cc.EnvFallback = none then
    { f with cc := { f.cc with EnvFallback := some (defaultFallback h osenv) } }
  else f

/-- Lines 163-165: `if cc.EnvInject == nil { cc.EnvInject = map[string]string{} }`. -/
def Frame.defaultEnvInject (f : Frame) : Frame :=
  if f.cc.EnvInject = none then { f with cc := { f.cc with EnvInject := some [] } } else f

/-- Lines 166-168: `if _, ok := cc.EnvInject["PWD"]; !ok { cc.EnvInject["PWD"] = cc.Dir }`. -/
def Frame.injectPWD (f : Frame) : Frame :=
  if ¬ (f.cc.EnvInject.getD []).has (str "PWD") then f.storeInject (str "PWD") f.cc.Dir else f

/-- Line 170: `cc.Env = ApplyEnvFallbackAndInject(cc.Env, cc.EnvFallback, cc.EnvInject)`;
the two maps are ranged over in the order the host visits them. -/
def Frame.applyEnv (h : Host) (f : Frame) : Frame :=
  { f with cc := { f.cc with Env := some (ApplyEnvFallbackAndInject (f.cc.Env.getD [])
      (h.rangeOrder (f.cc.EnvFallback.getD [])) (h.rangeOrder (f.cc.EnvInject.getD []))) } }

/-- Lines 172-177: `if cc.Size.Cols == 0 || cc.Size.Rows == 0 { cc.Size = TermSize{Rows: 24, Cols: 80} }`. -/
def Frame.defaultSize (f : Frame) : Frame :=
  if f.cc.Size.Cols = 0 ∨ f.cc.Size.Rows = 0 then
    { f with cc := { f.cc with Size := { Rows := 24, Cols := 80, X := 0, Y := 0 } } }
  else f

/-- Lines 144-178: the part of `NormalizeCommandConfig` after the search-path lookup,
statement by statement. -/
def normalizeTail (h : Host) (wd : GoString) (osenv : List GoString) (f : Frame) : Outcome :=
  let f := f.absArgv0 h wd
  let f := f.defaultEnv osenv
  let f := f.defaultEnvFallback h osenv
  let f := f.defaultEnvInject
  let f := f.injectPWD
  let f := f.applyEnv h
  let f := f.defaultSize
  f.ret none

/-- The function `NormalizeCommandConfig(cc_)` on host `h`. -/
def NormalizeCommandConfig (h : Host) (cc_ : CommandConfig) : Outcome :=
  -- cc = cc_
  let f : Frame := { cc := cc_, arg := cc_ }
  -- wd, err := os.Getwd(); if err != nil { return cc, err }
  let wd := h.getwd.1
  match h.getwd.2 with
  | some err => f.ret (some err)
  | none =>
    let osenv := h.environ
    -- if len(cc.Argv) < 1 { return cc, errors.New("command arg need argv") }
    if f.cc.Argv.length < 1 then f.ret (some (str "command arg need argv"))
    else
      let f := f.defaultDir wd
      let f := f.absDir h wd
      -- if filepath.Base(cc.Argv[0]) == cc.Argv[0] { ... }
      if h.base f.argv0 = f.argv0 then
        -- cc.Argv[0], err = exec.LookPath(cc.Argv[0]); if err != nil { return cc, err }
        let r := h.lookPath f.argv0
        let f := f.storeArgv0 r.1
        match r.2 with
        | some err => f.ret (some err)
        | none => normalizeTail h wd osenv f
      else normalizeTail h wd osenv f


/-! ## Vocabulary of the statements -/

/-- The entries of a list whose key is `k`, in order. -/
def entriesOf (k : GoString) (l : List GoString) : List GoString :=
  l.filter (fun e => decide (envKey e = k))

/-- No key of the map contains the byte `'='`. -/
def GoMap.KeysPlain (m : GoMap) : Prop := ∀ k ∈ m.keys, eqByte ∉ k

instance (m : GoMap) : Decidable m.KeysPlain := by
  unfold GoMap.KeysPlain; infer_instance

/-- The entries of `Env` whose key is not a key of `Inject`, in order. -/
def keptEntries (Env : List GoString) (Inject : GoMap) : List GoString :=
  Env.filter (fun s => !Inject.has (envKey s))

/-- One entry `k=v` for each entry of `Inject` with a non-empty value, in order. -/
def injectEntries (Inject : GoMap) : List GoString :=
  (Inject.filter (fun kv => decide (kv.2 ≠ []))).map (fun kv => envEntry kv.1 kv.2)

/-- One entry `k=v` for each entry of `Fallback` whose key is neither the key of an
entry of `Env` nor a key of `Inject`, in order. -/
def fallbackEntries (Env : List GoString) (Fallback Inject : GoMap) : List GoString :=
  (Fallback.filter (fun kv => decide (kv.1 ∉ Env.map envKey) && !Inject.has kv.1)).map
    (fun kv => envEntry kv.1 kv.2)

/-- The working directory after lines 129-135. -/
def resolvedDir (h : Host) (c : CommandConfig) : GoString :=
  let d := if c.Dir = [] then h.getwd.1 else c.Dir
  if h.isAbs d then d else h.join h.getwd.1 d

/-- The program path after lines 137-146, for the original `Argv[0]`. -/
def resolvedArgv0 (h : Host) (a : GoString) : GoString :=
  let a1 := if h.base a = a then (h.lookPath a).1 else a
  if h.isAbs a1 then a1 else h.join h.getwd.1 a1

/-- The fallback map after lines 152-161. -/
def resolvedFallback (h : Host) (c : CommandConfig) : GoMap :=
  c.EnvFallback.getD (defaultFallback h h.environ)

/-- Lines 166-168 on a map: `PWD` is stored unless it is a key already. -/
def withPWD (dir : GoString) (m : GoMap) : GoMap :=
  if m.has (str "PWD") then m else m.set (str "PWD") dir

/-- The injection map after lines 163-168. -/
def resolvedInject (h : Host) (c : CommandConfig) : GoMap :=
  withPWD (resolvedDir h c) (c.EnvInject.getD [])

/-- The size after lines 172-177. -/
def resolvedSize (c : CommandConfig) : TermSize :=
  if c.Size.Cols = 0 ∨ c.Size.Rows = 0 then { Rows := 24, Cols := 80, X := 0, Y := 0 } else c.Size

/-! ## Two concrete hosts

The path functions below follow the documentation of Go's `path/filepath`; they
serve as the standard library of the two hosts on which configurations are
evaluated. -/

/-- The byte `'/'`. -/
def slash : UInt8 := 47

/-- The byte `'\\'`. -/
def backslash : UInt8 := 92

/-- The byte `':'`. -/
def colon : UInt8 := 58

/-- Go's `filepath.IsAbs` on Unix: the path begins with a slash. -/
def unixIsAbs (p : GoString) : Bool := p.head? = some slash

/-- Go's `filepath.Base` on Unix: the last element of the path, trailing slashes
removed first; `"."` for the empty path and `"/"` for a path of slashes only. -/
def unixBase (p : GoString) : GoString :=
  if p = [] then str "."
  else
    let p := (p.reverse.dropWhile (fun c => c = slash)).reverse
    let p := (p.reverse.takeWhile (fun c => c ≠ slash)).reverse
    if p = [] then str "/" else p

/-- The elements of a path between slashes. -/
def unixSplit : GoString → List GoString
  | [] => [[]]
  | c :: s =>
    if c = slash then [] :: unixSplit s
    else
      match unixSplit s with
      | [] => [[c]]
      | e :: es => (c :: e) :: es

/-- One element of a path in `filepath.Clean`, the elements kept so far last first:
empty and `.` elements are dropped; `..` removes the element before it, is dropped
at the root, and stays when a relative path has only `..` elements before it. -/
def unixCleanStep (rooted : Bool) (out : List GoString) (e : GoString) : List GoString :=
  if e = [] ∨ e = str "." then out
  else if e = str ".." then
    match out with
    | [] => if rooted then [] else [e]
    | top :: below => if top = str ".." then e :: top :: below else below
  else e :: out

/-- Go's `filepath.Clean` on Unix. -/
def unixClean (p : GoString) : GoString :=
  let rooted := unixIsAbs p
  let out := (unixSplit p).foldl (unixCleanStep rooted) []
  let body := (str "/").intercalate out.reverse
  let r := if rooted then str "/" ++ body else body
  if r = [] then str "." else r

/-- Go's `filepath.Join(a, b)` on Unix: the arguments from the first non-empty one on,
joined by a slash and cleaned; `""` when both are empty. -/
def unixJoin (a b : GoString) : GoString :=
  if a ≠ [] then unixClean (a ++ str "/" ++ b)
  else if b ≠ [] then unixClean b
  else []

/-- One byte, an ASCII capital letter replaced by its small letter. -/
def asciiLower (c : UInt8) : UInt8 := if 65 ≤ c ∧ c ≤ 90 then c + 32 else c

/-- Go's `strings.EqualFold` on ASCII strings. -/
def asciiEqualFold (s t : GoString) : Bool := s.map asciiLower = t.map asciiLower

/-- The text of the error `exec.LookPath` returns for `file`: `exec: "file": reason`. -/
def lookPathError (file reason : GoString) : GoError :=
  str "exec: " ++ [34] ++ file ++ [34] ++ str ": " ++ reason

/-- A search path that holds the one program `sh`, in `/bin`: `exec.LookPath` finds
`sh` and `/bin/sh`, reports `/` as a directory and every other name as missing; with
an error it returns the empty path. -/
def unixLookPath (file : GoString) : GoString × Option GoError :=
  if file = str "sh" then (str "/bin/sh", none)
  else if file = str "/bin/sh" then (file, none)
  else if file = str "/" then ([], some (lookPathError file (str "is a directory")))
  else ([], some (lookPathError file (str "executable file not found in $PATH")))

/-- A Unix host with current directory `/home/user`. -/
def unixHost : Host where
  windows := false
  getwd := (str "/home/user", none)
  environ := [str "HOME=/home/user", str "PATH=/bin"]
  lookPath := unixLookPath
  isAbs := unixIsAbs
  join := unixJoin
  base := unixBase
  equalFold := asciiEqualFold
  rangeOrder := id

/-- Go's `os.IsPathSeparator` on Windows. -/
def windowsIsSep (c : UInt8) : Bool := c = backslash || c = slash

/-- Go's `filepath.IsAbs` on Windows, for paths that begin with a drive letter or
with no volume name at all: a letter, a colon and a separator. -/
def windowsIsAbs : GoString → Bool
  | d :: c :: s :: _ => (97 ≤ asciiLower d && asciiLower d ≤ 122) && c = colon && windowsIsSep s
  | _ => false

/-- Go's `filepath.Base` on Windows, for the same paths: trailing separators and the
drive removed, then the last element. -/
def windowsBase (p : GoString) : GoString :=
  if p = [] then str "."
  else
    let p := (p.reverse.dropWhile windowsIsSep).reverse
    let p := match p with
      | d :: c :: s => if (97 ≤ asciiLower d && asciiLower d ≤ 122) && c = colon then s else p
      | _ => p
    let p := (p.reverse.takeWhile (fun c => !windowsIsSep c)).reverse
    if p = [] then str "\\" else p

/-- Go's `filepath.Join(a, b)` on Windows, for a clean directory `a` and a clean
relative path `b`: the two with a backslash between them. -/
def windowsJoin (a b : GoString) : GoString :=
  if a = [] then b else if b = [] then a else a ++ str "\\" ++ b

/-- A search path that holds `cmd.exe` in `C:\Windows\System32`; every other name is
reported as missing. -/
def windowsLookPath (file : GoString) : GoString × Option GoError :=
  if file = str "cmd" ∨ file = str "cmd.exe" then (str "C:\\Windows\\System32\\cmd.exe", none)
  else ([], some (lookPathError file (str "executable file not found in %PATH%")))

/-- A Windows host with current directory `C:\Users\me`. -/
def windowsHost : Host where
  windows := true
  getwd := (str "C:\\Users\\me", none)
  environ := [str "SystemRoot=C:\\Windows", str "Path=C:\\Windows\\System32"]
  lookPath := windowsLookPath
  isAbs := windowsIsAbs
  join := windowsJoin
  base := windowsBase
  equalFold := asciiEqualFold
  rangeOrder := id

/-- A configuration that sets nothing but `Argv`. -/
def argvOnly (argv : List GoString) : CommandConfig where
  Argv := argv
  Dir := []
  Env := none
  EnvFallback := none
  EnvInject := none
  Size := { Rows := 0, Cols := 0, X := 0, Y := 0 }

/-- The shell by its full path, with an environment of one entry. -/
def cfgShell : CommandConfig :=
  { argvOnly [str "/bin/sh"] with Env := some [str "A=1"] }

/-- A shell found on the search path, run in the relative directory `work`, with all
three environment fields set. -/
def cfgWork : CommandConfig where
  Argv := [str "sh", str "-i"]
  Dir := str "work"
  Env := some [str "A=1", str "LANG=de", str "TERM=dumb"]
  EnvFallback := some [(str "TERM", str "xterm"), (str "COLORTERM", str "truecolor")]
  EnvInject := some [(str "LANG", str "C")]
  Size := { Rows := 0, Cols := 132, X := 0, Y := 0 }

/-- A program given by a relative path, with a working directory that is not the
current directory of the process. -/
def cfgTool : CommandConfig :=
  { argvOnly [str "bin/tool"] with Dir := str "/srv/app" }

/-- A shell found on the search path, with an injection map of the caller. -/
def cfgLang : CommandConfig :=
  { argvOnly [str "sh", str "-i"] with EnvInject := some [(str "LANG", str "C")] }

/-- The command interpreter by its full path, on Windows. -/
def cfgCmd : CommandConfig :=
  argvOnly [str "C:\\Windows\\System32\\cmd.exe"]

/-- A full configuration with a size of its own. -/
def cfgSized : CommandConfig :=
  { cfgWork with Size := { Rows := 40, Cols := 132, X := 800, Y := 600 } }

/-- The Unix host with the root directory as current directory. -/
def rootHost : Host :=
  { unixHost with getwd := (str "/", none) }

/-- The shell by its full path, with an injection map that has a key with `'='` in it
and deletes `PWD`. -/
def cfgOddKey : CommandConfig :=
  { cfgShell with EnvInject := some [(str "A=B", str "c"), (str "PWD", str "")] }

/-! ## Shutdown policy (pty.go, lines 64-77 and 181-198)

A `time.Duration` is an `int64` count of nanoseconds.  Durations are integers here;
where Go subtracts two of them the result is reduced into the range of `int64`
(`wrapInt64`), as Go's arithmetic does. -/

/-- The least `int64`. -/
def minInt64 : Int := -9223372036854775808

/-- The greatest `int64`. -/
def maxInt64 : Int := 9223372036854775807

/-- The value is an `int64`. -/
def IsInt64 (x : Int) : Prop := minInt64 ≤ x ∧ x ≤ maxInt64

instance (x : Int) : Decidable (IsInt64 x) := by
  unfold IsInt64; infer_instance

/-- The `int64` an exact integer result becomes in Go: the integer modulo `2^64`, taken in
the range of `int64`. -/
def wrapInt64 (x : Int) : Int := (x + 9223372036854775808) % 18446744073709551616 - 9223372036854775808

/-- The constant `time.Second`, in nanoseconds. -/
def second : Int := 1000000000

/-- The signal `syscall.SIGKILL`. -/
def SIGKILL : Int := 9

/-- The signal `syscall.SIGTERM`. -/
def SIGTERM : Int := 15

/-- The error number `syscall.EPERM`. -/
def EPERM : Nat := 1

/-- The error number `syscall.ESRCH`. -/
def ESRCH : Nat := 3

/-- The error number `windows.ERROR_ACCESS_DENIED`. -/
def ERROR_ACCESS_DENIED : Nat := 5

/-- The `error` values of the two backends: the three variables of pty.go (lines 15-21),
an error number of the operating system, and an error made from a text. -/
inductive PtyErr where
  | ErrUnacceptableTimeout
  | ErrKillTimeout
  | ErrConPTYNotSupported
  | errno (code : Nat)
  | text (msg : GoString)
  deriving DecidableEq

/-- The struct `CloseConfig`: two durations and a signal number. -/
structure CloseConfig where
  CloseTimeout : Int
  ForceKillDelay : Int
  ForceKillSignal : Int
  deriving DecidableEq

/-- The function `normalizeCloseConfig(cc_)` (pty.go, lines 181-198): the config and the
error (`none` is `nil`). -/
def normalizeCloseConfig (cc_ : CloseConfig) : CloseConfig × Option PtyErr :=
  let cc := cc_
  -- if cc.CloseTimeout == 0 && cc.ForceKillDelay == 0 { ... }
  let cc := if cc.CloseTimeout = 0 ∧ cc.ForceKillDelay = 0 then
      { cc with CloseTimeout := 10 * second, ForceKillDelay := 5 * second } else cc
  -- if cc.CloseTimeout-cc.ForceKillDelay < 1*time.Second { return cc, ErrUnacceptableTimeout }
  if wrapInt64 (cc.CloseTimeout - cc.ForceKillDelay) < 1 * second then
    (cc, some PtyErr.ErrUnacceptableTimeout)
  else
    -- if cc.ForceKillSignal == 0 { cc.ForceKillSignal = syscall.SIGKILL }
    let cc := if cc.ForceKillSignal = 0 then { cc with ForceKillSignal := SIGKILL } else cc
    (cc, none)

/-! ## The Unix backend (pty_unix.go) -/

/-- The part of the struct `PtyUnix` that `SetCloseConfig` and `Close` use: the process id
`cmd.Process.Pid`, the stored policy, and whether `closer`, a `sync.Once`, has run. -/
structure PtyUnix where
  pid : Int
  closeCfg : CloseConfig
  closerDone : Bool
  deriving DecidableEq

/-- What `Close` does to the outside, in order. -/
inductive UnixAction where
  /-- The call `p.file.Close()`. -/
  | closeFile
  /-- A `select` that waits on `time.After(d)` and on `p.exitch`. -/
  | selectTimer (d : Int)
  /-- The call `syscall.Kill(pid, sig)`. -/
  | kill (pid sig : Int)
  deriving DecidableEq

/-- What happens around one call of `Close`: which case each `select` takes, and what
`syscall.Kill` returns. -/
structure UnixWorld where
  /-- In the first `select` the case `<-p.exitch` is taken. -/
  exitsInDelay : Bool
  /-- The error number `syscall.Kill(pid, sig)` returns (`none` is `nil`). -/
  kill : Int → Int → Option Nat
  /-- In the second `select` the case `<-p.exitch` is taken. -/
  exitsInBudget : Bool

/-- The session `StartExecCmd` returns (lines 53-60): the policy is
`normalizeCloseConfig(CloseConfig{})`. -/
def PtyUnix.started (pid : Int) : PtyUnix :=
  { pid := pid
    closeCfg := (normalizeCloseConfig { CloseTimeout := 0, ForceKillDelay := 0, ForceKillSignal := 0 }).1
    closerDone := false }

/-- The method `SetCloseConfig` (lines 83-90): the session after the call and the error. -/
def PtyUnix.SetCloseConfig (p : PtyUnix) (cc_ : CloseConfig) : PtyUnix × Option PtyErr :=
  let r := normalizeCloseConfig cc_
  match r.2 with
  | some err => (p, some err)
  | none => ({ p with closeCfg := r.1 }, none)

/-- The function `signalToGroup(pid, sig)` (lines 92-101): the error number and the call
made. -/
def signalToGroup (w : UnixWorld) (pid sig : Int) : Option Nat × List UnixAction :=
  let pid := if pid > 1 then -pid else pid
  (w.kill pid sig, [UnixAction.kill pid sig])

/-- The function passed to `p.closer.Do` in `Close` (lines 104-141): the value left in
`err` and the actions made. -/
def PtyUnix.closeBody (p : PtyUnix) (w : UnixWorld) : Option PtyErr × List UnixAction :=
  -- p.file.Close(); select { case <-time.After(p.closeCfg.ForceKillDelay): ... }
  let t := [UnixAction.closeFile, UnixAction.selectTimer p.closeCfg.ForceKillDelay]
  if w.exitsInDelay then (none, t)
  else
    -- err = signalToGroup(p.cmd.Process.Pid, syscall.SIGKILL)
    let s := signalToGroup w p.pid SIGKILL
    let err := s.1
    let t := t ++ s.2
    if err = some ESRCH then (none, t)
    else if err ≠ none ∧ err ≠ some EPERM then (err.map PtyErr.errno, t)
    else
      -- select { case <-time.After(p.closeCfg.CloseTimeout - p.closeCfg.ForceKillDelay): ... }
      let t := t ++ [UnixAction.selectTimer
        (wrapInt64 (p.closeCfg.CloseTimeout - p.closeCfg.ForceKillDelay))]
      if w.exitsInBudget then (none, t)
      else if err = some EPERM then (err.map PtyErr.errno, t)
      else (some PtyErr.ErrKillTimeout, t)

/-- The method `Close` (lines 103-143): the session after the call, the error returned and
the actions made.  `closer.Do` runs its function on the first call only; `err` is the
named result, `nil` when the function did not run. -/
def PtyUnix.Close (p : PtyUnix) (w : UnixWorld) : PtyUnix × Option PtyErr × List UnixAction :=
  if p.closerDone then (p, none, [])
  else
    let r := p.closeBody w
    ({ p with closerDone := true }, r.1, r.2)

/-- The time a `select` on `time.After(d)` can take: `d`, and nothing when `d` is not
positive, the timer firing at once. -/
def timerWait (d : Int) : Int := if d ≤ 0 then 0 else d

/-- The longest time the actions of a `Close` can wait on their timers. -/
def unixWait : List UnixAction → Int
  | [] => 0
  | UnixAction.selectTimer d :: t => timerWait d + unixWait t
  | _ :: t => unixWait t

/-- The two durations after lines 184-187: ten and five seconds when both are zero. -/
def defaultTimes (cc : CloseConfig) : Int × Int :=
  if cc.CloseTimeout = 0 ∧ cc.ForceKillDelay = 0 then (10 * second, 5 * second)
  else (cc.CloseTimeout, cc.ForceKillDelay)

/-- A session whose policy asks for `SIGTERM` as the forceful signal. -/
def sessionTerm : PtyUnix :=
  (PtyUnix.SetCloseConfig (PtyUnix.started 4242)
    { CloseTimeout := 10 * second, ForceKillDelay := 5 * second, ForceKillSignal := SIGTERM }).1

/-- A session whose policy has a negative `ForceKillDelay`. -/
def sessionNegative : PtyUnix :=
  (PtyUnix.SetCloseConfig (PtyUnix.started 4242)
    { CloseTimeout := 1 * second, ForceKillDelay := -5 * second, ForceKillSignal := 0 }).1

/-- The child never exits, and every signal is delivered. -/
def worldNeverExits : UnixWorld :=
  { exitsInDelay := false, kill := fun _ _ => none, exitsInBudget := false }

/-- The child exits only after the forceful signal; sending it is denied. -/
def worldDeniedThenExit : UnixWorld :=
  { exitsInDelay := false, kill := fun _ _ => some EPERM, exitsInBudget := true }

/-- The number of `select` statements among the actions. -/
def unixSelects : List UnixAction → Nat
  | [] => 0
  | UnixAction.selectTimer _ :: t => unixSelects t + 1
  | _ :: t => unixSelects t

/-- The signals of the `syscall.Kill` calls among the actions, in order. -/
def unixSignals : List UnixAction → List Int
  | [] => []
  | UnixAction.kill _ sig :: t => sig :: unixSignals t
  | _ :: t => unixSignals t

/-! ## The Windows backend: size and `Close` (conpty_windows.go, pty_windows.go) -/

/-- The conversion `int16(x)` of a `uint16` value: the same sixteen bits read as a signed
number. -/
def int16OfUint16 (x : Nat) : Int :=
  if x % 65536 < 32768 then (x % 65536 : Nat) else ((x % 65536 : Nat) : Int) - 65536

/-- The struct `windows.Coord`: two `int16` values. -/
structure Coord where
  X : Int
  Y : Int
  deriving DecidableEq

/-- The function `windowsCoord(sz)` (conpty_windows.go, lines 27-29). -/
def windowsCoord (sz : TermSize) : Coord :=
  { X := int16OfUint16 sz.Cols, Y := int16OfUint16 sz.Rows }

/-- What a session on Windows holds from the operating system. -/
inductive WinResource where
  /-- The pseudo-console `p.conPty`. -/
  | conPty
  /-- The pipe `p.readPipe`, from which the output of the child is read. -/
  | readPipe
  /-- The pipe `p.writePipe`, to which the input of the child is written. -/
  | writePipe
  /-- The end of the input pipe handed to the pseudo-console. -/
  | subprocessReadPipe
  /-- The end of the output pipe handed to the pseudo-console. -/
  | subprocessWritePipe
  /-- The attribute list `p.attrList`. -/
  | attrList
  /-- The process handle `p.processHandle`. -/
  | processHandle
  /-- The thread handle `pi.Thread`. -/
  | threadHandle
  deriving DecidableEq

/-- What the Windows backend does to the outside, in order. -/
inductive WinAction where
  /-- A resource is obtained from the operating system. -/
  | acquire (r : WinResource)
  /-- A resource is given back: `Close`, `CloseHandle`, `ClosePseudoConsole`, `Delete`. -/
  | release (r : WinResource)
  /-- A `select` that waits on `time.After(d)` and on `p.exitch`. -/
  | selectTimer (d : Int)
  /-- The call `windows.TerminateProcess(p.processHandle, 0)`. -/
  | terminateProcess
  /-- The statement `go p.processWaiter()`. -/
  | startWaiter
  /-- The call of `ReleasePseudoConsole`. -/
  | releasePseudoConsole
  /-- The call `windows.CloseHandle(pRealPty.hPtyReference)`. -/
  | closePtyReference
  deriving DecidableEq

/-- The part of the struct `ptyWin` that `SetCloseConfig` and `Close` use. -/
structure PtyWin where
  closeCfg : CloseConfig
  closerDone : Bool
  deriving DecidableEq

/-- What happens around one call of `Close` on Windows. -/
structure WinWorld where
  /-- In the first `select` the case `<-p.exitch` is taken. -/
  exitsInDelay : Bool
  /-- The error number `windows.TerminateProcess` returns (`none` is `nil`). -/
  terminate : Option Nat
  /-- In the second `select` the case `<-p.exitch` is taken. -/
  exitsInBudget : Bool

/-- The method `SetCloseConfig` (pty_windows.go, lines 87-94). -/
def PtyWin.SetCloseConfig (p : PtyWin) (cc_ : CloseConfig) : PtyWin × Option PtyErr :=
  let r := normalizeCloseConfig cc_
  match r.2 with
  | some err => (p, some err)
  | none => ({ p with closeCfg := r.1 }, none)

/-- The method `killProcess` (pty_windows.go, lines 96-123): the error returned and the
actions made. -/
def PtyWin.killProcess (p : PtyWin) (w : WinWorld) : Option PtyErr × List WinAction :=
  -- p.writePipe.Close(); select { case <-time.After(p.closeCfg.ForceKillDelay): ... }
  let t := [WinAction.release WinResource.writePipe,
    WinAction.selectTimer p.closeCfg.ForceKillDelay]
  if w.exitsInDelay then (none, t)
  else
    -- err := windows.TerminateProcess(p.processHandle, 0)
    let err := w.terminate
    let t := t ++ [WinAction.terminateProcess]
    if err ≠ none ∧ err ≠ some ERROR_ACCESS_DENIED then (err.map PtyErr.errno, t)
    else
      -- select { case <-time.After(p.closeCfg.CloseTimeout - p.closeCfg.ForceKillDelay): ... }
      let t := t ++ [WinAction.selectTimer
        (wrapInt64 (p.closeCfg.CloseTimeout - p.closeCfg.ForceKillDelay))]
      if w.exitsInBudget then (none, t)
      else (some PtyErr.ErrKillTimeout, t)

/-- The method `Close` (pty_windows.go, lines 125-134): the session after the call, the
error returned and the actions made. -/
def PtyWin.Close (p : PtyWin) (w : WinWorld) : PtyWin × Option PtyErr × List WinAction :=
  if p.closerDone then (p, none, [])
  else
    -- err = p.killProcess()
    let r := p.killProcess w
    -- p.attrList.Delete(); windows.CloseHandle(p.processHandle);
    -- windows.ClosePseudoConsole(p.conPty); p.readPipe.Close()
    let t := r.2 ++ [WinAction.release WinResource.attrList,
      WinAction.release WinResource.processHandle,
      WinAction.release WinResource.conPty,
      WinAction.release WinResource.readPipe]
    ({ p with closerDone := true }, r.1, t)

/-- The four resources `Close` gives back after the escalation. -/
def cleanupResources : List WinResource :=
  [WinResource.attrList, WinResource.processHandle, WinResource.conPty, WinResource.readPipe]

/-- The resources an action list gives back, among the given ones, in order. -/
def releasesOf (rs : List WinResource) : List WinAction → List WinResource
  | [] => []
  | WinAction.release r :: t => if r ∈ rs then r :: releasesOf rs t else releasesOf rs t
  | _ :: t => releasesOf rs t

/-- A Windows session as `StartWithSysProcAttr` returns it. -/
def PtyWin.started : PtyWin :=
  { closeCfg := (normalizeCloseConfig { CloseTimeout := 0, ForceKillDelay := 0, ForceKillSignal := 0 }).1
    closerDone := false }

/-- The child never exits, and terminating it succeeds. -/
def winNeverExits : WinWorld :=
  { exitsInDelay := false, terminate := none, exitsInBudget := false }

/-! ## The environment block (process_windows.go, lines 190-258) -/

/-- Go's `strings.Index(s, string(c))` for a one-byte substring: the index of the first
`c` in `s`, and `-1` when there is none. -/
def stringsIndexByte (c : UInt8) : GoString → Int
  | [] => -1
  | b :: s =>
    if b = c then 0
    else
      let i := stringsIndexByte c s
      if i < 0 then -1 else i + 1

/-- The statement `out[i], out[j] = out[j], out[i]`. -/
def swapAt (out : List GoString) (i j : Nat) : List GoString :=
  (out.set i (out.getD j [])).set j (out.getD i [])

/-- The loop of lines 228-231, which reverses `out` in place:
`for i := 0; i < len(out)/2; i++ { j := len(out) - i - 1; out[i], out[j] = out[j], out[i] }`. -/
def reverseInPlace (out : List GoString) : List GoString :=
  (List.range (out.length / 2)).foldl (fun out i => swapAt out i (out.length - i - 1)) out

/-- Body of the loop of lines 196-225, for the entry `kv`.  The state is `(out, saw)`;
`saw` is used as a set, kept here as the list of the keys stored into it.  `lower` is
Go's `strings.ToLower`. -/
def dedupStep (lower : GoString → GoString) (caseInsensitive : Bool)
    (st : List GoString × List GoString) (kv : GoString) : List GoString × List GoString :=
  -- i := strings.Index(kv, "=")
  let i := stringsIndexByte eqByte kv
  -- if i == 0 { i = strings.Index(kv[1:], "=") + 1 }
  let i := if i = 0 then stringsIndexByte eqByte (kv.drop 1) + 1 else i
  if i < 0 then
    -- if kv != "" { out = append(out, kv) }; continue
    if kv ≠ [] then (st.1 ++ [kv], st.2) else st
  else
    -- k := kv[:i]; if caseInsensitive { k = strings.ToLower(k) }
    let k := kv.take i.toNat
    let k := if caseInsensitive then lower k else k
    -- if saw[k] { continue }; saw[k] = true; out = append(out, kv)
    if k ∈ st.2 then st
    else (st.1 ++ [kv], k :: st.2)

/-- The function `dedupEnvCase(caseInsensitive, env)` (lines 191-234); the entries are
visited from the last to the first. -/
def dedupEnvCase (lower : GoString → GoString) (caseInsensitive : Bool)
    (env : List GoString) : List GoString :=
  let st := env.reverse.foldl (dedupStep lower caseInsensitive) ([], [])
  reverseInPlace st.1

/-- Go's `strings.ToLower` on ASCII strings. -/
def asciiToLower (s : GoString) : GoString := s.map asciiLower

/-- The key of an entry as the claim words it: none for an entry without `'='`; else the
text before the separator, a leading `'='` belonging to the key, so that the separator
is looked for after it. -/
def claimedKey : GoString → Option GoString
  | [] => none
  | c :: rest =>
    if c = eqByte then some (c :: (stringsCut eqByte rest).1)
    else if eqByte ∈ rest then some (c :: (stringsCut eqByte rest).1)
    else none

/-- The key of an entry as the code takes it: none for an entry without `'='`; for an
entry with a leading `'='` and a later one, the text before the later one; for an entry
whose only `'='` is the leading one, the empty key; else the text before the first
`'='`. -/
def dedupKey : GoString → Option GoString
  | [] => none
  | c :: rest =>
    if c = eqByte then
      (if eqByte ∈ rest then some (c :: (stringsCut eqByte rest).1) else some [])
    else if eqByte ∈ rest then some (c :: (stringsCut eqByte rest).1)
    else none

/-- Whether the entry `kv` survives before the later entries `rest`: an entry without a
key if it is not empty, an entry with a key if no later entry has the same key, keys
compared after `lower`. -/
def survives (key : GoString → Option GoString) (lower : GoString → GoString)
    (kv : GoString) (rest : List GoString) : Bool :=
  match key kv with
  | none => decide (kv ≠ [])
  | some k => rest.all (fun kv' => decide ((key kv').map lower ≠ some (lower k)))

/-- Last write wins: the entries that survive, in their order. -/
def lastWins (key : GoString → Option GoString) (lower : GoString → GoString) :
    List GoString → List GoString
  | [] => []
  | kv :: rest =>
    if survives key lower kv rest then kv :: lastWins key lower rest
    else lastWins key lower rest

/-! ## Go's conversions between strings, runes and UTF-16

The functions of this section follow Go's `unicode/utf8` and `unicode/utf16` and the
conversions `[]rune(s)` and `string(runes)`.  A rune and a UTF-16 code unit are natural
numbers; the shifts and masks of the Go code are written as division and
remainder. -/

/-- The rune `U+FFFD`, Go's `utf8.RuneError` and the replacement character of
`unicode/utf16`. -/
def runeError : Nat := 65533

/-- A Unicode scalar value: a code point up to `U+10FFFF` that is no surrogate. -/
def IsScalar (r : Nat) : Prop := r < 55296 ∨ (57344 ≤ r ∧ r ≤ 1114111)

instance (r : Nat) : Decidable (IsScalar r) := by
  unfold IsScalar; infer_instance

/-- Go's `utf8.DecodeRune` where it succeeds: the first rune of the bytes and the number
of bytes it takes; `none` where Go returns `(RuneError, 1)` for bytes that are no
encoding. -/
def utf8First : List Nat → Option (Nat × Nat)
  | [] => none
  | b0 :: t =>
    if b0 < 128 then some (b0, 1)
    else if 194 ≤ b0 ∧ b0 ≤ 223 then
      match t with
      | b1 :: _ =>
        if 128 ≤ b1 ∧ b1 ≤ 191 then some ((b0 - 192) * 64 + (b1 - 128), 2) else none
      | _ => none
    else if 224 ≤ b0 ∧ b0 ≤ 239 then
      match t with
      | b1 :: b2 :: _ =>
        if (if b0 = 224 then 160 else 128) ≤ b1 ∧ b1 ≤ (if b0 = 237 then 159 else 191) ∧
            128 ≤ b2 ∧ b2 ≤ 191 then
          some ((b0 - 224) * 4096 + (b1 - 128) * 64 + (b2 - 128), 3)
        else none
      | _ => none
    else if 240 ≤ b0 ∧ b0 ≤ 244 then
      match t with
      | b1 :: b2 :: b3 :: _ =>
        if (if b0 = 240 then 144 else 128) ≤ b1 ∧ b1 ≤ (if b0 = 244 then 143 else 191) ∧
            128 ≤ b2 ∧ b2 ≤ 191 ∧ 128 ≤ b3 ∧ b3 ≤ 191 then
          some ((b0 - 240) * 262144 + (b1 - 128) * 4096 + (b2 - 128) * 64 + (b3 - 128), 4)
        else none
      | _ => none
    else none

/-- The runes of a byte sequence, at most `fuel` of them: bytes that are no encoding give
`RuneError` and are passed one at a time. -/
def runesAux : Nat → List Nat → List Nat
  | 0, _ => []
  | fuel + 1, s =>
    match s with
    | [] => []
    | b :: t =>
      match utf8First (b :: t) with
      | some (r, n) => r :: runesAux fuel ((b :: t).drop n)
      | none => runeError :: runesAux fuel t

/-- Go's conversion `[]rune(s)`. -/
def runes (s : GoString) : List Nat := runesAux s.length (s.map UInt8.toNat)

/-- Whether a byte sequence of at most `fuel` bytes is a sequence of encodings. -/
def utf8ValidAux : Nat → List Nat → Bool
  | 0, s => s.isEmpty
  | fuel + 1, s =>
    match s with
    | [] => true
    | b :: t =>
      match utf8First (b :: t) with
      | some (_, n) => utf8ValidAux fuel ((b :: t).drop n)
      | none => false

/-- Go's `utf8.ValidString(s)`. -/
def utf8Valid (s : GoString) : Bool := utf8ValidAux s.length (s.map UInt8.toNat)

/-- The UTF-8 encoding of a rune as Go's `string(rune)` makes it; a surrogate or a number
above `U+10FFFF` is encoded as `U+FFFD`. -/
def utf8EncodeRune (r : Nat) : List Nat :=
  if r < 128 then [r]
  else if r < 2048 then [192 + r / 64, 128 + r % 64]
  else if (55296 ≤ r ∧ r < 57344) ∨ 1114111 < r then [239, 191, 189]
  else if r < 65536 then [224 + r / 4096, 128 + r / 64 % 64, 128 + r % 64]
  else [240 + r / 262144, 128 + r / 4096 % 64, 128 + r / 64 % 64, 128 + r % 64]

/-- Go's conversion `string(rs)` of a slice of runes. -/
def stringOfRunes (rs : List Nat) : GoString :=
  (rs.map utf8EncodeRune).flatten.map UInt8.ofNat

/-- The code units `utf16.Encode` appends for one rune: the rune itself, a surrogate
pair, or `U+FFFD` for a surrogate or a number above `U+10FFFF`. -/
def utf16EncodeRune (v : Nat) : List Nat :=
  if v < 55296 ∨ (57344 ≤ v ∧ v < 65536) then [v]
  else if 65536 ≤ v ∧ v ≤ 1114111 then
    [55296 + (v - 65536) / 1024, 56320 + (v - 65536) % 1024]
  else [runeError]

/-- Go's `utf16.Encode(s)`. -/
def utf16Encode (s : List Nat) : List Nat := s.foldl (fun a v => a ++ utf16EncodeRune v) []

/-- Go's `utf16.Decode(s)`: a code unit outside the surrogate range is a rune, a high
surrogate followed by a low one is one rune, and any other surrogate is `U+FFFD`. -/
def utf16Decode : List Nat → List Nat
  | [] => []
  | [u] => if u < 55296 ∨ 57344 ≤ u then [u] else [runeError]
  | u :: v :: rest =>
    if u < 55296 ∨ 57344 ≤ u then u :: utf16Decode (v :: rest)
    else if u < 56320 ∧ 56320 ≤ v ∧ v < 57344 then
      ((u - 55296) * 1024 + (v - 56320) + 65536) :: utf16Decode rest
    else runeError :: utf16Decode (v :: rest)

/-! ## `createEnvBlock` and the reading of a block (process_windows.go) -/

/-- The statement `copy(b[lo:hi], src)` for `hi` within `b`: the first bytes of `src`, as
many as fit between `lo` and `hi`, are written into `b` from `lo` on. -/
def copyInto (b : List UInt8) (lo hi : Nat) (src : List UInt8) : List UInt8 :=
  b.take lo ++ src.take (hi - lo) ++ b.drop (lo + min (hi - lo) src.length)

/-- Body of the loop of lines 249-254; the state is `(b, i)`. -/
def envBlockStep (st : List UInt8 × Nat) (s : GoString) : List UInt8 × Nat :=
  let l := s.length
  -- copy(b[i:i+l], []byte(s))
  let b := copyInto st.1 st.2 (st.2 + l) s
  -- copy(b[i+l:i+l+1], []byte{0})
  let b := copyInto b (st.2 + l) (st.2 + l + 1) [0]
  (b, st.2 + l + 1)

/-- The function `createEnvBlock(envv)` (lines 237-258): the buffer of code units whose
first element the returned pointer addresses. -/
def createEnvBlock (envv : List GoString) : List Nat :=
  -- if len(envv) == 0 { return &utf16.Encode([]rune("\x00\x00"))[0] }
  if envv.length = 0 then utf16Encode (runes [0, 0])
  else
    -- length := 0; for _, s := range envv { length += len(s) + 1 }; length += 1
    let length := envv.foldl (fun length s => length + (s.length + 1)) 0 + 1
    -- b := make([]byte, length); i := 0
    let b : List UInt8 := List.replicate length 0
    let st := envv.foldl envBlockStep (b, 0)
    -- copy(b[i:i+1], []byte{0})
    let b := copyInto st.1 st.2 (st.2 + 1) [0]
    -- return &utf16.Encode([]rune(string(b)))[0]
    utf16Encode (runes b)

/-- The loop of `defaultEnvByToken` (lines 169-186) on a block held in a list, before the
entries are decoded: the code units up to the next zero are an entry, and an entry
of length zero ends the block.  `fuel` bounds the number of entries. -/
def envBlockEntries : Nat → List Nat → List (List Nat)
  | 0, _ => []
  | fuel + 1, block =>
    -- end := blockp; for *(*uint16)(end) != 0 { end = end + 2 }; n := (end - blockp) / 2
    let entry := block.takeWhile (fun u => u ≠ 0)
    -- if n == 0 { break }
    if entry.length = 0 then []
    else
      -- env = append(env, string(utf16.Decode(entry))); blockp = blockp + 2 * (len(entry) + 1)
      entry :: envBlockEntries fuel (block.drop (entry.length + 1))

/-- The strings `defaultEnvByToken` reads from a block: each entry decoded by
`string(utf16.Decode(entry))`. -/
def envOfBlock (block : List Nat) : List GoString :=
  (envBlockEntries block.length block).map (fun entry => stringOfRunes (utf16Decode entry))

/-! ## Starting a session on Windows (pty_windows.go, conpty_windows.go, process_windows.go)

Every call into the operating system or a library answers from a `StartWorld`; what a
start does to the resources of the session is a trace of `WinAction`s, as for
`Close`. -/

/-- The answers of the operating system and of the libraries during one start: `none` is
success (a `nil` error), `some e` the error. -/
structure StartWorld where
  /-- The error of `defaultEnvByToken` in lines 51-57 of pty_windows.go, `none` also when
  the branch is not taken. -/
  defaultEnv : Option PtyErr
  /-- The error of `NormalizeCommandConfig(cc)`. -/
  normalize : Option PtyErr
  /-- The value of `ProbeConPTYFeature()`. -/
  probe : Bool
  /-- The first `os.Pipe()` of `openConPTY`. -/
  pipe1 : Option PtyErr
  /-- The second `os.Pipe()` of `openConPTY`. -/
  pipe2 : Option PtyErr
  /-- The call `windows.CreatePseudoConsole`. -/
  createPseudoConsole : Option PtyErr
  /-- The call `windows.NewProcThreadAttributeList(1)`, which returns a `nil` container
  with its error. -/
  newAttrList : Option PtyErr
  /-- The call `attrList.Update`. -/
  updateAttrList : Option PtyErr
  /-- The call `windows.UTF16PtrFromString(cmdline)`. -/
  cmdlineU16 : Option PtyErr
  /-- The call `windows.UTF16PtrFromString(cc.Dir)`. -/
  dirU16 : Option PtyErr
  /-- The call `windows.UTF16PtrFromString(cc.Argv[0])`. -/
  argv0U16 : Option PtyErr
  /-- The call `windows.CreateProcess` or `windows.CreateProcessAsUser`. -/
  createProcess : Option PtyErr
  /-- Whether `procReleasePseudoConsole.Find()` returns `nil`. -/
  releaseFound : Bool
  /-- The `HRESULT` `r0` of the call of `ReleasePseudoConsole`. -/
  releaseResult : Nat
  /-- Whether the handle `conpty` is neither `0` nor `windows.InvalidHandle`. -/
  conPtyValid : Bool
  /-- Whether `hPtyReference` is neither `0` nor `windows.InvalidHandle`. -/
  ptyReferenceOpen : Bool

/-- How `StartWithSysProcAttr` ends: with a session and a `nil` error, with an error, or
with the run-time fault of a `nil` pointer dereference. -/
inductive StartResult where
  | session
  | error (e : PtyErr)
  | fault
  deriving DecidableEq

/-- The method `openConPTY(sz)` (conpty_windows.go lines 31-70): its error and what it
acquired and released. -/
def openConPTY (w : StartWorld) : Option PtyErr × List WinAction :=
  -- if !ProbeConPTYFeature() { return ErrConPTYNotSupported }
  if w.probe = false then (some PtyErr.ErrConPTYNotSupported, [])
  else
    -- p.readPipe, subprocessWritePipe, err = os.Pipe()
    match w.pipe1 with
    | some e => (some e, [])
    | none =>
      let t := [WinAction.acquire WinResource.readPipe,
        WinAction.acquire WinResource.subprocessWritePipe]
      -- subprocessReadPipe, p.writePipe, err = os.Pipe()
      match w.pipe2 with
      | some e =>
        (some e, t ++ [WinAction.release WinResource.readPipe,
          WinAction.release WinResource.subprocessWritePipe])
      | none =>
        let t := t ++ [WinAction.acquire WinResource.subprocessReadPipe,
          WinAction.acquire WinResource.writePipe]
        -- err = windows.CreatePseudoConsole(...)
        match w.createPseudoConsole with
        | some e =>
          (some e, t ++ [WinAction.release WinResource.readPipe,
            WinAction.release WinResource.writePipe,
            WinAction.release WinResource.subprocessWritePipe,
            WinAction.release WinResource.subprocessReadPipe])
        | none =>
          (none, t ++ [WinAction.acquire WinResource.conPty,
            WinAction.release WinResource.subprocessWritePipe,
            WinAction.release WinResource.subprocessReadPipe])

/-- The method `createProcThreadAttList()` (conpty_windows.go lines 72-81): whether the
returned container is not `nil`, the error, and the trace.  When `Update` fails the
container is returned together with the error. -/
def createProcThreadAttList (w : StartWorld) : Bool × Option PtyErr × List WinAction :=
  match w.newAttrList with
  | some e => (false, some e, [])
  | none => (true, w.updateAttrList, [WinAction.acquire WinResource.attrList])

/-- The function `makeConPTYAutoCloseReadPipe(conpty)` (conpty_windows.go lines 96-131). -/
def makeConPTYAutoCloseReadPipe (w : StartWorld) : Option PtyErr × List WinAction :=
  if w.releaseFound then
    -- r0, _, _ := procReleasePseudoConsole.Call(uintptr(conpty))
    if w.releaseResult ≠ 0 then
      (some (PtyErr.errno w.releaseResult), [WinAction.releasePseudoConsole])
    else (none, [WinAction.releasePseudoConsole])
  else if w.conPtyValid = false then (some (PtyErr.text (str "invalid ConPTY handle")), [])
  else if w.ptyReferenceOpen then (none, [WinAction.closePtyReference])
  else (none, [])

/-- The method `createProcess(cc, sys)` (process_windows.go lines 16-94) with
`createStartupInfoEx` (lines 125-144): whether `p.attrList` is not `nil` afterwards,
the error, and the trace.  `createStartupInfoEx` assigns `p.attrList` before it looks
at the error; the deferred `CloseHandle(pi.Thread)` runs when the method returns. -/
def createProcess (w : StartWorld) : Bool × Option PtyErr × List WinAction :=
  -- siEx, err := p.createStartupInfoEx(sys)
  let a := createProcThreadAttList w
  match a.2.1 with
  | some e => (a.1, some e, a.2.2)
  | none =>
    -- cmdlineU16, err := windows.UTF16PtrFromString(cmdline)
    match w.cmdlineU16 with
    | some e => (a.1, some e, a.2.2)
    | none =>
      -- dirU16, err := windows.UTF16PtrFromString(cc.Dir)
      match w.dirU16 with
      | some e => (a.1, some e, a.2.2)
      | none =>
        -- argv0U16, err := windows.UTF16PtrFromString(cc.Argv[0])
        match w.argv0U16 with
        | some e => (a.1, some e, a.2.2)
        | none =>
          -- err = windows.CreateProcess(...)
          match w.createProcess with
          | some e => (a.1, some e, a.2.2)
          | none =>
            -- defer windows.CloseHandle(pi.Thread); p.processHandle = pi.Process
            -- go p.processWaiter()
            let t := a.2.2 ++ [WinAction.acquire WinResource.processHandle,
              WinAction.acquire WinResource.threadHandle, WinAction.startWaiter]
            -- err = makeConPTYAutoCloseReadPipe(p.conPty)
            let c := makeConPTYAutoCloseReadPipe w
            match c.1 with
            | some e =>
              -- windows.TerminateProcess(p.processHandle, 0); return err
              (a.1, some e, t ++ c.2 ++ [WinAction.terminateProcess,
                WinAction.release WinResource.threadHandle])
            | none => (a.1, none, t ++ c.2 ++ [WinAction.release WinResource.threadHandle])

/-- The function `StartWithSysProcAttr(cc, sys)` (pty_windows.go lines 46-85).  The call
`p.attrList.Delete()` of line 80 reads a field of its receiver: when `p.attrList` is
`nil` it is a `nil` pointer dereference. -/
def StartWithSysProcAttr (w : StartWorld) : StartResult × List WinAction :=
  match w.defaultEnv with
  | some e => (StartResult.error e, [])
  | none =>
    match w.normalize with
    | some e => (StartResult.error e, [])
    | none =>
      -- err = p.openConPTY(cc.Size)
      let o := openConPTY w
      match o.1 with
      | some e => (StartResult.error e, o.2)
      | none =>
        -- err = p.createProcess(cc, sys)
        let c := createProcess w
        match c.2.1 with
        | some e =>
          -- windows.ClosePseudoConsole(p.conPty); p.readPipe.Close(); p.writePipe.Close()
          let t := o.2 ++ c.2.2 ++ [WinAction.release WinResource.conPty,
            WinAction.release WinResource.readPipe, WinAction.release WinResource.writePipe]
          -- p.attrList.Delete(); return nil, err
          if c.1 then (StartResult.error e, t ++ [WinAction.release WinResource.attrList])
          else (StartResult.fault, t)
        | none => (StartResult.session, o.2 ++ c.2.2)

/-- The resources a trace has acquired and not released, in the order of acquisition. -/
def heldAfter (t : List WinAction) : List WinResource :=
  t.foldl (fun held a =>
    match a with
    | WinAction.acquire r => held ++ [r]
    | WinAction.release r => held.erase r
    | _ => held) []

/-- A world in which every call succeeds and `ReleasePseudoConsole` is present. -/
def worldAllSucceed : StartWorld :=
  { defaultEnv := none, normalize := none, probe := true, pipe1 := none, pipe2 := none,
    createPseudoConsole := none, newAttrList := none, updateAttrList := none,
    cmdlineU16 := none, dirU16 := none, argv0U16 := none, createProcess := none,
    releaseFound := true, releaseResult := 0, conPtyValid := true, ptyReferenceOpen := true }

/-- The world of `worldAllSucceed` but `ReleasePseudoConsole` returns the `HRESULT`
`E_HANDLE` (`0x80070006`). -/
def worldAutoCloseFails : StartWorld := { worldAllSucceed with releaseResult := 2147942406 }

/-- The world of `worldAllSucceed` but `NewProcThreadAttributeList` fails with
`ERROR_NOT_ENOUGH_MEMORY` (8). -/
def worldAttrListFails : StartWorld := { worldAllSucceed with newAttrList := some (PtyErr.errno 8) }

/-! ## The ANSI stripper (internal/testutils/ansiStriper.go) -/

/-- The type `stripState` with its five constants (lines 12-20). -/
inductive stripState where
  | stripStateNormal
  | stripStateEsc
  | stripStateCSI
  | stripStateOSC
  | stripStateOscEsc
  deriving DecidableEq

/-- The byte `0x1B`, ESC. -/
def escByte : UInt8 := 27

/-- The byte `0x07`, BEL. -/
def belByte : UInt8 := 7

/-- The byte `'['`. -/
def lbracket : UInt8 := 91

/-- The byte `']'`. -/
def rbracket : UInt8 := 93

/-- The struct `ANSIStripper`.  `Source` is the reader as the list of the byte strings its
successive `Read` calls deliver, each with a `nil` error; after the last one `Read`
returns `0, io.EOF`. -/
structure ANSIStripper where
  Source : List GoString
  state : stripState
  deriving DecidableEq

/-- The function `NewANSIStripper(r)` (lines 22-27). -/
def NewANSIStripper (r : List GoString) : ANSIStripper :=
  { Source := r, state := stripState.stripStateNormal }

/-- Body of the loop of `Read` (lines 37-88) for one `readPtr`; the state is the buffer
`p`, `writePtr` and `s.state`.  A kept byte is written into the buffer it was read
from. -/
def stripByte (st : GoString × Nat × stripState) (readPtr : Nat) : GoString × Nat × stripState :=
  let p := st.1
  let writePtr := st.2.1
  -- b := p[readPtr]
  let b := p.getD readPtr 0
  match st.2.2 with
  | stripState.stripStateNormal =>
    if b = escByte then (p, writePtr, stripState.stripStateEsc)
    else (p.set writePtr b, writePtr + 1, stripState.stripStateNormal)
  | stripState.stripStateEsc =>
    if b = lbracket then (p, writePtr, stripState.stripStateCSI)
    else if b = rbracket then (p, writePtr, stripState.stripStateOSC)
    else (p, writePtr, stripState.stripStateNormal)
  | stripState.stripStateCSI =>
    if b ≥ 64 ∧ b ≤ 126 then (p, writePtr, stripState.stripStateNormal)
    else (p, writePtr, stripState.stripStateCSI)
  | stripState.stripStateOSC =>
    if b = belByte then (p, writePtr, stripState.stripStateNormal)
    else if b = escByte then (p, writePtr, stripState.stripStateOscEsc)
    else (p, writePtr, stripState.stripStateOSC)
  | stripState.stripStateOscEsc =>
    if b = backslash then (p, writePtr, stripState.stripStateNormal)
    else if b = lbracket then (p, writePtr, stripState.stripStateCSI)
    else if b = rbracket then (p, writePtr, stripState.stripStateOSC)
    else (p, writePtr, stripState.stripStateNormal)

/-- The method `Read(p)` (lines 29-92): the stripper afterwards, the bytes `p[:n]` of the
returned count `n`, and whether the returned error is `io.EOF` and not `nil`. -/
def ANSIStripper.Read (s : ANSIStripper) : ANSIStripper × GoString × Bool :=
  -- n, err := s.Source.Read(p)
  match s.Source with
  | [] => (s, [], true)
  | p :: rest =>
    let n := p.length
    -- if n == 0 { return 0, err }
    if n = 0 then ({ s with Source := rest }, [], false)
    else
      -- writePtr := 0; for readPtr := range n { ... }
      let st := (List.range n).foldl stripByte (p, 0, s.state)
      -- return writePtr, err
      ({ Source := rest, state := st.2.2 }, st.1.take st.2.1, false)

/-- Go's `io.ReadAll(reader)` on a stripper, with at most `fuel` calls of `Read`: the bytes
of every call are appended, and the first error, `io.EOF`, ends the reading. -/
def readAll : Nat → ANSIStripper → GoString
  | 0, _ => []
  | fuel + 1, s =>
    let r := s.Read
    if r.2.2 then r.2.1 else r.2.1 ++ readAll fuel r.1

/-- One byte of the loop of `Read` without the buffer: the next state and the byte
kept, if it is kept. -/
def stripNext (state : stripState) (b : UInt8) : stripState × Option UInt8 :=
  match state with
  | stripState.stripStateNormal =>
    if b = escByte then (stripState.stripStateEsc, none)
    else (stripState.stripStateNormal, some b)
  | stripState.stripStateEsc =>
    if b = lbracket then (stripState.stripStateCSI, none)
    else if b = rbracket then (stripState.stripStateOSC, none)
    else (stripState.stripStateNormal, none)
  | stripState.stripStateCSI =>
    if b ≥ 64 ∧ b ≤ 126 then (stripState.stripStateNormal, none)
    else (stripState.stripStateCSI, none)
  | stripState.stripStateOSC =>
    if b = belByte then (stripState.stripStateNormal, none)
    else if b = escByte then (stripState.stripStateOscEsc, none)
    else (stripState.stripStateOSC, none)
  | stripState.stripStateOscEsc =>
    if b = backslash then (stripState.stripStateNormal, none)
    else if b = lbracket then (stripState.stripStateCSI, none)
    else if b = rbracket then (stripState.stripStateOSC, none)
    else (stripState.stripStateNormal, none)

/-- The state after a byte string and the bytes kept of it, from a given state. -/
def stripRun : stripState → GoString → stripState × GoString
  | state, [] => (state, [])
  | state, b :: rest =>
    let r := stripRun (stripNext state b).1 rest
    match (stripNext state b).2 with
    | some c => (r.1, c :: r.2)
    | none => r

/-- What follows a CSI sequence whose bytes after `ESC [` are given: the bytes after the
first byte in `0x40..0x7E`; nothing if there is no such byte. -/
def afterCSI : GoString → GoString
  | [] => []
  | b :: rest => if b ≥ 64 ∧ b ≤ 126 then rest else afterCSI rest

/-- What follows an OSC sequence by the words of the claim, the bytes after `ESC ]`
being given: the bytes after the first BEL or the first `ESC \`; nothing if there is
neither. -/
def afterOSCClaimed : GoString → GoString
  | [] => []
  | b :: rest =>
    if b = belByte then rest
    else if b = escByte then
      match rest with
      | [] => []
      | c :: rest2 => if c = backslash then rest2 else afterOSCClaimed rest
    else afterOSCClaimed rest

/-- What follows an OSC sequence that ends with the first BEL or before the first ESC:
the bytes after that BEL, or that ESC and the bytes after it; nothing if there is
neither. -/
def afterOSC : GoString → GoString
  | [] => []
  | b :: rest =>
    if b = belByte then rest
    else if b = escByte then b :: rest
    else afterOSC rest

/-- The input without its escape sequences, read from the left, at most `fuel` steps:
a byte other than ESC is kept; `ESC [` is dropped with what follows up to the end of
the CSI sequence; `ESC ]` is dropped with what follows up to the end of the OSC
sequence, which `osc` decides; ESC with any other byte is dropped; so is an ESC that
ends the input. -/
def strippedAux (osc : GoString → GoString) : Nat → GoString → GoString
  | 0, _ => []
  | _ + 1, [] => []
  | fuel + 1, b :: rest =>
    if b ≠ escByte then b :: strippedAux osc fuel rest
    else
      match rest with
      | [] => []
      | c :: rest2 =>
        if c = lbracket then strippedAux osc fuel (afterCSI rest2)
        else if c = rbracket then strippedAux osc fuel (osc rest2)
        else strippedAux osc fuel rest2

/-- The stripped input by the words of the claim: an OSC sequence runs up to BEL or
`ESC \`. -/
def strippedClaimed (input : GoString) : GoString :=
  strippedAux afterOSCClaimed input.length input

/-- The stripped input where an OSC sequence runs up to BEL or ends before the next
ESC, which starts an escape sequence of its own. -/
def stripped (input : GoString) : GoString := strippedAux afterOSC input.length input

/-! ## The environment of the child on Windows (process_windows.go line 27) -/

/-- The list `dedupEnvCase(true, cc.Env)` that `createProcess` hands to `createEnvBlock`,
for the normalised configuration `cc`; `none` when `cc.Env` is nil. -/
def childEnv (lower : GoString → GoString) (cc : CommandConfig) : Option (List GoString) :=
  cc.Env.map (dedupEnvCase lower true)

/-- A configuration for Windows that sets `Argv`, and `Env` with the one entry
`systemroot=D:\Other`. -/
def cfgLowerRoot : CommandConfig :=
  { argvOnly [str "cmd.exe"] with Env := some [str "systemroot=D:\\Other"] }


/-! ## The three loops of `ApplyEnvFallbackAndInject` in closed form -/

theorem str_eq : str "=" = [eqByte] := by decide

theorem stringsCut_append_fst (k v : GoString) (hk : eqByte ∉ k) :
    (stringsCut eqByte (k ++ eqByte :: v)).1 = k := by
  induction k with
  | nil => simp [stringsCut]
  | cons c k ih =>
    have hc : c ≠ eqByte := fun h => hk (by simp [h])
    have hk' : eqByte ∉ k := fun h => hk (by simp [h])
    simp [stringsCut, hc, ih hk']

theorem envKey_envEntry (k v : GoString) (hk : eqByte ∉ k) : envKey (envEntry k v) = k := by
  simp [envKey, envEntry, str_eq, stringsCut_append_fst k v hk]

theorem GoMap.get_isSome_iff (m : GoMap) (k : GoString) : m.has k = true ↔ k ∈ m.keys := by
  induction m with
  | nil => simp [GoMap.has, GoMap.get, GoMap.keys]
  | cons p m ih =>
    obtain ⟨k', v⟩ := p
    by_cases e : k' = k
    · simp [GoMap.has, GoMap.get, GoMap.keys, e]
    · have : ¬ k = k' := fun h => e h.symm
      simp only [GoMap.has, GoMap.keys] at ih
      simp [GoMap.has, GoMap.get, GoMap.keys, e, this, ih]

theorem GoMap.get_eq_some_iff (m : GoMap) (hnd : m.keys.Nodup) (k v : GoString) :
    m.get k = some v ↔ (k, v) ∈ m := by
  induction m with
  | nil => simp [GoMap.get]
  | cons p m ih =>
    obtain ⟨k', v'⟩ := p
    simp only [GoMap.keys, List.map_cons, List.nodup_cons] at hnd
    by_cases e : k' = k
    · subst e
      have : (k', v) ∉ m := fun h => hnd.1 (List.mem_map.mpr ⟨_, h, rfl⟩)
      simp [GoMap.get, this, eq_comm]
    · have : ¬ k = k' := fun h => e h.symm
      simp [GoMap.get, e, this, ih hnd.2]

theorem foldl_envStep (Inject : GoMap) (Env : List GoString) (st : List GoString × List GoString) :
    Env.foldl (envStep Inject) st =
      (st.1 ++ keptEntries Env Inject, (Env.map envKey).reverse ++ st.2) := by
  induction Env generalizing st with
  | nil => simp [keptEntries]
  | cons s Env ih =>
    rw [List.foldl_cons, ih]
    by_cases hs : Inject.has (envKey s) = true
    · have hs' : Inject.has (stringsCut eqByte s).1 = true := hs
      simp [envStep, keptEntries, hs, hs', envKey]
    · have hs' : ¬ Inject.has (stringsCut eqByte s).1 = true := hs
      simp [envStep, keptEntries, hs, hs', envKey]

theorem foldl_injectStep (Inject : GoMap) (New : List GoString) :
    Inject.foldl injectStep New = New ++ injectEntries Inject := by
  induction Inject generalizing New with
  | nil => simp [injectEntries]
  | cons kv Inject ih =>
    rw [List.foldl_cons, ih]
    by_cases hv : kv.2 = []
    · simp [injectStep, injectEntries, hv]
    · simp [injectStep, injectEntries, hv, envEntry]

theorem foldl_fallbackStep (envKeys : List GoString) (Inject Fallback : GoMap)
    (New : List GoString) :
    Fallback.foldl (fallbackStep envKeys Inject) New =
      New ++ (Fallback.filter (fun kv => decide (kv.1 ∉ envKeys) && !Inject.has kv.1)).map
        (fun kv => envEntry kv.1 kv.2) := by
  induction Fallback generalizing New with
  | nil => simp
  | cons kv Fallback ih =>
    rw [List.foldl_cons, ih]
    by_cases h1 : kv.1 ∈ envKeys
    · simp [fallbackStep, h1]
    · by_cases h2 : Inject.has kv.1 = true
      · simp [fallbackStep, h1, h2]
      · simp [fallbackStep, h1, h2, envEntry]

theorem ApplyEnvFallbackAndInject_eq (Env : List GoString) (Fallback Inject : GoMap) :
    ApplyEnvFallbackAndInject Env Fallback Inject =
      keptEntries Env Inject ++ injectEntries Inject ++ fallbackEntries Env Fallback Inject := by
  simp [ApplyEnvFallbackAndInject, foldl_envStep, foldl_injectStep, foldl_fallbackStep,
    fallbackEntries]


theorem entriesOf_append (k : GoString) (l₁ l₂ : List GoString) :
    entriesOf k (l₁ ++ l₂) = entriesOf k l₁ ++ entriesOf k l₂ := by
  simp [entriesOf]

theorem entriesOf_map_envEntry (k : GoString) (m : GoMap) (hm : m.KeysPlain) :
    entriesOf k (m.map (fun kv => envEntry kv.1 kv.2)) =
      (m.filter (fun kv => decide (kv.1 = k))).map (fun kv => envEntry kv.1 kv.2) := by
  induction m with
  | nil => simp [entriesOf]
  | cons p m ih =>
    have hp : eqByte ∉ p.1 := hm p.1 (by simp [GoMap.keys])
    have hm' : GoMap.KeysPlain m := fun k hk => hm k (by
      simp only [GoMap.keys, List.map_cons, List.mem_cons] at hk ⊢; exact Or.inr hk)
    have ih' := ih hm'
    simp only [entriesOf] at ih' ⊢
    simp only [List.map_cons, List.filter_cons, envKey_envEntry p.1 p.2 hp, ih']
    by_cases e : p.1 = k <;> simp [e]

theorem GoMap.KeysPlain.filter {m : GoMap} (hm : m.KeysPlain) (P : GoString × GoString → Bool) :
    GoMap.KeysPlain (m.filter P) := by
  intro k hk
  apply hm k
  simp only [GoMap.keys, List.mem_map] at hk ⊢
  obtain ⟨p, hp, rfl⟩ := hk
  exact ⟨p, (List.mem_filter.mp hp).1, rfl⟩

theorem GoMap.filter_key_of_get_none (m : GoMap) (k : GoString) (h : m.has k = false) :
    m.filter (fun kv => decide (kv.1 = k)) = [] := by
  rw [List.filter_eq_nil_iff]
  intro p hp
  have : ¬ k ∈ m.keys := by
    rw [← GoMap.get_isSome_iff]; simp [h]
  simp only [decide_eq_true_eq]
  intro e
  exact this (List.mem_map.mpr ⟨p, hp, e⟩)

theorem GoMap.filter_key_of_get_some (m : GoMap) (hnd : m.keys.Nodup) (k v : GoString)
    (h : m.get k = some v) : m.filter (fun kv => decide (kv.1 = k)) = [(k, v)] := by
  induction m with
  | nil => simp [GoMap.get] at h
  | cons p m ih =>
    obtain ⟨k', v'⟩ := p
    simp only [GoMap.keys, List.map_cons, List.nodup_cons] at hnd
    by_cases e : k' = k
    · subst e
      simp only [GoMap.get, if_true, Option.some.injEq] at h
      subst h
      have hno : GoMap.has m k' = false := by
        by_contra hc
        have : GoMap.has m k' = true := by simpa using hc
        exact hnd.1 ((GoMap.get_isSome_iff m k').mp this)
      simp [List.filter_cons, GoMap.filter_key_of_get_none m k' hno]
    · simp only [GoMap.get, e, if_false] at h
      simp [List.filter_cons, e, ih hnd.2 h]

theorem entriesOf_keptEntries (k : GoString) (Env : List GoString) (Inject : GoMap) :
    entriesOf k (keptEntries Env Inject) = if Inject.has k then [] else entriesOf k Env := by
  simp only [entriesOf, keptEntries, List.filter_filter]
  by_cases h : Inject.has k = true
  · simp only [h, if_true, List.filter_eq_nil_iff]
    intro e _
    by_cases e' : envKey e = k <;> simp [e', h]
  · simp only [h]
    apply List.filter_congr
    intro e _
    by_cases e' : envKey e = k <;> simp [e', h]

theorem entriesOf_injectEntries (k : GoString) (Inject : GoMap) (hI : Inject.KeysPlain)
    (hnd : Inject.keys.Nodup) :
    entriesOf k (injectEntries Inject) =
      match Inject.get k with
      | some v => if v = [] then [] else [envEntry k v]
      | none => [] := by
  rw [injectEntries, entriesOf_map_envEntry k _ (hI.filter _), List.filter_filter]
  have hcomm : (Inject.filter (fun a => decide (a.1 = k) && decide (a.2 ≠ []))) =
      (Inject.filter (fun kv => decide (kv.1 = k))).filter (fun a => decide (a.2 ≠ [])) := by
    rw [List.filter_filter]; apply List.filter_congr; intro a _; simp [Bool.and_comm]
  rw [hcomm]
  cases hg : Inject.get k with
  | none =>
    have : Inject.has k = false := by simp [GoMap.has, hg]
    simp [GoMap.filter_key_of_get_none Inject k this]
  | some v =>
    rw [GoMap.filter_key_of_get_some Inject hnd k v hg]
    by_cases hv : v = [] <;> simp [hv]

theorem entriesOf_fallbackEntries (k : GoString) (Env : List GoString) (Fallback Inject : GoMap)
    (hF : Fallback.KeysPlain) (hnd : Fallback.keys.Nodup) :
    entriesOf k (fallbackEntries Env Fallback Inject) =
      match Fallback.get k with
      | some v => if k ∈ Env.map envKey ∨ Inject.has k = true then [] else [envEntry k v]
      | none => [] := by
  rw [fallbackEntries, entriesOf_map_envEntry k _ (hF.filter _), List.filter_filter]
  have hcomm : (Fallback.filter (fun a => decide (a.1 = k) &&
        (decide (a.1 ∉ Env.map envKey) && !Inject.has a.1))) =
      (Fallback.filter (fun kv => decide (kv.1 = k))).filter
        (fun a => decide (a.1 ∉ Env.map envKey) && !Inject.has a.1) := by
    rw [List.filter_filter]; apply List.filter_congr; intro a _; simp [Bool.and_comm]
  rw [hcomm]
  cases hg : Fallback.get k with
  | none =>
    have : Fallback.has k = false := by simp [GoMap.has, hg]
    simp [GoMap.filter_key_of_get_none Fallback k this]
  | some v =>
    rw [GoMap.filter_key_of_get_some Fallback hnd k v hg]
    by_cases h1 : k ∈ Env.map envKey
    · have hP : (decide (k ∉ Env.map envKey) && !Inject.has k) = false := by
        rw [Bool.and_eq_false_iff]; exact Or.inl (by simpa using h1)
      simp only [List.filter_cons, List.filter_nil, hP, h1, true_or, if_true, List.map_nil]
      rfl
    · by_cases h2 : Inject.has k = true
      · have hP : (decide (k ∉ Env.map envKey) && !Inject.has k) = false := by
          rw [Bool.and_eq_false_iff]; exact Or.inr (by simp [h2])
        simp only [List.filter_cons, List.filter_nil, hP]
        simp [h2]
      · have hP : (decide (k ∉ Env.map envKey) && !Inject.has k) = true := by
          rw [Bool.and_eq_true]; exact ⟨by simpa using h1, by simpa using h2⟩
        simp only [List.filter_cons, List.filter_nil, hP]
        simp [h1, h2]


theorem entriesOf_injectEntries_of_not_has (k : GoString) (Inject : GoMap) (hI : Inject.KeysPlain)
    (h : Inject.has k = false) : entriesOf k (injectEntries Inject) = [] := by
  rw [injectEntries, entriesOf_map_envEntry k _ (hI.filter _), List.filter_filter]
  have : Inject.filter (fun a => decide (a.1 = k) && decide (a.2 ≠ [])) = [] := by
    rw [List.filter_eq_nil_iff]
    intro p hp
    have h0 := List.filter_eq_nil_iff.mp (GoMap.filter_key_of_get_none Inject k h) p hp
    simp only [decide_eq_true_eq] at h0
    simp [h0]
  rw [this]; rfl

theorem entriesOf_fallbackEntries_of_has (k : GoString) (Env : List GoString)
    (Fallback Inject : GoMap) (hF : Fallback.KeysPlain)
    (h : k ∈ Env.map envKey ∨ Inject.has k = true) :
    entriesOf k (fallbackEntries Env Fallback Inject) = [] := by
  rw [fallbackEntries, entriesOf_map_envEntry k _ (hF.filter _), List.filter_filter]
  have : Fallback.filter (fun a => decide (a.1 = k) &&
      (decide (a.1 ∉ Env.map envKey) && !Inject.has a.1)) = [] := by
    rw [List.filter_eq_nil_iff]
    intro p _
    by_cases e : p.1 = k
    · subst e
      rcases h with h | h
      · simp only [Bool.and_eq_true, decide_eq_true_eq, not_and]
        intro _ h1; exact absurd h h1
      · simp [h]
    · simp [e]
  rw [this]; rfl

theorem entriesOf_apply (k : GoString) (Env : List GoString) (Fallback Inject : GoMap) :
    entriesOf k (ApplyEnvFallbackAndInject Env Fallback Inject) =
      entriesOf k (keptEntries Env Inject) ++ entriesOf k (injectEntries Inject) ++
        entriesOf k (fallbackEntries Env Fallback Inject) := by
  rw [ApplyEnvFallbackAndInject_eq, entriesOf_append, entriesOf_append]

theorem mem_entriesOf {k e : GoString} {l : List GoString} :
    e ∈ entriesOf k l ↔ e ∈ l ∧ envKey e = k := by
  simp [entriesOf]

theorem apply_nil_fallback (Env : List GoString) (Inject : GoMap) :
    ApplyEnvFallbackAndInject Env [] Inject = keptEntries Env Inject ++ injectEntries Inject := by
  simp [ApplyEnvFallbackAndInject_eq, fallbackEntries]

/-- The entries of the result under a key that `Inject` holds: the injected entry when
its value is not empty, none otherwise. -/
theorem entriesOf_apply_of_inject (Env : List GoString) (Fallback Inject : GoMap)
    (hF : Fallback.KeysPlain) (hI : Inject.KeysPlain) (hnd : Inject.keys.Nodup)
    (k v : GoString) (hk : Inject.get k = some v) :
    entriesOf k (ApplyEnvFallbackAndInject Env Fallback Inject) =
      if v = [] then [] else [envEntry k v] := by
  have hhas : Inject.has k = true := by simp [GoMap.has, hk]
  rw [entriesOf_apply, entriesOf_keptEntries, entriesOf_injectEntries k Inject hI hnd,
    entriesOf_fallbackEntries_of_has k Env Fallback Inject hF (Or.inr hhas)]
  simp [hhas, hk]

/-! ## Claims about `ApplyEnvFallbackAndInject` -/

/-- C2. Injection overrides the base environment.  For maps whose keys contain no `'='`
(keys of a map being pairwise distinct) and a key `k` that `Inject` maps to a non-empty
`v`: the result contains the entry `k=v`, every entry of the result with key `k` is
that entry, and it occurs once. -/
theorem inject_overrides_base (Env : List GoString) (Fallback Inject : GoMap)
    (hF : Fallback.KeysPlain) (hI : Inject.KeysPlain) (hnd : Inject.keys.Nodup)
    (k v : GoString) (hk : Inject.get k = some v) (hv : v ≠ []) :
    envEntry k v ∈ ApplyEnvFallbackAndInject Env Fallback Inject ∧
    (∀ e ∈ ApplyEnvFallbackAndInject Env Fallback Inject, envKey e = k → e = envEntry k v) ∧
    entriesOf k (ApplyEnvFallbackAndInject Env Fallback Inject) = [envEntry k v] := by
  have key : entriesOf k (ApplyEnvFallbackAndInject Env Fallback Inject) = [envEntry k v] := by
    rw [entriesOf_apply_of_inject Env Fallback Inject hF hI hnd k v hk, if_neg hv]
  refine ⟨?_, ?_, key⟩
  · have : envEntry k v ∈ entriesOf k (ApplyEnvFallbackAndInject Env Fallback Inject) := by
      rw [key]; simp
    exact (mem_entriesOf.mp this).1
  · intro e he hek
    have : e ∈ entriesOf k (ApplyEnvFallbackAndInject Env Fallback Inject) :=
      mem_entriesOf.mpr ⟨he, hek⟩
    rw [key] at this
    simpa using this

/-- C2 at base `[HOST=localhost, PORT=80]`, fallback `{USER: admin}`, inject
`{PORT: 443}`: the result is `[HOST=localhost, PORT=443, USER=admin]`, and `PORT=443` is
its only entry with key `PORT`. -/
theorem inject_overrides_base_witness :
    ApplyEnvFallbackAndInject [str "HOST=localhost", str "PORT=80"]
        [(str "USER", str "admin")] [(str "PORT", str "443")] =
      [str "HOST=localhost", str "PORT=443", str "USER=admin"] ∧
    (envEntry (str "PORT") (str "443") ∈ ApplyEnvFallbackAndInject
        [str "HOST=localhost", str "PORT=80"] [(str "USER", str "admin")]
        [(str "PORT", str "443")] ∧
      (∀ e ∈ ApplyEnvFallbackAndInject [str "HOST=localhost", str "PORT=80"]
        [(str "USER", str "admin")] [(str "PORT", str "443")],
        envKey e = str "PORT" → e = envEntry (str "PORT") (str "443")) ∧
      entriesOf (str "PORT") (ApplyEnvFallbackAndInject [str "HOST=localhost", str "PORT=80"]
        [(str "USER", str "admin")] [(str "PORT", str "443")]) =
        [envEntry (str "PORT") (str "443")]) :=
  ⟨by decide, inject_overrides_base _ _ _ (by decide) (by decide) (by decide) _ _ (by decide)
    (by decide)⟩

/-- C3. Deletion via injection.  For maps whose keys contain no `'='` (keys of a map
being pairwise distinct) and a key `k` that `Inject` maps to the empty string: no entry
of the result has key `k`, be it from `Env` or from `Fallback`. -/
theorem inject_empty_deletes (Env : List GoString) (Fallback Inject : GoMap)
    (hF : Fallback.KeysPlain) (hI : Inject.KeysPlain) (hnd : Inject.keys.Nodup)
    (k : GoString) (hk : Inject.get k = some []) :
    ∀ e ∈ ApplyEnvFallbackAndInject Env Fallback Inject, envKey e ≠ k := by
  have key : entriesOf k (ApplyEnvFallbackAndInject Env Fallback Inject) = [] := by
    rw [entriesOf_apply_of_inject Env Fallback Inject hF hI hnd k [] hk, if_pos rfl]
  intro e he hek
  have : e ∈ entriesOf k (ApplyEnvFallbackAndInject Env Fallback Inject) :=
    mem_entriesOf.mpr ⟨he, hek⟩
  rw [key] at this
  simp at this

/-- C3 at base `[A=1, B=2]`, fallback `{A: fallback}`, inject `{A: ""}`: the result is
`[B=2]`, without an entry for `A`. -/
theorem inject_empty_deletes_witness :
    ApplyEnvFallbackAndInject [str "A=1", str "B=2"] [(str "A", str "fallback")]
        [(str "A", str "")] = [str "B=2"] ∧
    ∀ e ∈ ApplyEnvFallbackAndInject [str "A=1", str "B=2"] [(str "A", str "fallback")]
        [(str "A", str "")], envKey e ≠ str "A" :=
  ⟨by decide, inject_empty_deletes _ _ _ (by decide) (by decide) (by decide) _ (by decide)⟩

/-- The effect of one fallback entry on the list, whatever the keys are.  Let `k`, with
value `v`, be a key of `Fallback`, visited after the entries `F₁` and before the entries
`F₂`.  If `k` is the key of an entry of `Env` or a key of `Inject`, the result is the
result of the same call without `k` in `Fallback`: nothing is added for `k`.  If it is
neither, the result is the result of the same call without `k`, with the one entry `k=v`
added, at the place of `k` among the fallback entries.  At base `[A=original]` with
fallback `{A: fallback}` the result is `[A=original]`; at base `[MYVAR=1, TERM=custom]`
with fallback `{TERM: vt100}` it is the base unchanged, with its one `TERM` entry. -/
theorem fallback_only_for_absent_keys :
    (∀ (Env : List GoString) (F₁ F₂ Inject : GoMap) (k v : GoString),
      if k ∈ Env.map envKey ∨ Inject.has k = true then
        ApplyEnvFallbackAndInject Env (F₁ ++ (k, v) :: F₂) Inject =
          ApplyEnvFallbackAndInject Env (F₁ ++ F₂) Inject
      else
        ∃ rest : List GoString,
          ApplyEnvFallbackAndInject Env (F₁ ++ F₂) Inject =
            ApplyEnvFallbackAndInject Env F₁ Inject ++ rest ∧
          ApplyEnvFallbackAndInject Env (F₁ ++ (k, v) :: F₂) Inject =
            ApplyEnvFallbackAndInject Env F₁ Inject ++ envEntry k v :: rest) ∧
    ApplyEnvFallbackAndInject [str "A=original"] [(str "A", str "fallback")] [] =
      [str "A=original"] ∧
    ApplyEnvFallbackAndInject [str "MYVAR=1", str "TERM=custom"] [(str "TERM", str "vt100")] [] =
      [str "MYVAR=1", str "TERM=custom"] := by
  refine ⟨?_, by decide, by decide⟩
  intro Env F₁ F₂ Inject k v
  have hsplit : ∀ F : GoMap, fallbackEntries Env (F₁ ++ F) Inject =
      fallbackEntries Env F₁ Inject ++ fallbackEntries Env F Inject := by
    intro F; simp [fallbackEntries]
  by_cases hc : k ∈ Env.map envKey ∨ Inject.has k = true
  · rw [if_pos hc, ApplyEnvFallbackAndInject_eq, ApplyEnvFallbackAndInject_eq, hsplit, hsplit]
    have : fallbackEntries Env ((k, v) :: F₂) Inject = fallbackEntries Env F₂ Inject := by
      have hP : (decide (k ∉ Env.map envKey) && !Inject.has k) = false := by
        rcases hc with h | h
        · rw [Bool.and_eq_false_iff]; exact Or.inl (by simpa using h)
        · rw [Bool.and_eq_false_iff]; exact Or.inr (by simp [h])
      simp only [fallbackEntries, List.filter_cons, hP]
      rfl
    rw [this]
  · rw [if_neg hc]
    refine ⟨fallbackEntries Env F₂ Inject, ?_, ?_⟩
    · rw [ApplyEnvFallbackAndInject_eq, ApplyEnvFallbackAndInject_eq, hsplit, List.append_assoc,
        List.append_assoc, List.append_assoc]
    · have : fallbackEntries Env ((k, v) :: F₂) Inject =
          envEntry k v :: fallbackEntries Env F₂ Inject := by
        have hP : (decide (k ∉ Env.map envKey) && !Inject.has k) = true := by
          rw [not_or] at hc
          rw [Bool.and_eq_true]; exact ⟨by simpa using hc.1, by simpa using hc.2⟩
        simp only [fallbackEntries, List.filter_cons, hP]
        rfl
      rw [ApplyEnvFallbackAndInject_eq, ApplyEnvFallbackAndInject_eq, hsplit, this,
        List.append_assoc, List.append_assoc, List.append_assoc]

/-- The entries of the result by key, for maps whose keys contain no `'='` (keys of a map
being pairwise distinct) and a key `k` that `Fallback` maps to `v`.  The entries of the result with key
`k` are: those of the call with an empty fallback when `k` is a key of `Inject`; exactly
the entries of `Env` with key `k`, in order, when `k` is the key of an entry of `Env`;
and the single entry `k=v` when `k` is neither. -/
theorem fallback_entries_by_key (Env : List GoString) (Fallback Inject : GoMap)
    (hF : Fallback.KeysPlain) (hI : Inject.KeysPlain) (hnd : Fallback.keys.Nodup)
    (k v : GoString) (hk : Fallback.get k = some v) :
    entriesOf k (ApplyEnvFallbackAndInject Env Fallback Inject) =
      if Inject.has k = true then entriesOf k (ApplyEnvFallbackAndInject Env [] Inject)
      else if k ∈ Env.map envKey then entriesOf k Env
      else [envEntry k v] := by
  by_cases h2 : Inject.has k = true
  · rw [if_pos h2, entriesOf_apply,
      entriesOf_fallbackEntries_of_has k Env Fallback Inject hF (Or.inr h2),
      apply_nil_fallback, entriesOf_append, List.append_nil]
  · have h2' : Inject.has k = false := by simpa using h2
    rw [if_neg h2]
    by_cases h1 : k ∈ Env.map envKey
    · rw [if_pos h1, entriesOf_apply, entriesOf_keptEntries,
        entriesOf_injectEntries_of_not_has k Inject hI h2',
        entriesOf_fallbackEntries_of_has k Env Fallback Inject hF (Or.inl h1)]
      simp [h2']
    · have hE : entriesOf k Env = [] := by
        simp only [entriesOf, List.filter_eq_nil_iff, decide_eq_true_eq]
        intro e he hek
        exact h1 (List.mem_map.mpr ⟨e, he, hek⟩)
      rw [if_neg h1, entriesOf_apply, entriesOf_keptEntries,
        entriesOf_injectEntries_of_not_has k Inject hI h2',
        entriesOf_fallbackEntries k Env Fallback Inject hF hnd]
      simp [h1, h2', hk, hE]

/-- C4 fails as stated.  Base `[A=1]` with fallback `{A: x, A=B: y}` gives
`[A=1, A=B=y]`: `A` is the key of an entry of `Env` and nothing is added for the fallback
key `A`, but the entry added for the fallback key `A=B` reads as a second entry with
key `A`, so that the key `A`, set in `Env`, does not keep exactly its original entries.
The same list comes from base `[A=1]` with fallback `{A: x}` and inject `{A=B: y}`. -/
theorem fallback_odd_key_example :
    str "A" ∈ [str "A=1"].map envKey ∧
    ApplyEnvFallbackAndInject [str "A=1"] [(str "A", str "x"), (str "A=B", str "y")] [] =
      [str "A=1", str "A=B=y"] ∧
    entriesOf (str "A")
        (ApplyEnvFallbackAndInject [str "A=1"] [(str "A", str "x"), (str "A=B", str "y")] []) =
      [str "A=1", str "A=B=y"] ∧
    entriesOf (str "A") [str "A=1"] = [str "A=1"] ∧
    entriesOf (str "A")
        (ApplyEnvFallbackAndInject [str "A=1"] [(str "A", str "x"), (str "A=B", str "y")] []) ≠
      entriesOf (str "A") [str "A=1"] ∧
    entriesOf (str "A")
        (ApplyEnvFallbackAndInject [str "A=1"] [(str "A", str "x")] [(str "A=B", str "y")]) =
      [str "A=1", str "A=B=y"] := by
  decide

/-- C4, amended.  Fallback applies only to absent keys, for maps whose keys contain no
`'='` (keys of a map being pairwise distinct).  Let `k`, with value `v`, be a key of
`Fallback`, visited after the entries `F₁` and before the entries `F₂`.  If `k` is
neither the key of an entry of `Env` nor a key of `Inject`, the result is the result of
the same call without `k` in `Fallback` with the one entry `k=v` added, and the entries
of the result with key `k` are exactly `[k=v]`.  Otherwise the result is the result of
the same call without `k`: no entry is added for `k`, and the entries of the result
with key `k` are exactly the entries of `Env` with key `k`, in their order, when `k` is
no key of `Inject`, and those of the call with an empty fallback when it is. -/
theorem fallback_only_for_absent_plain_keys (Env : List GoString) (F₁ F₂ Inject : GoMap)
    (k v : GoString) (hF : GoMap.KeysPlain (F₁ ++ (k, v) :: F₂)) (hI : Inject.KeysPlain)
    (hnd : (GoMap.keys (F₁ ++ (k, v) :: F₂)).Nodup) :
    (if k ∈ Env.map envKey ∨ Inject.has k = true then
      ApplyEnvFallbackAndInject Env (F₁ ++ (k, v) :: F₂) Inject =
        ApplyEnvFallbackAndInject Env (F₁ ++ F₂) Inject
    else
      ∃ rest : List GoString,
        ApplyEnvFallbackAndInject Env (F₁ ++ F₂) Inject =
          ApplyEnvFallbackAndInject Env F₁ Inject ++ rest ∧
        ApplyEnvFallbackAndInject Env (F₁ ++ (k, v) :: F₂) Inject =
          ApplyEnvFallbackAndInject Env F₁ Inject ++ envEntry k v :: rest) ∧
    entriesOf k (ApplyEnvFallbackAndInject Env (F₁ ++ (k, v) :: F₂) Inject) =
      (if Inject.has k = true then entriesOf k (ApplyEnvFallbackAndInject Env [] Inject)
      else if k ∈ Env.map envKey then entriesOf k Env
      else [envEntry k v]) := by
  have hget : GoMap.get (F₁ ++ (k, v) :: F₂) k = some v :=
    (GoMap.get_eq_some_iff _ hnd k v).mpr (by simp)
  exact ⟨fallback_only_for_absent_keys.1 Env F₁ F₂ Inject k v,
    fallback_entries_by_key Env _ Inject hF hI hnd k v hget⟩

/-- C4, amended, at base `[MYVAR=1, TERM=custom]` with fallback
`{COLORTERM: truecolor, TERM: vt100}` and the key `TERM`: the result is the result
without `TERM` in the fallback, `[MYVAR=1, TERM=custom, COLORTERM=truecolor]`, and its
entries with key `TERM` are the one of the base. -/
theorem fallback_only_for_absent_plain_keys_witness :
    ApplyEnvFallbackAndInject [str "MYVAR=1", str "TERM=custom"]
        [(str "COLORTERM", str "truecolor"), (str "TERM", str "vt100")] [] =
      [str "MYVAR=1", str "TERM=custom", str "COLORTERM=truecolor"] ∧
    entriesOf (str "TERM") (ApplyEnvFallbackAndInject [str "MYVAR=1", str "TERM=custom"]
        [(str "COLORTERM", str "truecolor"), (str "TERM", str "vt100")] []) =
      [str "TERM=custom"] := by
  have h := fallback_only_for_absent_plain_keys [str "MYVAR=1", str "TERM=custom"]
    [(str "COLORTERM", str "truecolor")] [] [] (str "TERM") (str "vt100")
    (by decide) (by decide) (by decide)
  have hc : str "TERM" ∈ [str "MYVAR=1", str "TERM=custom"].map envKey ∨
      GoMap.has [] (str "TERM") = true := by decide
  exact ⟨(Eq.mp (if_pos hc) h.1).trans (by decide), h.2.trans (by decide)⟩

/-- C5. Base entries pass through verbatim.  The result begins with the entries of `Env`
whose key is not a key of `Inject`, unchanged and in their order, duplicates and entries
without `'='` included; every entry after them is `k=v` for an entry of `Inject` with a
non-empty value or for an entry of `Fallback`.  At base `[A, B=, A, C=1]` with fallback
`{D: 2}` the result is `[A, B=, A, C=1, D=2]`. -/
theorem base_entries_pass_through :
    (∀ (Env : List GoString) (Fallback Inject : GoMap),
      ∃ rest : List GoString,
        ApplyEnvFallbackAndInject Env Fallback Inject =
          Env.filter (fun s => !Inject.has (envKey s)) ++ rest ∧
        ∀ e ∈ rest,
          (∃ k v, (k, v) ∈ Inject ∧ v ≠ [] ∧ e = envEntry k v) ∨
          (∃ k v, (k, v) ∈ Fallback ∧ e = envEntry k v)) ∧
    ApplyEnvFallbackAndInject [str "A", str "B=", str "A", str "C=1"] [(str "D", str "2")] [] =
      [str "A", str "B=", str "A", str "C=1", str "D=2"] := by
  refine ⟨?_, by decide⟩
  intro Env Fallback Inject
  refine ⟨injectEntries Inject ++ fallbackEntries Env Fallback Inject, ?_, ?_⟩
  · rw [ApplyEnvFallbackAndInject_eq, List.append_assoc]; rfl
  · intro e he
    rcases List.mem_append.mp he with he | he
    · left
      simp only [injectEntries, List.mem_map, List.mem_filter, decide_eq_true_eq] at he
      obtain ⟨⟨k, v⟩, ⟨hm, hv⟩, rfl⟩ := he
      exact ⟨k, v, hm, hv, rfl⟩
    · right
      simp only [fallbackEntries, List.mem_map, List.mem_filter] at he
      obtain ⟨⟨k, v⟩, ⟨hm, _⟩, rfl⟩ := he
      exact ⟨k, v, hm, rfl⟩

/-! ## `NormalizeCommandConfig`, statement by statement -/

section steps
variable (h : Host) (wd : GoString) (osenv : List GoString)
variable (A : List GoString) (D : GoString) (E : Option (List GoString)) (F I : Option GoMap)
  (S : TermSize) (g : CommandConfig)

theorem Frame.defaultDir_mk :
    Frame.defaultDir wd ⟨⟨A, D, E, F, I, S⟩, g⟩ =
      ⟨⟨A, if D = [] then wd else D, E, F, I, S⟩, g⟩ := by
  unfold Frame.defaultDir Frame.setDir; split_ifs <;> rfl

theorem Frame.absDir_mk :
    Frame.absDir h wd ⟨⟨A, D, E, F, I, S⟩, g⟩ =
      ⟨⟨A, if h.isAbs D then D else h.join wd D, E, F, I, S⟩, g⟩ := by
  unfold Frame.absDir Frame.setDir; split_ifs <;> simp_all

theorem Frame.storeArgv0_mk (a a' v : GoString) (r r' : List GoString)
    (D' : GoString) (E' : Option (List GoString)) (F' I' : Option GoMap) (S' : TermSize) :
    Frame.storeArgv0 ⟨⟨a :: r, D, E, F, I, S⟩, ⟨a' :: r', D', E', F', I', S'⟩⟩ v =
      ⟨⟨v :: r, D, E, F, I, S⟩, ⟨v :: r', D', E', F', I', S'⟩⟩ := by
  simp [Frame.storeArgv0]

theorem Frame.absArgv0_mk (a a' : GoString) (r r' : List GoString)
    (D' : GoString) (E' : Option (List GoString)) (F' I' : Option GoMap) (S' : TermSize) :
    Frame.absArgv0 h wd ⟨⟨a :: r, D, E, F, I, S⟩, ⟨a' :: r', D', E', F', I', S'⟩⟩ =
      ⟨⟨(if h.isAbs a then a else h.join wd a) :: r, D, E, F, I, S⟩,
       ⟨(if h.isAbs a then a' else h.join wd a) :: r', D', E', F', I', S'⟩⟩ := by
  unfold Frame.absArgv0; split_ifs <;> simp_all [Frame.storeArgv0, Frame.argv0]

theorem Frame.defaultEnv_mk :
    Frame.defaultEnv osenv ⟨⟨A, D, E, F, I, S⟩, g⟩ =
      ⟨⟨A, D, some (E.getD osenv), F, I, S⟩, g⟩ := by
  cases E <;> simp [Frame.defaultEnv]

theorem Frame.defaultEnvFallback_mk :
    Frame.defaultEnvFallback h osenv ⟨⟨A, D, E, F, I, S⟩, g⟩ =
      ⟨⟨A, D, E, some (F.getD (defaultFallback h osenv)), I, S⟩, g⟩ := by
  cases F <;> simp [Frame.defaultEnvFallback]

theorem Frame.defaultEnvInject_mk :
    Frame.defaultEnvInject ⟨⟨A, D, E, F, I, S⟩, g⟩ =
      ⟨⟨A, D, E, F, some (I.getD []), S⟩, g⟩ := by
  cases I <;> simp [Frame.defaultEnvInject]

theorem Frame.injectPWD_mk (m : GoMap) (A' : List GoString)
    (D' : GoString) (E' : Option (List GoString)) (F' I' : Option GoMap) (S' : TermSize) :
    Frame.injectPWD ⟨⟨A, D, E, F, some m, S⟩, ⟨A', D', E', F', I', S'⟩⟩ =
      ⟨⟨A, D, E, F, some (withPWD D m), S⟩,
       ⟨A', D', E', F', if m.has (str "PWD") then I' else I'.map (fun m => m.set (str "PWD") D),
        S'⟩⟩ := by
  unfold Frame.injectPWD withPWD; split_ifs <;> simp_all [Frame.storeInject]

theorem Frame.applyEnv_mk (e : List GoString) (fb m : GoMap) :
    Frame.applyEnv h ⟨⟨A, D, some e, some fb, some m, S⟩, g⟩ =
      ⟨⟨A, D, some (ApplyEnvFallbackAndInject e (h.rangeOrder fb) (h.rangeOrder m)),
        some fb, some m, S⟩, g⟩ := by
  simp [Frame.applyEnv]

theorem Frame.defaultSize_mk :
    Frame.defaultSize ⟨⟨A, D, E, F, I, S⟩, g⟩ =
      ⟨⟨A, D, E, F, I, resolvedSize ⟨A, D, E, F, I, S⟩⟩, g⟩ := by
  unfold Frame.defaultSize resolvedSize; split_ifs <;> rfl

end steps

theorem normalizeTail_mk (h : Host) (a a' : GoString) (r r' : List GoString)
    (D D' : GoString) (E E' : Option (List GoString)) (F F' I : Option GoMap) (S S' : TermSize) :
    normalizeTail h h.getwd.1 h.environ ⟨⟨a :: r, D, E, F, I, S⟩, ⟨a' :: r', D', E', F', I, S'⟩⟩ =
      { cc := { Argv := (if h.isAbs a then a else h.join h.getwd.1 a) :: r
                Dir := D
                Env := some (ApplyEnvFallbackAndInject (E.getD h.environ)
                  (h.rangeOrder (F.getD (defaultFallback h h.environ)))
                  (h.rangeOrder (withPWD D (I.getD []))))
                EnvFallback := some (F.getD (defaultFallback h h.environ))
                EnvInject := some (withPWD D (I.getD []))
                Size := resolvedSize ⟨a :: r, D, E, F, I, S⟩ }
        err := none
        arg := { Argv := (if h.isAbs a then a' else h.join h.getwd.1 a) :: r'
                 Dir := D'
                 Env := E'
                 EnvFallback := F'
                 EnvInject := I.map (withPWD D)
                 Size := S' } } := by
  simp only [normalizeTail, Frame.absArgv0_mk, Frame.defaultEnv_mk, Frame.defaultEnvFallback_mk,
    Frame.defaultEnvInject_mk, Frame.injectPWD_mk, Frame.applyEnv_mk, Frame.defaultSize_mk,
    Frame.ret, resolvedSize]
  cases I with
  | none => simp
  | some m =>
    by_cases hm : GoMap.has m (str "PWD") = true <;> simp [withPWD, hm]

theorem normalize_ok (h : Host) (c : CommandConfig) (a : GoString) (rest : List GoString)
    (hwd : h.getwd.2 = none) (hargv : c.Argv = a :: rest)
    (hlook : h.base a = a → (h.lookPath a).2 = none) :
    NormalizeCommandConfig h c =
      { cc := { Argv := resolvedArgv0 h a :: rest
                Dir := resolvedDir h c
                Env := some (ApplyEnvFallbackAndInject (c.Env.getD h.environ)
                  (h.rangeOrder (resolvedFallback h c)) (h.rangeOrder (resolvedInject h c)))
                EnvFallback := some (resolvedFallback h c)
                EnvInject := some (resolvedInject h c)
                Size := resolvedSize c }
        err := none
        arg := { c with
                 Argv := resolvedArgv0 h a :: rest
                 EnvInject := c.EnvInject.map (withPWD (resolvedDir h c)) } } := by
  obtain ⟨Argv, Dir, Env, Fb, Inj, Size⟩ := c
  simp only at hargv
  subst hargv
  by_cases hb : h.base a = a
  · have hl := hlook hb
    simp only [NormalizeCommandConfig, hwd, Frame.defaultDir_mk, Frame.absDir_mk, Frame.argv0,
      List.headD_cons, hb, if_true, hl, Frame.storeArgv0_mk, normalizeTail_mk, List.length_cons]
    simp [resolvedArgv0, resolvedDir, resolvedFallback, resolvedInject, resolvedSize, hb]
  · simp only [NormalizeCommandConfig, hwd, Frame.defaultDir_mk, Frame.absDir_mk, Frame.argv0,
      List.headD_cons, hb, if_false, normalizeTail_mk, List.length_cons]
    simp [resolvedArgv0, resolvedDir, resolvedFallback, resolvedInject, resolvedSize, hb]


theorem normalize_getwd_err (h : Host) (c : CommandConfig) (e : GoError)
    (hwd : h.getwd.2 = some e) :
    NormalizeCommandConfig h c = { cc := c, err := some e, arg := c } := by
  simp [NormalizeCommandConfig, hwd, Frame.ret]

theorem normalize_nil (h : Host) (c : CommandConfig) (hwd : h.getwd.2 = none)
    (hargv : c.Argv = []) :
    NormalizeCommandConfig h c =
      { cc := c, err := some (str "command arg need argv"), arg := c } := by
  simp [NormalizeCommandConfig, hwd, hargv, Frame.ret]

theorem normalize_lookup_err (h : Host) (c : CommandConfig) (a : GoString) (rest : List GoString)
    (e : GoError) (hwd : h.getwd.2 = none) (hargv : c.Argv = a :: rest)
    (hb : h.base a = a) (hl : (h.lookPath a).2 = some e) :
    NormalizeCommandConfig h c =
      { cc := { c with Argv := (h.lookPath a).1 :: rest, Dir := resolvedDir h c }
        err := some e
        arg := { c with Argv := (h.lookPath a).1 :: rest } } := by
  obtain ⟨Argv, Dir, Env, Fb, Inj, Size⟩ := c
  simp only at hargv
  subst hargv
  simp only [NormalizeCommandConfig, hwd, Frame.defaultDir_mk, Frame.absDir_mk, Frame.argv0,
    List.headD_cons, hb, if_true, hl, Frame.storeArgv0_mk, List.length_cons]
  simp [resolvedDir, Frame.ret]

/-- The error of a call, case by case. -/
theorem normalize_err (h : Host) (c : CommandConfig) :
    (NormalizeCommandConfig h c).err =
      match h.getwd.2 with
      | some e => some e
      | none =>
        match c.Argv with
        | [] => some (str "command arg need argv")
        | a :: _ => if h.base a = a then (h.lookPath a).2 else none := by
  cases hwd : h.getwd.2 with
  | some e => simp [normalize_getwd_err h c e hwd]
  | none =>
    cases hargv : c.Argv with
    | nil => simp [normalize_nil h c hwd hargv]
    | cons a rest =>
      by_cases hb : h.base a = a
      · cases hl : (h.lookPath a).2 with
        | some e => simp [normalize_lookup_err h c a rest e hwd hargv hb hl, hb, hl]
        | none => simp [normalize_ok h c a rest hwd hargv (fun _ => hl), hb, hl]
      · simp [normalize_ok h c a rest hwd hargv (fun hb' => absurd hb' hb), hb]

theorem normalize_ok_inv (h : Host) (c : CommandConfig)
    (hok : (NormalizeCommandConfig h c).err = none) :
    h.getwd.2 = none ∧ ∃ a rest, c.Argv = a :: rest ∧
      (h.base a = a → (h.lookPath a).2 = none) := by
  rw [normalize_err] at hok
  cases hwd : h.getwd.2 with
  | some e => simp [hwd] at hok
  | none =>
    refine ⟨rfl, ?_⟩
    cases hargv : c.Argv with
    | nil => simp [hwd, hargv] at hok
    | cons a rest =>
      refine ⟨a, rest, rfl, ?_⟩
      intro hb
      simpa [hwd, hargv, hb] using hok

/-! ## Visiting order and a second pass -/

theorem GoMap.has_perm {m m' : GoMap} (hp : m'.Perm m) (k : GoString) : m'.has k = m.has k := by
  have h1 := GoMap.get_isSome_iff m k
  have h2 := GoMap.get_isSome_iff m' k
  have h3 : k ∈ GoMap.keys m' ↔ k ∈ GoMap.keys m := (hp.map Prod.fst).mem_iff
  cases hm : GoMap.has m k <;> cases hm' : GoMap.has m' k <;> simp_all

theorem GoMap.KeysPlain.perm {m m' : GoMap} (hp : m'.Perm m) (hm : m.KeysPlain) :
    m'.KeysPlain := by
  intro k hk
  exact hm k ((hp.map Prod.fst).mem_iff.mp hk)

theorem keptEntries_perm {Inject Inject' : GoMap} (hp : Inject'.Perm Inject)
    (Env : List GoString) : keptEntries Env Inject' = keptEntries Env Inject := by
  unfold keptEntries
  apply List.filter_congr
  intro s _
  rw [GoMap.has_perm hp]

theorem injectEntries_perm {Inject Inject' : GoMap} (hp : Inject'.Perm Inject) :
    (injectEntries Inject').Perm (injectEntries Inject) :=
  (hp.filter _).map _

theorem fallbackEntries_perm {Fallback Fallback' Inject Inject' : GoMap}
    (hF : Fallback'.Perm Fallback) (hI : Inject'.Perm Inject) (Env : List GoString) :
    (fallbackEntries Env Fallback' Inject').Perm (fallbackEntries Env Fallback Inject) := by
  unfold fallbackEntries
  have : (fun kv : GoString × GoString => decide (kv.1 ∉ Env.map envKey) && !GoMap.has Inject' kv.1) =
      (fun kv : GoString × GoString => decide (kv.1 ∉ Env.map envKey) && !GoMap.has Inject kv.1) := by
    funext kv; rw [GoMap.has_perm hI]
  rw [this]
  exact (hF.filter _).map _

/-- The result does not depend on the visiting order of the two maps, up to the order
of the entries added. -/
theorem apply_perm {Fallback Fallback' Inject Inject' : GoMap}
    (hF : Fallback'.Perm Fallback) (hI : Inject'.Perm Inject) (Env : List GoString) :
    (ApplyEnvFallbackAndInject Env Fallback' Inject').Perm
      (ApplyEnvFallbackAndInject Env Fallback Inject) := by
  rw [ApplyEnvFallbackAndInject_eq, ApplyEnvFallbackAndInject_eq, keptEntries_perm hI]
  exact ((List.Perm.refl _).append (injectEntries_perm hI)).append (fallbackEntries_perm hF hI Env)

theorem mem_injectEntries {e : GoString} {Inject : GoMap} :
    e ∈ injectEntries Inject ↔ ∃ k v, (k, v) ∈ Inject ∧ v ≠ [] ∧ e = envEntry k v := by
  simp only [injectEntries, List.mem_map, List.mem_filter, decide_eq_true_eq]
  constructor
  · rintro ⟨⟨k, v⟩, ⟨hm, hv⟩, rfl⟩; exact ⟨k, v, hm, hv, rfl⟩
  · rintro ⟨k, v, hm, hv, rfl⟩; exact ⟨(k, v), ⟨hm, hv⟩, rfl⟩

theorem mem_fallbackEntries {e : GoString} {Env : List GoString} {Fallback Inject : GoMap} :
    e ∈ fallbackEntries Env Fallback Inject ↔
      ∃ k v, (k, v) ∈ Fallback ∧ k ∉ Env.map envKey ∧ Inject.has k = false ∧ e = envEntry k v := by
  simp only [fallbackEntries, List.mem_map, List.mem_filter, Bool.and_eq_true, decide_eq_true_eq,
    Bool.not_eq_true']
  constructor
  · rintro ⟨⟨k, v⟩, ⟨hm, h1, h2⟩, rfl⟩; exact ⟨k, v, hm, h1, h2, rfl⟩
  · rintro ⟨k, v, hm, h1, h2, rfl⟩; exact ⟨(k, v), ⟨hm, h1, h2⟩, rfl⟩

theorem GoMap.has_of_mem {m : GoMap} {k v : GoString} (h : (k, v) ∈ m) : m.has k = true :=
  (GoMap.get_isSome_iff m k).mpr (List.mem_map.mpr ⟨(k, v), h, rfl⟩)

theorem GoMap.KeysPlain.of_mem {m : GoMap} (hm : m.KeysPlain) {k v : GoString}
    (h : (k, v) ∈ m) : eqByte ∉ k :=
  hm k (List.mem_map.mpr ⟨(k, v), h, rfl⟩)

/-- A second application, the maps visited in any order, keeps the entries of the first
and adds none: the result is a rearrangement of its input. -/
theorem apply_apply_perm (Env : List GoString) (Fallback Inject Fallback' Inject' : GoMap)
    (hF : Fallback.KeysPlain) (hI : Inject.KeysPlain)
    (hFp : Fallback'.Perm Fallback) (hIp : Inject'.Perm Inject) :
    (ApplyEnvFallbackAndInject (ApplyEnvFallbackAndInject Env Fallback Inject)
      Fallback' Inject').Perm (ApplyEnvFallbackAndInject Env Fallback Inject) := by
  have hI' : Inject'.KeysPlain := hI.perm hIp
  have hF' : Fallback'.KeysPlain := hF.perm hFp
  set L := ApplyEnvFallbackAndInject Env Fallback Inject with hL
  have hLeq : L = keptEntries Env Inject ++ injectEntries Inject ++
      fallbackEntries Env Fallback Inject := ApplyEnvFallbackAndInject_eq _ _ _
  -- the entries the first loop keeps
  have h1 : keptEntries L Inject' =
      keptEntries Env Inject ++ fallbackEntries Env Fallback Inject := by
    rw [keptEntries_perm hIp, hLeq]
    unfold keptEntries
    rw [List.filter_append, List.filter_append, List.filter_filter]
    have ha : List.filter (fun a => (!GoMap.has Inject (envKey a)) && !GoMap.has Inject (envKey a))
        Env = List.filter (fun s => !GoMap.has Inject (envKey s)) Env := by
      apply List.filter_congr; intro a _; simp
    have hb : List.filter (fun s => !GoMap.has Inject (envKey s)) (injectEntries Inject) = [] := by
      rw [List.filter_eq_nil_iff]
      intro e he
      obtain ⟨k, v, hm, _, rfl⟩ := mem_injectEntries.mp he
      rw [envKey_envEntry k v (hI.of_mem hm), GoMap.has_of_mem hm]; simp
    have hc : List.filter (fun s => !GoMap.has Inject (envKey s))
        (fallbackEntries Env Fallback Inject) = fallbackEntries Env Fallback Inject := by
      rw [List.filter_eq_self]
      intro e he
      obtain ⟨k, v, hm, _, h2, rfl⟩ := mem_fallbackEntries.mp he
      rw [envKey_envEntry k v (hF.of_mem hm), h2]; rfl
    rw [ha, hb, hc, List.append_nil]
  -- the fallback adds nothing
  have h3 : fallbackEntries L Fallback' Inject' = [] := by
    unfold fallbackEntries
    rw [List.map_eq_nil_iff, List.filter_eq_nil_iff]
    rintro ⟨k, v⟩ hm
    have hm' : (k, v) ∈ Fallback := hFp.mem_iff.mp hm
    rw [GoMap.has_perm hIp]
    by_cases hi : GoMap.has Inject k = true
    · simp [hi]
    · have hi' : GoMap.has Inject k = false := by simpa using hi
      have hkL : k ∈ L.map envKey := by
        by_cases hE : k ∈ Env.map envKey
        · obtain ⟨s, hs, hsk⟩ := List.mem_map.mp hE
          refine List.mem_map.mpr ⟨s, ?_, hsk⟩
          rw [hLeq]
          apply List.mem_append_left; apply List.mem_append_left
          simp [keptEntries, hs, hsk, hi']
        · refine List.mem_map.mpr ⟨envEntry k v, ?_, envKey_envEntry k v (hF.of_mem hm')⟩
          rw [hLeq]
          apply List.mem_append_right
          exact mem_fallbackEntries.mpr ⟨k, v, hm', hE, hi', rfl⟩
      simp [hkL]
  rw [ApplyEnvFallbackAndInject_eq L, h1, h3, List.append_nil, hLeq, List.append_assoc,
    List.append_assoc]
  apply List.Perm.append_left
  exact (List.perm_append_comm).trans ((injectEntries_perm hIp).append_right _)

/-! ## The two maps after normalisation -/

theorem GoMap.keys_set (m : GoMap) (k v : GoString) :
    GoMap.keys (GoMap.set m k v) = if GoMap.has m k = true then GoMap.keys m
      else GoMap.keys m ++ [k] := by
  induction m with
  | nil => simp [GoMap.set, GoMap.keys, GoMap.has, GoMap.get]
  | cons p m ih =>
    obtain ⟨k', v'⟩ := p
    by_cases e : k' = k
    · simp [GoMap.set, GoMap.keys, GoMap.has, GoMap.get, e]
    · simp only [GoMap.keys, GoMap.has] at ih
      simp only [GoMap.set, GoMap.keys, GoMap.has, GoMap.get, e, if_false, List.map_cons, ih]
      split_ifs <;> simp

theorem GoMap.has_set_self (m : GoMap) (k v : GoString) : GoMap.has (GoMap.set m k v) k = true := by
  rw [GoMap.get_isSome_iff, GoMap.keys_set]
  split_ifs with hk
  · exact (GoMap.get_isSome_iff m k).mp hk
  · simp

theorem GoMap.get_set_self (m : GoMap) (k v : GoString) :
    GoMap.get (GoMap.set m k v) k = some v := by
  induction m with
  | nil => simp [GoMap.set, GoMap.get]
  | cons p m ih =>
    obtain ⟨k', v'⟩ := p
    by_cases e : k' = k
    · simp [GoMap.set, GoMap.get, e]
    · simp [GoMap.set, GoMap.get, e, ih]

theorem GoMap.KeysPlain.set {m : GoMap} (hm : m.KeysPlain) {k : GoString} (hk : eqByte ∉ k)
    (v : GoString) : GoMap.KeysPlain (GoMap.set m k v) := by
  intro k' hk'
  rw [GoMap.keys_set] at hk'
  split_ifs at hk'
  · exact hm k' hk'
  · rcases List.mem_append.mp hk' with h | h
    · exact hm k' h
    · simp only [List.mem_singleton] at h; rw [h]; exact hk

theorem GoMap.nodup_keys_set {m : GoMap} (hm : (GoMap.keys m).Nodup) (k v : GoString) :
    (GoMap.keys (GoMap.set m k v)).Nodup := by
  rw [GoMap.keys_set]
  split_ifs with hk
  · exact hm
  · have : k ∉ GoMap.keys m := fun hmem => hk ((GoMap.get_isSome_iff m k).mpr hmem)
    exact List.Nodup.append hm (List.nodup_singleton k) (by simpa using this)

theorem not_mem_stringsCut_fst (s : GoString) : eqByte ∉ (stringsCut eqByte s).1 := by
  induction s with
  | nil => simp [stringsCut]
  | cons c s ih =>
    by_cases e : c = eqByte
    · simp [stringsCut, e]
    · simp only [stringsCut, e, if_false, List.mem_cons, not_or]
      exact ⟨fun h => e h.symm, ih⟩

theorem defaultFallback_keysPlain (h : Host) (osenv : List GoString) :
    (defaultFallback h osenv).KeysPlain := by
  have h0 : GoMap.KeysPlain [(str "TERM", str "vt100")] := by decide
  unfold defaultFallback
  split_ifs
  · generalize ([(str "TERM", str "vt100")] : GoMap) = m at h0
    induction osenv generalizing m with
    | nil => simpa using h0
    | cons s osenv ih =>
      rw [List.foldl_cons]
      apply ih
      simp only
      split_ifs
      · exact h0.set (not_mem_stringsCut_fst s) _
      · exact h0
  · exact h0

theorem withPWD_has (dir : GoString) (m : GoMap) : GoMap.has (withPWD dir m) (str "PWD") = true := by
  unfold withPWD
  split_ifs with hm
  · exact hm
  · exact GoMap.has_set_self m _ _

theorem withPWD_withPWD (dir dir' : GoString) (m : GoMap) :
    withPWD dir' (withPWD dir m) = withPWD dir m := by
  have hp := withPWD_has dir m
  generalize withPWD dir m = m' at hp
  unfold withPWD
  rw [if_pos hp]

theorem withPWD_keysPlain (dir : GoString) {m : GoMap} (hm : m.KeysPlain) :
    (withPWD dir m).KeysPlain := by
  unfold withPWD
  split_ifs
  · exact hm
  · exact hm.set (by decide) _

theorem resolvedFallback_keysPlain (h : Host) (c : CommandConfig)
    (hF : (c.EnvFallback.getD []).KeysPlain) : (resolvedFallback h c).KeysPlain := by
  unfold resolvedFallback
  cases hc : c.EnvFallback with
  | none => exact defaultFallback_keysPlain h _
  | some m => simpa [hc] using hF

theorem resolvedInject_keysPlain (h : Host) (c : CommandConfig)
    (hI : (c.EnvInject.getD []).KeysPlain) : (resolvedInject h c).KeysPlain :=
  withPWD_keysPlain _ hI

theorem resolvedDir_isAbs (h : Host) (c : CommandConfig)
    (hjoin : ∀ p, h.isAbs (h.join h.getwd.1 p) = true) : h.isAbs (resolvedDir h c) = true := by
  unfold resolvedDir
  simp only
  split_ifs <;> first | assumption | exact hjoin _

theorem resolvedArgv0_isAbs (h : Host) (a : GoString)
    (hjoin : ∀ p, h.isAbs (h.join h.getwd.1 p) = true) : h.isAbs (resolvedArgv0 h a) = true := by
  unfold resolvedArgv0
  simp only
  split_ifs <;> first | assumption | exact hjoin _

theorem resolvedSize_ne_zero (c : CommandConfig) :
    ¬ ((resolvedSize c).Cols = 0 ∨ (resolvedSize c).Rows = 0) := by
  unfold resolvedSize
  split_ifs with h1
  · simp
  · exact h1

theorem resolvedDir_of_abs (h : Host) (c : CommandConfig) (h0 : c.Dir ≠ [])
    (habs : h.isAbs c.Dir = true) : resolvedDir h c = c.Dir := by
  unfold resolvedDir
  simp only [if_neg h0, habs, if_true]

theorem resolvedArgv0_of_abs (h : Host) (a : GoString) (hb : h.base a ≠ a)
    (ha : h.isAbs a = true) : resolvedArgv0 h a = a := by
  unfold resolvedArgv0
  simp only [if_neg hb, ha, if_true]

theorem resolvedInject_of_has (h : Host) (c : CommandConfig) (m : GoMap)
    (hm : c.EnvInject = some m) (hp : m.has (str "PWD") = true) : resolvedInject h c = m := by
  unfold resolvedInject withPWD
  simp only [hm, Option.getD_some, hp, if_true]

theorem resolvedFallback_of_some (h : Host) (c : CommandConfig) (m : GoMap)
    (hm : c.EnvFallback = some m) : resolvedFallback h c = m := by
  unfold resolvedFallback
  simp only [hm, Option.getD_some]

theorem resolvedSize_of_ne_zero (c : CommandConfig)
    (hs : ¬ (c.Size.Cols = 0 ∨ c.Size.Rows = 0)) : resolvedSize c = c.Size := by
  unfold resolvedSize
  rw [if_neg hs]

/-! ## The Unix host is sane -/

theorem unixClean_isAbs (p : GoString) (hp : unixIsAbs p = true) :
    unixIsAbs (unixClean p) = true := by
  unfold unixClean
  simp only [hp, if_true]
  have : str "/" = [slash] := by decide
  rw [this]
  simp [unixIsAbs]

theorem unixJoin_isAbs (a b : GoString) (ha : unixIsAbs a = true) :
    unixIsAbs (unixJoin a b) = true := by
  have hne : a ≠ [] := by
    intro h; rw [h] at ha; simp [unixIsAbs] at ha
  unfold unixJoin
  rw [if_pos hne]
  apply unixClean_isAbs
  cases a with
  | nil => exact absurd rfl hne
  | cons c a => simpa [unixIsAbs] using ha

/-! ## Claims about `NormalizeCommandConfig` -/

/-- C1 fails as stated.  On the Unix host the configuration `cfgShell` (non-empty `Argv`,
`Env = [A=1]`, no maps) normalises without error to `Env = [A=1, PWD=/home/user,
TERM=vt100]`; normalising that result again, again without error, gives
`Env = [A=1, TERM=vt100, PWD=/home/user]`, so the two configurations differ.  Each map
has one entry here, so no visiting order gives another outcome. -/
theorem normalize_not_idempotent :
    cfgShell.Argv ≠ [] ∧
    (NormalizeCommandConfig unixHost cfgShell).err = none ∧
    (NormalizeCommandConfig unixHost cfgShell).cc.Env =
      some [str "A=1", str "PWD=/home/user", str "TERM=vt100"] ∧
    (NormalizeCommandConfig unixHost (NormalizeCommandConfig unixHost cfgShell).cc).err = none ∧
    (NormalizeCommandConfig unixHost (NormalizeCommandConfig unixHost cfgShell).cc).cc.Env =
      some [str "A=1", str "TERM=vt100", str "PWD=/home/user"] ∧
    (NormalizeCommandConfig unixHost (NormalizeCommandConfig unixHost cfgShell).cc).cc ≠
      (NormalizeCommandConfig unixHost cfgShell).cc := by
  decide

/-- C1, amended.  Let `NormalizeCommandConfig` succeed on `c`, on a host where the empty
path is not absolute and a path joined to the current directory is; let the keys of the
caller's maps contain no `'='`, and let `filepath.Base` change the normalised `Argv[0]`.
Then normalising the result again, with the current directory, inherited environment
and search path unchanged and the maps visited in any order `r`, succeeds and returns
the same `Argv`, `Dir`, `EnvFallback`, `EnvInject` and `Size`, and an `Env` list with the
same entries as the first, each as often, possibly in another order. -/
theorem normalize_idempotent_up_to_order (h : Host) (r : GoMap → GoMap) (c : CommandConfig)
    (hok : (NormalizeCommandConfig h c).err = none)
    (hF : (c.EnvFallback.getD []).KeysPlain) (hI : (c.EnvInject.getD []).KeysPlain)
    (hbase : h.base ((NormalizeCommandConfig h c).cc.Argv.headD []) ≠
      (NormalizeCommandConfig h c).cc.Argv.headD [])
    (habs : h.isAbs [] = false) (hjoin : ∀ p, h.isAbs (h.join h.getwd.1 p) = true)
    (hr : ∀ m, (h.rangeOrder m).Perm m) (hr' : ∀ m, (r m).Perm m) :
    (NormalizeCommandConfig { h with rangeOrder := r } (NormalizeCommandConfig h c).cc).err = none ∧
    (NormalizeCommandConfig { h with rangeOrder := r } (NormalizeCommandConfig h c).cc).cc.Argv =
      (NormalizeCommandConfig h c).cc.Argv ∧
    (NormalizeCommandConfig { h with rangeOrder := r } (NormalizeCommandConfig h c).cc).cc.Dir =
      (NormalizeCommandConfig h c).cc.Dir ∧
    (NormalizeCommandConfig { h with rangeOrder := r }
      (NormalizeCommandConfig h c).cc).cc.EnvFallback = (NormalizeCommandConfig h c).cc.EnvFallback ∧
    (NormalizeCommandConfig { h with rangeOrder := r }
      (NormalizeCommandConfig h c).cc).cc.EnvInject = (NormalizeCommandConfig h c).cc.EnvInject ∧
    (NormalizeCommandConfig { h with rangeOrder := r } (NormalizeCommandConfig h c).cc).cc.Size =
      (NormalizeCommandConfig h c).cc.Size ∧
    ∃ e1 e2, (NormalizeCommandConfig h c).cc.Env = some e1 ∧
      (NormalizeCommandConfig { h with rangeOrder := r }
        (NormalizeCommandConfig h c).cc).cc.Env = some e2 ∧ e2.Perm e1 := by
  obtain ⟨hwd, a, rest, hargv, hlook⟩ := normalize_ok_inv h c hok
  have e1 := normalize_ok h c a rest hwd hargv hlook
  rw [e1] at hbase ⊢
  simp only [List.headD_cons] at hbase
  have hd : h.isAbs (resolvedDir h c) = true := resolvedDir_isAbs h c hjoin
  have hd0 : resolvedDir h c ≠ [] := by
    intro h0; rw [h0, habs] at hd; exact absurd hd (by decide)
  have ha : h.isAbs (resolvedArgv0 h a) = true := resolvedArgv0_isAbs h a hjoin
  generalize hc1 : ({ Argv := resolvedArgv0 h a :: rest
                      Dir := resolvedDir h c
                      Env := some (ApplyEnvFallbackAndInject (c.Env.getD h.environ)
                        (h.rangeOrder (resolvedFallback h c)) (h.rangeOrder (resolvedInject h c)))
                      EnvFallback := some (resolvedFallback h c)
                      EnvInject := some (resolvedInject h c)
                      Size := resolvedSize c } : CommandConfig) = c1
  have c1Argv : c1.Argv = resolvedArgv0 h a :: rest := by rw [← hc1]
  have c1Dir : c1.Dir = resolvedDir h c := by rw [← hc1]
  have c1Env : c1.Env = some (ApplyEnvFallbackAndInject (c.Env.getD h.environ)
      (h.rangeOrder (resolvedFallback h c)) (h.rangeOrder (resolvedInject h c))) := by rw [← hc1]
  have c1Fb : c1.EnvFallback = some (resolvedFallback h c) := by rw [← hc1]
  have c1Inj : c1.EnvInject = some (resolvedInject h c) := by rw [← hc1]
  have c1Size : c1.Size = resolvedSize c := by rw [← hc1]
  generalize hh' : ({ h with rangeOrder := r } : Host) = h'
  have h'wd : h'.getwd = h.getwd := by rw [← hh']
  have h'abs : h'.isAbs = h.isAbs := by rw [← hh']
  have h'base : h'.base = h.base := by rw [← hh']
  have h'ro : h'.rangeOrder = r := by rw [← hh']
  have e2 := normalize_ok h' c1 (resolvedArgv0 h a) rest (by rw [h'wd]; exact hwd) c1Argv
    (fun hb => absurd (by rw [← h'base]; exact hb) hbase)
  have hA : resolvedArgv0 h' (resolvedArgv0 h a) = resolvedArgv0 h a :=
    resolvedArgv0_of_abs h' _ (by rw [h'base]; exact hbase) (by rw [h'abs]; exact ha)
  have hD : resolvedDir h' c1 = resolvedDir h c := by
    rw [resolvedDir_of_abs h' c1 (by rw [c1Dir]; exact hd0) (by rw [c1Dir, h'abs]; exact hd), c1Dir]
  have hI' : resolvedInject h' c1 = resolvedInject h c :=
    resolvedInject_of_has h' c1 _ c1Inj (withPWD_has _ _)
  have hF' : resolvedFallback h' c1 = resolvedFallback h c :=
    resolvedFallback_of_some h' c1 _ c1Fb
  have hS : resolvedSize c1 = resolvedSize c := by
    rw [resolvedSize_of_ne_zero c1 (by rw [c1Size]; exact resolvedSize_ne_zero c), c1Size]
  rw [e2, hA, hD, hI', hF', hS, h'ro, c1Env]
  refine ⟨rfl, c1Argv.symm, c1Dir.symm, c1Fb.symm, c1Inj.symm, c1Size.symm, _, _, rfl, rfl, ?_⟩
  simp only [Option.getD_some]
  exact apply_apply_perm _ _ _ _ _
    ((resolvedFallback_keysPlain h c hF).perm (hr _)) ((resolvedInject_keysPlain h c hI).perm (hr _))
    ((hr' _).trans (hr _).symm) ((hr' _).trans (hr _).symm)

/-- C1, amended, on the Unix host at `cfgWork`, the second pass visiting each map in the
reverse order: both passes succeed and the two `Env` lists hold the same entries. -/
theorem normalize_idempotent_up_to_order_witness :
    (NormalizeCommandConfig unixHost cfgWork).err = none ∧
    (NormalizeCommandConfig unixHost cfgWork).cc.Env =
      some [str "A=1", str "TERM=dumb", str "LANG=C", str "PWD=/home/user/work",
        str "COLORTERM=truecolor"] ∧
    (NormalizeCommandConfig { unixHost with rangeOrder := List.reverse }
      (NormalizeCommandConfig unixHost cfgWork).cc).err = none ∧
    ∃ e1 e2, (NormalizeCommandConfig unixHost cfgWork).cc.Env = some e1 ∧
      (NormalizeCommandConfig { unixHost with rangeOrder := List.reverse }
        (NormalizeCommandConfig unixHost cfgWork).cc).cc.Env = some e2 ∧ e2.Perm e1 :=
  have w := normalize_idempotent_up_to_order unixHost List.reverse cfgWork
    (by decide) (by decide) (by decide) (by decide) (by decide)
    (fun p => unixJoin_isAbs (str "/home/user") p (by decide)) (fun m => List.Perm.refl m)
    (fun m => List.reverse_perm m)
  ⟨by decide, by decide, w.1, w.2.2.2.2.2.2⟩

/-- A key with `'='` in a map of the caller: each pass adds the entry `A=B=c` once more,
so the `Env` lists of the first and the second pass differ in more than order. -/
theorem normalize_twice_odd_key :
    (NormalizeCommandConfig unixHost cfgOddKey).cc.Env =
      some [str "A=1", str "A=B=c", str "TERM=vt100"] ∧
    (NormalizeCommandConfig unixHost (NormalizeCommandConfig unixHost cfgOddKey).cc).cc.Env =
      some [str "A=1", str "A=B=c", str "TERM=vt100", str "A=B=c"] := by
  decide

/-- A normalised `Argv[0]` that `filepath.Base` leaves unchanged: in the root directory
`Argv = [""]` normalises to `Argv = ["/"]`, and normalising that result is an error. -/
theorem normalize_twice_root :
    (NormalizeCommandConfig rootHost (argvOnly [str ""])).err = none ∧
    (NormalizeCommandConfig rootHost (argvOnly [str ""])).cc.Argv = [str "/"] ∧
    (NormalizeCommandConfig rootHost (NormalizeCommandConfig rootHost (argvOnly [str ""])).cc).err =
      some (lookPathError (str "/") (str "is a directory")) := by
  decide

/-- A relative program path that is not a bare name is joined to the current directory
of the process, whatever `Dir` is. -/
theorem normalize_relative_argv0 (h : Host) (c : CommandConfig) (a : GoString)
    (rest : List GoString) (hwd : h.getwd.2 = none) (hargv : c.Argv = a :: rest)
    (hb : h.base a ≠ a) (ha : h.isAbs a = false) :
    (NormalizeCommandConfig h c).err = none ∧
    (NormalizeCommandConfig h c).cc.Argv = h.join h.getwd.1 a :: rest := by
  rw [normalize_ok h c a rest hwd hargv (fun hb' => absurd hb' hb)]
  simp [resolvedArgv0, hb, ha]

/-- C6 at its failing input.  On the Unix host, current directory `/home/user`, the
configuration `cfgTool` has `Dir = /srv/app` and `Argv[0] = bin/tool`, a relative path
with a separator.  Normalisation succeeds, keeps `Dir`, and returns
`Argv[0] = /home/user/bin/tool`: the path joined to the current directory, and not
`/srv/app/bin/tool`, the path joined to the normalised `Dir`. -/
theorem relative_argv0_not_joined_to_dir :
    cfgTool.Argv = [str "bin/tool"] ∧ cfgTool.Dir = str "/srv/app" ∧
    unixBase (str "bin/tool") ≠ str "bin/tool" ∧ unixIsAbs (str "bin/tool") = false ∧
    (NormalizeCommandConfig unixHost cfgTool).err = none ∧
    (NormalizeCommandConfig unixHost cfgTool).cc.Dir = str "/srv/app" ∧
    (NormalizeCommandConfig unixHost cfgTool).cc.Argv = [str "/home/user/bin/tool"] ∧
    unixHost.join (NormalizeCommandConfig unixHost cfgTool).cc.Dir (str "bin/tool") =
      str "/srv/app/bin/tool" := by
  decide

/-- C7 at its failing inputs.  On the Unix host an empty `Argv` gives the error
`command arg need argv`, as claimed.  `Argv = ["/"]` holds a path separator,
yet the search path is consulted, because `filepath.Base("/")` is `"/"`, and its error is
returned.  `Argv = [""]` holds no separator and its lookup would fail, yet no lookup is
made, because `filepath.Base("")` is `"."`: normalisation succeeds with the current
directory as `Argv[0]`. -/
theorem lookup_decided_by_base :
    (NormalizeCommandConfig unixHost (argvOnly [])).err = some (str "command arg need argv") ∧
    slash ∈ str "/" ∧
    (NormalizeCommandConfig unixHost (argvOnly [str "/"])).err =
      some (lookPathError (str "/") (str "is a directory")) ∧
    slash ∉ str "" ∧ (unixHost.lookPath (str "")).2 ≠ none ∧
    (NormalizeCommandConfig unixHost (argvOnly [str ""])).err = none ∧
    (NormalizeCommandConfig unixHost (argvOnly [str ""])).cc.Argv = [str "/home/user"] := by
  decide

/-- When the current directory can be read, an error is returned exactly when `Argv` is
empty or `filepath.Base` leaves `Argv[0]` unchanged and its lookup fails. -/
theorem normalize_err_iff (h : Host) (c : CommandConfig) (hwd : h.getwd.2 = none) :
    (NormalizeCommandConfig h c).err ≠ none ↔
      c.Argv = [] ∨ ∃ a rest, c.Argv = a :: rest ∧ h.base a = a ∧ (h.lookPath a).2 ≠ none := by
  rw [normalize_err, hwd]
  cases hargv : c.Argv with
  | nil => simp
  | cons a rest =>
    by_cases hb : h.base a = a <;> simp [hb]

/-- C8 at its failing input.  On the Unix host the caller passes `cfgLang`: `Argv =
[sh, -i]` and an injection map `{LANG: C}`.  After the call the caller's own `Argv`
reads `[/bin/sh, -i]` and the caller's own map reads `{LANG: C, PWD: /home/user}`; the
caller's `EnvFallback` is as before.  A call that fails in the lookup writes as well:
after `Argv = [nosuch]` the caller's `Argv` reads `[""]`. -/
theorem normalize_writes_through_argument :
    cfgLang.Argv = [str "sh", str "-i"] ∧
    cfgLang.EnvInject = some [(str "LANG", str "C")] ∧
    (NormalizeCommandConfig unixHost cfgLang).err = none ∧
    (NormalizeCommandConfig unixHost cfgLang).arg.Argv = [str "/bin/sh", str "-i"] ∧
    (NormalizeCommandConfig unixHost cfgLang).arg.EnvInject =
      some [(str "LANG", str "C"), (str "PWD", str "/home/user")] ∧
    (NormalizeCommandConfig unixHost cfgLang).arg.EnvFallback = cfgLang.EnvFallback ∧
    (NormalizeCommandConfig unixHost cfgLang).arg ≠ cfgLang ∧
    (NormalizeCommandConfig unixHost (argvOnly [str "nosuch"])).err ≠ none ∧
    (NormalizeCommandConfig unixHost (argvOnly [str "nosuch"])).arg.Argv = [str ""] := by
  decide

/-- The caller's argument after a successful call: `Argv[0]` holds the resolved program
path, and a non-nil `EnvInject` without `PWD` has gained it. -/
theorem normalize_arg_after (h : Host) (c : CommandConfig)
    (hok : (NormalizeCommandConfig h c).err = none) :
    (NormalizeCommandConfig h c).arg.Argv = (NormalizeCommandConfig h c).cc.Argv ∧
    (NormalizeCommandConfig h c).arg.EnvInject =
      c.EnvInject.map (withPWD (NormalizeCommandConfig h c).cc.Dir) ∧
    (NormalizeCommandConfig h c).arg.EnvFallback = c.EnvFallback := by
  obtain ⟨hwd, a, rest, hargv, hlook⟩ := normalize_ok_inv h c hok
  rw [normalize_ok h c a rest hwd hargv hlook]
  exact ⟨rfl, rfl, rfl⟩

/-- On every host, Windows included: when normalisation succeeds on a configuration
whose `EnvInject` has no `PWD` key (map keys without `'='`, pairwise distinct) and the
normalised `Dir` is not empty, the normalised `Env` has exactly one entry with key `PWD`,
the entry `PWD=<normalised Dir>`. -/
theorem normalize_injects_PWD (h : Host) (c : CommandConfig)
    (hok : (NormalizeCommandConfig h c).err = none)
    (hno : (c.EnvInject.getD []).has (str "PWD") = false)
    (hF : (c.EnvFallback.getD []).KeysPlain) (hI : (c.EnvInject.getD []).KeysPlain)
    (hnd : (c.EnvInject.getD []).keys.Nodup)
    (hdir : (NormalizeCommandConfig h c).cc.Dir ≠ [])
    (hr : ∀ m, (h.rangeOrder m).Perm m) :
    ∃ env, (NormalizeCommandConfig h c).cc.Env = some env ∧
      entriesOf (str "PWD") env = [envEntry (str "PWD") (NormalizeCommandConfig h c).cc.Dir] := by
  obtain ⟨hwd, a, rest, hargv, hlook⟩ := normalize_ok_inv h c hok
  rw [normalize_ok h c a rest hwd hargv hlook] at hdir ⊢
  simp only at hdir
  refine ⟨_, rfl, ?_⟩
  have hinj : resolvedInject h c = (c.EnvInject.getD []).set (str "PWD") (resolvedDir h c) := by
    unfold resolvedInject withPWD
    rw [hno]; rfl
  have hget : GoMap.get (resolvedInject h c) (str "PWD") = some (resolvedDir h c) := by
    rw [hinj]; exact GoMap.get_set_self _ _ _
  have hnd1 : (GoMap.keys (resolvedInject h c)).Nodup := by
    rw [hinj]; exact GoMap.nodup_keys_set hnd _ _
  have hp := hr (resolvedInject h c)
  have hnd2 : (GoMap.keys (h.rangeOrder (resolvedInject h c))).Nodup :=
    ((hp.map Prod.fst).nodup_iff).mpr hnd1
  have hget2 : GoMap.get (h.rangeOrder (resolvedInject h c)) (str "PWD") =
      some (resolvedDir h c) :=
    (GoMap.get_eq_some_iff _ hnd2 _ _).mpr
      (hp.mem_iff.mpr ((GoMap.get_eq_some_iff _ hnd1 _ _).mp hget))
  rw [entriesOf_apply_of_inject _ _ _
    ((resolvedFallback_keysPlain h c hF).perm (hr _))
    ((resolvedInject_keysPlain h c hI).perm hp) hnd2 _ _ hget2, if_neg hdir]

/-- C9 at its failing input.  On the Windows host the configuration `cfgCmd` sets
only `Argv` (no `EnvInject`).  Normalisation succeeds; the injection map it returns is
`{PWD: C:\Users\me}`, not an empty map, and the normalised `Env` holds the entry
`PWD=C:\Users\me`. -/
theorem windows_injects_PWD :
    windowsHost.windows = true ∧ cfgCmd.EnvInject = none ∧
    (NormalizeCommandConfig windowsHost cfgCmd).err = none ∧
    (NormalizeCommandConfig windowsHost cfgCmd).cc.EnvInject =
      some [(str "PWD", str "C:\\Users\\me")] ∧
    (NormalizeCommandConfig windowsHost cfgCmd).cc.Env =
      some [str "SystemRoot=C:\\Windows", str "Path=C:\\Windows\\System32",
        str "PWD=C:\\Users\\me", str "TERM=vt100"] := by
  decide

/-- C10. When normalisation succeeds (so `Argv` is not empty), the normalised `Size` is
24 rows by 80 columns, pixel fields zero, if the given `Rows` or `Cols` is zero, and is
the given `Size`, pixel fields included, if both are non-zero. -/
theorem normalize_size (h : Host) (c : CommandConfig)
    (hok : (NormalizeCommandConfig h c).err = none) :
    c.Argv ≠ [] ∧
    (NormalizeCommandConfig h c).cc.Size =
      if c.Size.Rows = 0 ∨ c.Size.Cols = 0 then { Rows := 24, Cols := 80, X := 0, Y := 0 }
      else c.Size := by
  obtain ⟨hwd, a, rest, hargv, hlook⟩ := normalize_ok_inv h c hok
  rw [normalize_ok h c a rest hwd hargv hlook]
  refine ⟨by rw [hargv]; simp, ?_⟩
  simp only [resolvedSize]
  by_cases h1 : c.Size.Cols = 0 <;> by_cases h2 : c.Size.Rows = 0 <;> simp [h1, h2]

/-- C10 on the Unix host: `cfgWork` asks for 0 rows by 132 columns and gets 24 by 80;
`cfgSized` asks for 40 by 132 with pixel size 800 by 600 and keeps it. -/
theorem normalize_size_witness :
    (NormalizeCommandConfig unixHost cfgWork).err = none ∧
    (NormalizeCommandConfig unixHost cfgWork).cc.Size =
      { Rows := 24, Cols := 80, X := 0, Y := 0 } ∧
    (NormalizeCommandConfig unixHost cfgSized).cc.Size =
      { Rows := 40, Cols := 132, X := 800, Y := 600 } :=
  ⟨by decide, (normalize_size unixHost cfgWork (by decide)).2,
    (normalize_size unixHost cfgSized (by decide)).2⟩

/-! ## Claims about the shutdown policy and `Close` -/

theorem wrapInt64_of_isInt64 (x : Int) (hx : IsInt64 x) : wrapInt64 x = x := by
  unfold IsInt64 minInt64 maxInt64 at hx
  unfold wrapInt64
  omega

theorem normalizeCloseConfig_times (cc : CloseConfig) :
    (normalizeCloseConfig cc).1.CloseTimeout = (defaultTimes cc).1 ∧
    (normalizeCloseConfig cc).1.ForceKillDelay = (defaultTimes cc).2 := by
  unfold normalizeCloseConfig defaultTimes
  simp only
  split_ifs <;> simp

theorem normalizeCloseConfig_err (cc : CloseConfig) :
    (normalizeCloseConfig cc).2 =
      if wrapInt64 ((defaultTimes cc).1 - (defaultTimes cc).2) < second then
        some PtyErr.ErrUnacceptableTimeout
      else none := by
  unfold normalizeCloseConfig defaultTimes
  simp only [one_mul]
  split_ifs <;> simp_all

/-- Where the difference of the two durations, after the default was substituted, is an
`int64`, `normalizeCloseConfig` rejects exactly the policies whose difference is less
than one second, and a policy it accepts has `CloseTimeout` at least one second greater
than `ForceKillDelay`. -/
theorem normalizeCloseConfig_exact (cc : CloseConfig)
    (hd : IsInt64 ((normalizeCloseConfig cc).1.CloseTimeout -
      (normalizeCloseConfig cc).1.ForceKillDelay)) :
    ((normalizeCloseConfig cc).2 = some PtyErr.ErrUnacceptableTimeout ↔
      (normalizeCloseConfig cc).1.CloseTimeout - (normalizeCloseConfig cc).1.ForceKillDelay
        < second) ∧
    ((normalizeCloseConfig cc).2 = none →
      (normalizeCloseConfig cc).1.ForceKillDelay + second ≤
        (normalizeCloseConfig cc).1.CloseTimeout) := by
  obtain ⟨h1, h2⟩ := normalizeCloseConfig_times cc
  rw [h1, h2] at hd ⊢
  rw [normalizeCloseConfig_err, wrapInt64_of_isInt64 _ hd]
  constructor
  · split_ifs with h <;> simp [h]
  · split_ifs with h
    · simp
    · intro _; omega

/-- C11 at its failing input.  The policy with `CloseTimeout` the least `int64` and
`ForceKillDelay` one nanosecond is a pair of `int64` durations whose exact difference,
`-9223372036854775809`, is less than one second.  The subtraction wraps to the greatest
`int64`, so `SetCloseConfig` returns no error and stores the policy, in which
`CloseTimeout` is not one second greater than `ForceKillDelay`. -/
theorem setCloseConfig_accepts_wrapped_difference :
    IsInt64 minInt64 ∧ IsInt64 1 ∧
    minInt64 - 1 < second ∧
    wrapInt64 (minInt64 - 1) = maxInt64 ∧
    (PtyUnix.SetCloseConfig (PtyUnix.started 4242)
      { CloseTimeout := minInt64, ForceKillDelay := 1, ForceKillSignal := 0 }).2 = none ∧
    (PtyUnix.SetCloseConfig (PtyUnix.started 4242)
      { CloseTimeout := minInt64, ForceKillDelay := 1, ForceKillSignal := 0 }).1.closeCfg =
      { CloseTimeout := minInt64, ForceKillDelay := 1, ForceKillSignal := SIGKILL } ∧
    ¬ (1 + second ≤ minInt64) ∧
    (PtyWin.SetCloseConfig { closeCfg := (PtyUnix.started 4242).closeCfg, closerDone := false }
      { CloseTimeout := minInt64, ForceKillDelay := 1, ForceKillSignal := 0 }).2 = none := by
  decide

/-- C12 fails as stated.  A Unix session whose child never exits: the first `Close` runs
the teardown and returns `ErrKillTimeout`; the second makes no action and returns `nil`,
not `ErrKillTimeout` again.  The same on Windows. -/
theorem close_again_returns_nil :
    ((PtyUnix.started 4242).Close worldNeverExits).2.1 = some PtyErr.ErrKillTimeout ∧
    (((PtyUnix.started 4242).Close worldNeverExits).1.Close worldNeverExits).2.2 = [] ∧
    (((PtyUnix.started 4242).Close worldNeverExits).1.Close worldNeverExits).2.1 = none ∧
    (PtyWin.started.Close winNeverExits).2.1 = some PtyErr.ErrKillTimeout ∧
    ((PtyWin.started.Close winNeverExits).1.Close winNeverExits).2.2 = [] ∧
    ((PtyWin.started.Close winNeverExits).1.Close winNeverExits).2.1 = none := by
  decide

/-- C12, amended.  On both backends, whatever happened in the first `Close` and whatever
it returned, a later call of `Close` makes no action, leaves the session as it is and
returns `nil`. -/
theorem close_again_is_nil (p : PtyUnix) (q : PtyWin) (w₁ w₂ : UnixWorld) (v₁ v₂ : WinWorld) :
    (p.Close w₁).1.Close w₂ = ((p.Close w₁).1, none, []) ∧
    (q.Close v₁).1.Close v₂ = ((q.Close v₁).1, none, []) := by
  constructor
  · unfold PtyUnix.Close
    by_cases h : p.closerDone = true <;> simp [h]
  · unfold PtyWin.Close
    by_cases h : q.closerDone = true <;> simp [h]

/-- Every `syscall.Kill` that `Close` makes sends `SIGKILL`, whatever the stored policy. -/
theorem close_signals (p : PtyUnix) (w : UnixWorld) :
    ∀ sig ∈ unixSignals (p.Close w).2.2, sig = SIGKILL := by
  unfold PtyUnix.Close PtyUnix.closeBody signalToGroup
  simp only
  split_ifs <;> simp [unixSignals]

/-- C13 at its failing input.  `SetCloseConfig` accepted and stored a policy with
`ForceKillSignal = SIGTERM`; the child does not exit within `ForceKillDelay`.  `Close`
calls `syscall.Kill` once, on the process group, with `SIGKILL` and not with `SIGTERM`. -/
theorem close_ignores_ForceKillSignal :
    sessionTerm.closeCfg.ForceKillSignal = SIGTERM ∧
    (sessionTerm.Close worldNeverExits).2.2 =
      [UnixAction.closeFile, UnixAction.selectTimer (5 * second),
        UnixAction.kill (-4242) SIGKILL, UnixAction.selectTimer (5 * second)] ∧
    unixSignals (sessionTerm.Close worldNeverExits).2.2 = [SIGKILL] ∧
    SIGKILL ≠ SIGTERM := by
  decide

/-- For a stored policy with both durations not negative and `CloseTimeout` at least
`ForceKillDelay`, the timers of `Close` add up to `CloseTimeout` at most. -/
theorem close_wait_le (p : PtyUnix) (w : UnixWorld)
    (h0 : 0 ≤ p.closeCfg.ForceKillDelay)
    (h1 : p.closeCfg.ForceKillDelay ≤ p.closeCfg.CloseTimeout)
    (h2 : p.closeCfg.CloseTimeout ≤ maxInt64) :
    unixWait (p.Close w).2.2 ≤ p.closeCfg.CloseTimeout := by
  have hw : wrapInt64 (p.closeCfg.CloseTimeout - p.closeCfg.ForceKillDelay) =
      p.closeCfg.CloseTimeout - p.closeCfg.ForceKillDelay := by
    apply wrapInt64_of_isInt64
    unfold IsInt64 minInt64
    unfold maxInt64 at h2 ⊢
    omega
  unfold PtyUnix.Close PtyUnix.closeBody signalToGroup
  simp only [hw]
  split_ifs <;> simp [unixWait, timerWait] <;> (try split_ifs) <;> omega

/-- C14 at its failing input.  `SetCloseConfig` accepts the policy with `CloseTimeout` one
second and `ForceKillDelay` minus five seconds, the difference being six seconds.  With
a child that never exits, the first timer of `Close` fires at once and the second is
six seconds: more than `CloseTimeout`. -/
theorem close_waits_past_CloseTimeout :
    (PtyUnix.SetCloseConfig (PtyUnix.started 4242)
      { CloseTimeout := 1 * second, ForceKillDelay := -5 * second, ForceKillSignal := 0 }).2 =
      none ∧
    sessionNegative.closeCfg.CloseTimeout = 1 * second ∧
    (sessionNegative.Close worldNeverExits).2.2 =
      [UnixAction.closeFile, UnixAction.selectTimer (-5 * second),
        UnixAction.kill (-4242) SIGKILL, UnixAction.selectTimer (6 * second)] ∧
    unixWait (sessionNegative.Close worldNeverExits).2.2 = 6 * second ∧
    ¬ (unixWait (sessionNegative.Close worldNeverExits).2.2 ≤
      sessionNegative.closeCfg.CloseTimeout) := by
  decide

/-- C15. The result of the first `Close` of a Unix session.  `nil` if the child exits
before `ForceKillDelay`, no signal being sent.  Otherwise one signal is sent, to the
process group when the process id is greater than one, and: `nil` if `kill` reports
`ESRCH`; after a `kill` that succeeds, `nil` if the child exits within the remaining
budget and `ErrKillTimeout` if not; after a `kill` that reports `EPERM`, `nil` if the child
exits within the remaining budget and the `EPERM` error if not; any other error of `kill`
itself.  A second `select` is made only after a `kill` that succeeded or reported
`EPERM`. -/
theorem unix_close_result (p : PtyUnix) (w : UnixWorld) (hp : p.closerDone = false) :
    (p.Close w).2.1 =
      (if w.exitsInDelay = true then none
       else
        match w.kill (if p.pid > 1 then -p.pid else p.pid) SIGKILL with
        | none => if w.exitsInBudget = true then none else some PtyErr.ErrKillTimeout
        | some e =>
          if e = ESRCH then none
          else if e = EPERM then
            (if w.exitsInBudget = true then none else some (PtyErr.errno EPERM))
          else some (PtyErr.errno e)) ∧
    unixSignals (p.Close w).2.2 = (if w.exitsInDelay = true then [] else [SIGKILL]) ∧
    unixSelects (p.Close w).2.2 =
      (if w.exitsInDelay = true then 1
       else
        match w.kill (if p.pid > 1 then -p.pid else p.pid) SIGKILL with
        | none => 2
        | some e => if e = EPERM then 2 else 1) := by
  unfold PtyUnix.Close PtyUnix.closeBody signalToGroup
  simp only [hp, Bool.false_eq_true, if_false]
  by_cases h1 : w.exitsInDelay = true
  · simp [h1, unixSignals, unixSelects]
  · simp only [h1, if_false]
    cases hk : w.kill (if p.pid > 1 then -p.pid else p.pid) SIGKILL with
    | none =>
      by_cases h2 : w.exitsInBudget = true <;> simp [h2, unixSignals, unixSelects]
    | some e =>
      by_cases he : e = ESRCH
      · subst he
        have : ESRCH ≠ EPERM := by decide
        simp [unixSignals, unixSelects, this]
      · by_cases hpm : e = EPERM
        · subst hpm
          by_cases h2 : w.exitsInBudget = true <;> simp [he, h2, unixSignals, unixSelects]
        · simp [he, hpm, unixSignals, unixSelects]

/-- C15 on a session whose child exits only after a signal that was denied: `Close`
returns `nil`, after one signal and two `select` statements. -/
theorem unix_close_result_witness :
    ((PtyUnix.started 4242).Close worldDeniedThenExit).2.1 = none ∧
    unixSignals ((PtyUnix.started 4242).Close worldDeniedThenExit).2.2 = [SIGKILL] ∧
    unixSelects ((PtyUnix.started 4242).Close worldDeniedThenExit).2.2 = 2 :=
  unix_close_result (PtyUnix.started 4242) worldDeniedThenExit (by decide)

theorem releasesOf_append (rs : List WinResource) (t₁ t₂ : List WinAction) :
    releasesOf rs (t₁ ++ t₂) = releasesOf rs t₁ ++ releasesOf rs t₂ := by
  induction t₁ with
  | nil => rfl
  | cons a t ih =>
    cases a with
    | release r =>
      simp only [List.cons_append, releasesOf]
      split_ifs <;> simp [ih]
    | _ => simpa only [List.cons_append, releasesOf] using ih

theorem killProcess_releases (q : PtyWin) (w : WinWorld) :
    releasesOf cleanupResources (q.killProcess w).2 = [] := by
  unfold PtyWin.killProcess
  simp only
  split_ifs <;> simp [releasesOf, cleanupResources]

/-- C17. The first `Close` of a Windows session returns what the escalation returns:
`nil` if the child exits before `ForceKillDelay`; an error of `TerminateProcess` other than
access denied; otherwise `nil` if the child exits within the remaining budget and
`ErrKillTimeout` if not.  In every one of these cases its actions are those of the
escalation followed by the release of the attribute list, the process handle, the
pseudo-console and the output pipe; these four are released in that order, each once,
and none of them during the escalation. -/
theorem windows_close_cleans_up (q : PtyWin) (w : WinWorld) (hq : q.closerDone = false) :
    (q.Close w).2.1 = (q.killProcess w).1 ∧
    (q.Close w).2.1 =
      (if w.exitsInDelay = true then none
       else
        match w.terminate with
        | none => if w.exitsInBudget = true then none else some PtyErr.ErrKillTimeout
        | some e =>
          if e = ERROR_ACCESS_DENIED then
            (if w.exitsInBudget = true then none else some PtyErr.ErrKillTimeout)
          else some (PtyErr.errno e)) ∧
    (q.Close w).2.2 = (q.killProcess w).2 ++
      [WinAction.release WinResource.attrList, WinAction.release WinResource.processHandle,
        WinAction.release WinResource.conPty, WinAction.release WinResource.readPipe] ∧
    releasesOf cleanupResources (q.Close w).2.2 =
      [WinResource.attrList, WinResource.processHandle, WinResource.conPty,
        WinResource.readPipe] ∧
    (q.Close w).1.closerDone = true := by
  have hc : q.Close w = ({ q with closerDone := true }, (q.killProcess w).1,
      (q.killProcess w).2 ++
        [WinAction.release WinResource.attrList, WinAction.release WinResource.processHandle,
          WinAction.release WinResource.conPty, WinAction.release WinResource.readPipe]) := by
    unfold PtyWin.Close
    simp [hq]
  refine ⟨by rw [hc], ?_, by rw [hc], ?_, by rw [hc]⟩
  · rw [hc]
    unfold PtyWin.killProcess
    simp only
    by_cases h1 : w.exitsInDelay = true
    · simp [h1]
    · simp only [h1, if_false]
      cases ht : w.terminate with
      | none => by_cases h2 : w.exitsInBudget = true <;> simp [h2]
      | some e =>
        by_cases he : e = ERROR_ACCESS_DENIED
        · subst he
          by_cases h2 : w.exitsInBudget = true <;> simp [h2]
        · simp [he]
  · rw [hc]
    simp only [releasesOf_append, killProcess_releases, List.nil_append]
    decide

/-- C17 on a session whose child never exits: `Close` returns `ErrKillTimeout` and its
actions end with the four releases. -/
theorem windows_close_cleans_up_witness :
    (PtyWin.started.Close winNeverExits).2.1 = some PtyErr.ErrKillTimeout ∧
    (PtyWin.started.Close winNeverExits).2.2 =
      [WinAction.release WinResource.writePipe, WinAction.selectTimer (5 * second),
        WinAction.terminateProcess, WinAction.selectTimer (5 * second),
        WinAction.release WinResource.attrList, WinAction.release WinResource.processHandle,
        WinAction.release WinResource.conPty, WinAction.release WinResource.readPipe] ∧
    releasesOf cleanupResources (PtyWin.started.Close winNeverExits).2.2 =
      [WinResource.attrList, WinResource.processHandle, WinResource.conPty,
        WinResource.readPipe] :=
  have w := windows_close_cleans_up PtyWin.started winNeverExits (by decide)
  ⟨by decide, by decide, w.2.2.2.1⟩

/-- C20 fails as stated.  For 24 rows and 40000 columns, both `uint16` values, the
coordinate has `X = -25536`, which is not the number of columns. -/
theorem windowsCoord_wraps :
    (40000 : Nat) < 65536 ∧ (24 : Nat) < 65536 ∧
    windowsCoord { Rows := 24, Cols := 40000, X := 0, Y := 0 } = { X := -25536, Y := 24 } ∧
    (windowsCoord { Rows := 24, Cols := 40000, X := 0, Y := 0 }).X ≠ (40000 : Int) := by
  decide

/-- C20, amended.  For a size whose `Rows` and `Cols` are at most 32767, the greatest
`int16`, the coordinate has `X` equal to `Cols` and `Y` equal to `Rows`; the pixel
fields play no part. -/
theorem windowsCoord_small (sz : TermSize) (hc : sz.Cols ≤ 32767) (hr : sz.Rows ≤ 32767) :
    (windowsCoord sz).X = (sz.Cols : Int) ∧ (windowsCoord sz).Y = (sz.Rows : Int) := by
  unfold windowsCoord int16OfUint16
  have h1 : sz.Cols % 65536 = sz.Cols := Nat.mod_eq_of_lt (by omega)
  have h2 : sz.Rows % 65536 = sz.Rows := Nat.mod_eq_of_lt (by omega)
  simp only [h1, h2]
  constructor
  · rw [if_pos (by omega)]
  · rw [if_pos (by omega)]

/-- C20, amended, at 32 rows by 60 columns. -/
theorem windowsCoord_small_witness :
    (windowsCoord { Rows := 32, Cols := 60, X := 640, Y := 480 }).X = 60 ∧
    (windowsCoord { Rows := 32, Cols := 60, X := 640, Y := 480 }).Y = 32 :=
  windowsCoord_small { Rows := 32, Cols := 60, X := 640, Y := 480 } (by decide) (by decide)

/-- A `uint16` value above 32767 arrives as that value less 65536. -/
theorem windowsCoord_large (sz : TermSize) (hc : 32768 ≤ sz.Cols) (hc' : sz.Cols < 65536) :
    (windowsCoord sz).X = (sz.Cols : Int) - 65536 := by
  unfold windowsCoord int16OfUint16
  have h1 : sz.Cols % 65536 = sz.Cols := Nat.mod_eq_of_lt hc'
  simp only [h1]
  rw [if_neg (by omega)]


/-! ## The loop that reverses in place -/

theorem swapAt_length (out : List GoString) (i j : Nat) : (swapAt out i j).length = out.length := by
  simp [swapAt]

theorem swapAt_get (out : List GoString) (i j idx : Nat) (hi : i < out.length)
    (hj : j < out.length) :
    (swapAt out i j)[idx]? =
      if idx = j then out[i]? else if idx = i then out[j]? else out[idx]? := by
  have e1 : some (out.getD j []) = out[j]? := by
    rw [List.getD_eq_getElem?_getD, List.getElem?_eq_getElem hj]; rfl
  have e2 : some (out.getD i []) = out[i]? := by
    rw [List.getD_eq_getElem?_getD, List.getElem?_eq_getElem hi]; rfl
  unfold swapAt
  rw [List.getElem?_set, List.getElem?_set]
  simp only [List.length_set, hj, hi, if_true, e1, e2]
  by_cases h1 : idx = j
  · subst h1; simp
  · by_cases h2 : idx = i
    · subst h2
      have : ¬ j = idx := fun h => h1 h.symm
      simp [this, h1]
    · have h1' : ¬ j = idx := fun h => h1 h.symm
      have h2' : ¬ i = idx := fun h => h2 h.symm
      simp [h1, h2, h1', h2']

theorem reverseSteps_spec (out : List GoString) (k : Nat) (hk : k ≤ out.length / 2) :
    ((List.range k).foldl (fun out i => swapAt out i (out.length - i - 1)) out).length =
        out.length ∧
    ∀ idx, idx < out.length →
      ((List.range k).foldl (fun out i => swapAt out i (out.length - i - 1)) out)[idx]? =
        if idx < k ∨ out.length - k ≤ idx then out[out.length - 1 - idx]? else out[idx]? := by
  induction k with
  | zero =>
    refine ⟨rfl, ?_⟩
    intro idx hidx
    have : ¬ (idx < 0 ∨ out.length - 0 ≤ idx) := by omega
    simp only [List.range_zero, List.foldl_nil, this, if_false]
  | succ k ih =>
    obtain ⟨hlen, hget⟩ := ih (by omega)
    rw [List.range_succ, List.foldl_append]
    simp only [List.foldl_cons, List.foldl_nil]
    generalize hL : (List.range k).foldl (fun out i => swapAt out i (out.length - i - 1)) out = L
      at hlen hget ⊢
    refine ⟨by rw [swapAt_length, hlen], ?_⟩
    intro idx hidx
    rw [swapAt_get L k (L.length - k - 1) idx (by omega) (by omega), hlen]
    have gk := hget k (by omega)
    have gj := hget (out.length - k - 1) (by omega)
    have gi := hget idx hidx
    rw [if_neg (by omega)] at gk
    rw [if_neg (by omega)] at gj
    by_cases h1 : idx = out.length - k - 1
    · rw [if_pos h1, gk, if_pos (by omega)]
      congr 1; omega
    · rw [if_neg h1]
      by_cases h2 : idx = k
      · rw [if_pos h2, gj, if_pos (by omega)]
        congr 1; omega
      · rw [if_neg h2, gi]
        by_cases h3 : idx < k ∨ out.length - k ≤ idx
        · rw [if_pos h3, if_pos (by omega)]
        · rw [if_neg h3, if_neg (by omega)]

/-- The loop of lines 228-231 reverses the list. -/
theorem reverseInPlace_eq (out : List GoString) : reverseInPlace out = out.reverse := by
  obtain ⟨hlen, hget⟩ := reverseSteps_spec out (out.length / 2) (le_refl _)
  unfold reverseInPlace
  apply List.ext_getElem?
  intro idx
  by_cases hidx : idx < out.length
  · rw [hget idx hidx, List.getElem?_reverse hidx]
    split_ifs with h
    · rfl
    · congr 1; omega
  · rw [List.getElem?_eq_none (by omega), List.getElem?_eq_none (by simp; omega)]

/-! ## `dedupEnvCase` in closed form -/

theorem stringsIndexByte_of_not_mem (c : UInt8) (s : GoString) (h : c ∉ s) :
    stringsIndexByte c s = -1 := by
  induction s with
  | nil => rfl
  | cons b s ih =>
    have hb : ¬ b = c := fun e => h (by simp [e])
    have hs : c ∉ s := fun e => h (by simp [e])
    simp [stringsIndexByte, hb, ih hs]

theorem stringsIndexByte_of_mem (c : UInt8) (s : GoString) (h : c ∈ s) :
    0 ≤ stringsIndexByte c s ∧ s.take (stringsIndexByte c s).toNat = (stringsCut c s).1 := by
  induction s with
  | nil => simp at h
  | cons b s ih =>
    by_cases hb : b = c
    · simp [stringsIndexByte, stringsCut, hb]
    · have hs : c ∈ s := by
        rcases List.mem_cons.mp h with e | e
        · exact absurd e.symm hb
        · exact e
      obtain ⟨h0, ht⟩ := ih hs
      have hlt : ¬ stringsIndexByte c s < 0 := by omega
      have hn : (stringsIndexByte c s + 1).toNat = (stringsIndexByte c s).toNat + 1 := by omega
      simp only [stringsIndexByte, hb, if_false, hlt, stringsCut]
      refine ⟨by omega, ?_⟩
      rw [hn, List.take_succ_cons, ht]

/-- The body of the loop, by the key of the entry. -/
theorem dedupStep_eq (lower : GoString → GoString) (ci : Bool)
    (st : List GoString × List GoString) (kv : GoString) :
    dedupStep lower ci st kv =
      match dedupKey kv with
      | none => if kv ≠ [] then (st.1 ++ [kv], st.2) else st
      | some k =>
        if (if ci = true then lower k else k) ∈ st.2 then st
        else (st.1 ++ [kv], (if ci = true then lower k else k) :: st.2) := by
  cases kv with
  | nil => simp [dedupStep, dedupKey, stringsIndexByte]
  | cons c rest =>
    by_cases hc : c = eqByte
    · subst hc
      by_cases hr : eqByte ∈ rest
      · obtain ⟨h0, ht⟩ := stringsIndexByte_of_mem eqByte rest hr
        have hlt : ¬ stringsIndexByte eqByte rest + 1 < 0 := by omega
        have hn : (stringsIndexByte eqByte rest + 1).toNat =
            (stringsIndexByte eqByte rest).toNat + 1 := by omega
        simp only [dedupStep, dedupKey, stringsIndexByte, if_true, List.drop_succ_cons,
          List.drop_zero, hlt, if_false, hn, List.take_succ_cons, ht, hr]
      · have hi := stringsIndexByte_of_not_mem eqByte rest hr
        simp [dedupStep, dedupKey, stringsIndexByte, hi, hr]
    · by_cases hr : eqByte ∈ rest
      · obtain ⟨h0, ht⟩ := stringsIndexByte_of_mem eqByte rest hr
        have hlt : ¬ stringsIndexByte eqByte rest < 0 := by omega
        have hne : ¬ stringsIndexByte eqByte rest + 1 = 0 := by omega
        have hlt' : ¬ stringsIndexByte eqByte rest + 1 < 0 := by omega
        have hn : (stringsIndexByte eqByte rest + 1).toNat =
            (stringsIndexByte eqByte rest).toNat + 1 := by omega
        simp only [dedupStep, dedupKey, stringsIndexByte, hc, if_false, hlt, hne, hlt', hn,
          List.take_succ_cons, ht, hr, if_true]
      · have hi := stringsIndexByte_of_not_mem eqByte rest hr
        simp [dedupStep, dedupKey, stringsIndexByte, hi, hr, hc]

theorem survives_some (key : GoString → Option GoString) (lower : GoString → GoString)
    (kv k : GoString) (rest : List GoString) (hk : key kv = some k) :
    survives key lower kv rest = true ↔
      ¬ ∃ kv' ∈ rest, (key kv').map lower = some (lower k) := by
  simp [survives, hk]

/-- The loop of lines 196-225 over the whole list: `out` holds the survivors, the last
first, and `saw` the keys met. -/
theorem dedupLoop_spec (lower : GoString → GoString) (env : List GoString) :
    (env.foldr (fun kv st => dedupStep lower true st kv) ([], [])).1 =
        (lastWins dedupKey lower env).reverse ∧
    ∀ k, k ∈ (env.foldr (fun kv st => dedupStep lower true st kv) ([], [])).2 ↔
      ∃ kv ∈ env, (dedupKey kv).map lower = some k := by
  induction env with
  | nil => simp [lastWins]
  | cons kv rest ih =>
    obtain ⟨ih1, ih2⟩ := ih
    rw [List.foldr_cons, dedupStep_eq]
    generalize rest.foldr (fun kv st => dedupStep lower true st kv) ([], []) = st at ih1 ih2 ⊢
    cases hk : dedupKey kv with
    | none =>
      have hs : survives dedupKey lower kv rest = decide (kv ≠ []) := by simp [survives, hk]
      by_cases he : kv = []
      · subst he
        refine ⟨?_, ?_⟩
        · simp [lastWins, hs, ih1]
        · intro k
          simp only [ne_eq, not_true_eq_false, if_false, ih2, List.mem_cons]
          constructor
          · rintro ⟨kv', hm, hkv⟩; exact ⟨kv', Or.inr hm, hkv⟩
          · rintro ⟨kv', hm | hm, hkv⟩
            · subst hm; rw [hk] at hkv; simp at hkv
            · exact ⟨kv', hm, hkv⟩
      · refine ⟨?_, ?_⟩
        · simp [lastWins, hs, he, ih1]
        · intro k
          simp only [ne_eq, he, not_false_eq_true, if_true, ih2, List.mem_cons]
          constructor
          · rintro ⟨kv', hm, hkv⟩; exact ⟨kv', Or.inr hm, hkv⟩
          · rintro ⟨kv', hm | hm, hkv⟩
            · subst hm; rw [hk] at hkv; simp at hkv
            · exact ⟨kv', hm, hkv⟩
    | some k0 =>
      simp only [if_true]
      have hsv := survives_some dedupKey lower kv k0 rest hk
      by_cases hin : lower k0 ∈ st.2
      · have hex : ∃ kv' ∈ rest, (dedupKey kv').map lower = some (lower k0) := (ih2 _).mp hin
        have hs : survives dedupKey lower kv rest = false := by
          cases h : survives dedupKey lower kv rest with
          | false => rfl
          | true => exact absurd hex (hsv.mp h)
        refine ⟨?_, ?_⟩
        · simp [lastWins, hs, hin, ih1]
        · intro k
          simp only [hin, if_true, ih2, List.mem_cons]
          constructor
          · rintro ⟨kv', hm, hkv⟩; exact ⟨kv', Or.inr hm, hkv⟩
          · rintro ⟨kv', hm | hm, hkv⟩
            · subst hm
              rw [hk] at hkv
              simp only [Option.map_some', Option.some.injEq] at hkv
              rw [← hkv]; exact hex
            · exact ⟨kv', hm, hkv⟩
      · have hex : ¬ ∃ kv' ∈ rest, (dedupKey kv').map lower = some (lower k0) :=
          fun h => hin ((ih2 _).mpr h)
        have hs : survives dedupKey lower kv rest = true := hsv.mpr hex
        refine ⟨?_, ?_⟩
        · simp [lastWins, hs, hin, ih1]
        · intro k
          simp only [hin, if_false, List.mem_cons, ih2]
          constructor
          · rintro (h | ⟨kv', hm, hkv⟩)
            · exact ⟨kv, Or.inl rfl, by rw [hk, h]; rfl⟩
            · exact ⟨kv', Or.inr hm, hkv⟩
          · rintro ⟨kv', hm | hm, hkv⟩
            · subst hm
              rw [hk] at hkv
              simp only [Option.map_some', Option.some.injEq] at hkv
              exact Or.inl hkv.symm
            · exact Or.inr ⟨kv', hm, hkv⟩

/-- With `caseInsensitive` set, `dedupEnvCase` is last write wins under the key the
code takes. -/
theorem dedupEnvCase_eq (lower : GoString → GoString) (env : List GoString) :
    dedupEnvCase lower true env = lastWins dedupKey lower env := by
  unfold dedupEnvCase
  simp only
  rw [reverseInPlace_eq, List.foldl_reverse, (dedupLoop_spec lower env).1, List.reverse_reverse]

theorem lastWins_sublist (key : GoString → Option GoString) (lower : GoString → GoString)
    (env : List GoString) : (lastWins key lower env).Sublist env := by
  induction env with
  | nil => exact List.Sublist.slnil
  | cons kv rest ih =>
    unfold lastWins
    split_ifs
    · exact ih.cons₂ kv
    · exact ih.cons kv

theorem lastWins_congr (key₁ key₂ : GoString → Option GoString) (lower : GoString → GoString)
    (env : List GoString) (h : ∀ kv ∈ env, key₁ kv = key₂ kv) :
    lastWins key₁ lower env = lastWins key₂ lower env := by
  induction env with
  | nil => rfl
  | cons kv rest ih =>
    have hrest : ∀ kv' ∈ rest, key₁ kv' = key₂ kv' := fun kv' hm => h kv' (List.mem_cons_of_mem _ hm)
    have hs : survives key₁ lower kv rest = survives key₂ lower kv rest := by
      unfold survives
      rw [h kv (List.mem_cons_self _ _)]
      cases key₂ kv with
      | none => rfl
      | some k =>
        simp only
        rw [Bool.eq_iff_iff, List.all_eq_true, List.all_eq_true]
        constructor
        · intro hall kv' hm; rw [← hrest kv' hm]; exact hall kv' hm
        · intro hall kv' hm; rw [hrest kv' hm]; exact hall kv' hm
    unfold lastWins
    rw [hs, ih hrest]

/-- The two keys differ only on an entry whose one `'='` is its first byte. -/
theorem claimedKey_eq_dedupKey (kv : GoString)
    (h : ¬ (kv.head? = some eqByte ∧ eqByte ∉ kv.tail)) : claimedKey kv = dedupKey kv := by
  cases kv with
  | nil => rfl
  | cons c rest =>
    unfold claimedKey dedupKey
    by_cases hc : c = eqByte
    · subst hc
      have : eqByte ∈ rest := by
        by_contra hn; exact h ⟨rfl, hn⟩
      simp [this]
    · simp [hc]

/-! ## Claim about `dedupEnvCase` -/

/-- C18 fails as stated.  For `env = [=a, =b]` the code returns `[=b]`: the one `'='` of
each entry, the leading one, is taken as the separator, so that both have the empty
key.  With a leading `'='` belonging to the key, as the claim has it, the two entries
have the keys `=a` and `=b`, and last write wins keeps both. -/
theorem dedupEnvCase_lone_leading_eq :
    dedupEnvCase asciiToLower true [str "=a", str "=b"] = [str "=b"] ∧
    claimedKey (str "=a") = some (str "=a") ∧ claimedKey (str "=b") = some (str "=b") ∧
    lastWins claimedKey asciiToLower [str "=a", str "=b"] = [str "=a", str "=b"] ∧
    dedupEnvCase asciiToLower true [str "=a", str "=b"] ≠
      lastWins claimedKey asciiToLower [str "=a", str "=b"] := by
  decide

/-- C18, amended.  For every list `env`, and whatever `strings.ToLower` is,
`dedupEnvCase(true, env)` is the subsequence of `env`, the survivors in their original
order, that drops empty strings, keeps every non-empty entry without `'='`, and keeps of
the entries with the same key, keys compared after `strings.ToLower`, the last one only.
The key is the text before the separator `'='`: the separator is the first `'='` after a
leading one, which then belongs to the key, and the leading `'='` itself when no other
follows it, the key then being empty.  For a list without an entry whose one `'='` is its
first byte this is last write wins under the key as the claim words it.  An example
with entries of every kind is evaluated. -/
theorem dedupEnvCase_last_wins :
    (∀ (lower : GoString → GoString) (env : List GoString),
      dedupEnvCase lower true env = lastWins dedupKey lower env ∧
      (dedupEnvCase lower true env).Sublist env ∧
      ((∀ kv ∈ env, ¬ (kv.head? = some eqByte ∧ eqByte ∉ kv.tail)) →
        dedupEnvCase lower true env = lastWins claimedKey lower env)) ∧
    dedupEnvCase asciiToLower true
        [str "Path=1", str "=C:=C:\\x", str "A", str "", str "PATH=2", str "b=3",
          str "=c:=D", str "A", str "B=4"] =
      [str "A", str "PATH=2", str "=c:=D", str "A", str "B=4"] := by
  refine ⟨?_, by decide⟩
  intro lower env
  refine ⟨dedupEnvCase_eq lower env, ?_, ?_⟩
  · rw [dedupEnvCase_eq]; exact lastWins_sublist _ _ _
  · intro h
    rw [dedupEnvCase_eq]
    exact (lastWins_congr claimedKey dedupKey lower env
      (fun kv hm => claimedKey_eq_dedupKey kv (h kv hm))).symm

/-! ## The environment block (process_windows.go) -/

/-- The four shapes of a byte sequence that starts with an encoding. -/
theorem utf8First_cases {s : List Nat} {x : Nat × Nat} (h : utf8First s = some x) :
    (∃ b0 t, s = b0 :: t ∧ b0 < 128 ∧ x = (b0, 1)) ∨
    (∃ b0 b1 t, s = b0 :: b1 :: t ∧ 194 ≤ b0 ∧ b0 ≤ 223 ∧ 128 ≤ b1 ∧ b1 ≤ 191 ∧
      x = ((b0 - 192) * 64 + (b1 - 128), 2)) ∨
    (∃ b0 b1 b2 t, s = b0 :: b1 :: b2 :: t ∧ 224 ≤ b0 ∧ b0 ≤ 239 ∧
      (if b0 = 224 then 160 else 128) ≤ b1 ∧ b1 ≤ (if b0 = 237 then 159 else 191) ∧
      128 ≤ b2 ∧ b2 ≤ 191 ∧
      x = ((b0 - 224) * 4096 + (b1 - 128) * 64 + (b2 - 128), 3)) ∨
    (∃ b0 b1 b2 b3 t, s = b0 :: b1 :: b2 :: b3 :: t ∧ 240 ≤ b0 ∧ b0 ≤ 244 ∧
      (if b0 = 240 then 144 else 128) ≤ b1 ∧ b1 ≤ (if b0 = 244 then 143 else 191) ∧
      128 ≤ b2 ∧ b2 ≤ 191 ∧ 128 ≤ b3 ∧ b3 ≤ 191 ∧
      x = ((b0 - 240) * 262144 + (b1 - 128) * 4096 + (b2 - 128) * 64 + (b3 - 128), 4)) := by
  cases s with
  | nil => simp [utf8First] at h
  | cons b0 t =>
    simp only [utf8First] at h
    by_cases h1 : b0 < 128
    · rw [if_pos h1] at h
      exact Or.inl ⟨b0, t, rfl, h1, (Option.some.inj h).symm⟩
    rw [if_neg h1] at h
    by_cases h2 : 194 ≤ b0 ∧ b0 ≤ 223
    · rw [if_pos h2] at h
      cases t with
      | nil => simp at h
      | cons b1 t =>
        simp only at h
        by_cases c : 128 ≤ b1 ∧ b1 ≤ 191
        · rw [if_pos c] at h
          exact Or.inr (Or.inl ⟨b0, b1, t, rfl, h2.1, h2.2, c.1, c.2, (Option.some.inj h).symm⟩)
        · rw [if_neg c] at h; simp at h
    rw [if_neg h2] at h
    by_cases h3 : 224 ≤ b0 ∧ b0 ≤ 239
    · rw [if_pos h3] at h
      rcases t with _ | ⟨b1, _ | ⟨b2, t⟩⟩
      · simp at h
      · simp at h
      · simp only at h
        by_cases c : (if b0 = 224 then 160 else 128) ≤ b1 ∧
            b1 ≤ (if b0 = 237 then 159 else 191) ∧ 128 ≤ b2 ∧ b2 ≤ 191
        swap
        · rw [if_neg c] at h; simp at h
        rw [if_pos c] at h
        exact Or.inr (Or.inr (Or.inl ⟨b0, b1, b2, t, rfl, h3.1, h3.2, c.1, c.2.1, c.2.2.1,
          c.2.2.2, (Option.some.inj h).symm⟩))
    rw [if_neg h3] at h
    by_cases h4 : 240 ≤ b0 ∧ b0 ≤ 244
    · rw [if_pos h4] at h
      rcases t with _ | ⟨b1, _ | ⟨b2, _ | ⟨b3, t⟩⟩⟩
      · simp at h
      · simp at h
      · simp at h
      · simp only at h
        by_cases c : (if b0 = 240 then 144 else 128) ≤ b1 ∧
            b1 ≤ (if b0 = 244 then 143 else 191) ∧ 128 ≤ b2 ∧ b2 ≤ 191 ∧ 128 ≤ b3 ∧ b3 ≤ 191
        swap
        · rw [if_neg c] at h; simp at h
        rw [if_pos c] at h
        exact Or.inr (Or.inr (Or.inr ⟨b0, b1, b2, b3, t, rfl, h4.1, h4.2, c.1, c.2.1,
          c.2.2.1, c.2.2.2.1, c.2.2.2.2.1, c.2.2.2.2.2, (Option.some.inj h).symm⟩))
    rw [if_neg h4] at h
    simp at h

theorem utf8First_one {b0 : Nat} (t : List Nat) (h : b0 < 128) :
    utf8First (b0 :: t) = some (b0, 1) := by
  simp [utf8First, h]

theorem utf8First_two {b0 b1 : Nat} (t : List Nat) (h0 : 194 ≤ b0) (h0' : b0 ≤ 223)
    (h1 : 128 ≤ b1) (h1' : b1 ≤ 191) :
    utf8First (b0 :: b1 :: t) = some ((b0 - 192) * 64 + (b1 - 128), 2) := by
  have n1 : ¬ b0 < 128 := by omega
  simp [utf8First, n1, h0, h0', h1, h1']

theorem utf8First_three {b0 b1 b2 : Nat} (t : List Nat) (h0 : 224 ≤ b0) (h0' : b0 ≤ 239)
    (h1 : (if b0 = 224 then 160 else 128) ≤ b1) (h1' : b1 ≤ (if b0 = 237 then 159 else 191))
    (h2 : 128 ≤ b2) (h2' : b2 ≤ 191) :
    utf8First (b0 :: b1 :: b2 :: t) =
      some ((b0 - 224) * 4096 + (b1 - 128) * 64 + (b2 - 128), 3) := by
  have n1 : ¬ b0 < 128 := by omega
  have n2 : ¬ (194 ≤ b0 ∧ b0 ≤ 223) := by omega
  simp only [utf8First, n1, n2, if_false]
  rw [if_pos ⟨h0, h0'⟩, if_pos ⟨h1, h1', h2, h2'⟩]

theorem utf8First_four {b0 b1 b2 b3 : Nat} (t : List Nat) (h0 : 240 ≤ b0) (h0' : b0 ≤ 244)
    (h1 : (if b0 = 240 then 144 else 128) ≤ b1) (h1' : b1 ≤ (if b0 = 244 then 143 else 191))
    (h2 : 128 ≤ b2) (h2' : b2 ≤ 191) (h3 : 128 ≤ b3) (h3' : b3 ≤ 191) :
    utf8First (b0 :: b1 :: b2 :: b3 :: t) =
      some ((b0 - 240) * 262144 + (b1 - 128) * 4096 + (b2 - 128) * 64 + (b3 - 128), 4) := by
  have n1 : ¬ b0 < 128 := by omega
  have n2 : ¬ (194 ≤ b0 ∧ b0 ≤ 223) := by omega
  have n3 : ¬ (224 ≤ b0 ∧ b0 ≤ 239) := by omega
  simp only [utf8First, n1, n2, n3, if_false]
  rw [if_pos ⟨h0, h0'⟩, if_pos ⟨h1, h1', h2, h2', h3, h3'⟩]

theorem utf8First_size {s : List Nat} {r n : Nat} (h : utf8First s = some (r, n)) :
    1 ≤ n ∧ n ≤ s.length := by
  rcases utf8First_cases h with ⟨b0, t, rfl, _, hx⟩ | ⟨b0, b1, t, rfl, _, _, _, _, hx⟩ |
    ⟨b0, b1, b2, t, rfl, _, _, _, _, _, _, hx⟩ |
    ⟨b0, b1, b2, b3, t, rfl, _, _, _, _, _, _, _, _, hx⟩ <;>
  · simp only [Prod.mk.injEq] at hx
    simp only [List.length_cons]
    omega

theorem utf8First_append {s : List Nat} {x : Nat × Nat} (t : List Nat)
    (h : utf8First s = some x) : utf8First (s ++ t) = some x := by
  rcases utf8First_cases h with ⟨b0, u, rfl, h0, hx⟩ | ⟨b0, b1, u, rfl, h0, h0', h1, h1', hx⟩ |
    ⟨b0, b1, b2, u, rfl, h0, h0', h1, h1', h2, h2', hx⟩ |
    ⟨b0, b1, b2, b3, u, rfl, h0, h0', h1, h1', h2, h2', h3, h3', hx⟩
  · rw [hx]; exact utf8First_one _ h0
  · rw [hx]; exact utf8First_two _ h0 h0' h1 h1'
  · rw [hx]; exact utf8First_three _ h0 h0' h1 h1' h2 h2'
  · rw [hx]; exact utf8First_four _ h0 h0' h1 h1' h2 h2' h3 h3'

theorem runesAux_fuel : ∀ (f g : Nat) (s : List Nat), s.length ≤ f → s.length ≤ g →
    runesAux f s = runesAux g s
  | 0, g, s, hf, _ => by
    have hs : s = [] := List.length_eq_zero.mp (by omega)
    subst hs
    cases g <;> simp [runesAux]
  | f + 1, 0, s, _, hg => by
    have hs : s = [] := List.length_eq_zero.mp (by omega)
    subst hs
    simp [runesAux]
  | f + 1, g + 1, [], _, _ => by simp [runesAux]
  | f + 1, g + 1, b :: t, hf, hg => by
    simp only [runesAux]
    simp only [List.length_cons] at hf hg
    cases hx : utf8First (b :: t) with
    | none =>
      simp only
      rw [runesAux_fuel f g t (by omega) (by omega)]
    | some x =>
      obtain ⟨r, n⟩ := x
      have hn := utf8First_size hx
      simp only [List.length_cons] at hn
      simp only
      rw [runesAux_fuel f g ((b :: t).drop n)
        (by simp only [List.length_drop, List.length_cons]; omega)
        (by simp only [List.length_drop, List.length_cons]; omega)]

theorem runesAux_append : ∀ (f : Nat) (s : List Nat), s.length ≤ f → utf8ValidAux f s = true →
    ∀ t : List Nat, runesAux (s ++ t).length (s ++ t) = runesAux f s ++ runesAux t.length t
  | 0, s, hf, _, t => by
    have hs : s = [] := List.length_eq_zero.mp (by omega)
    subst hs
    simp [runesAux]
  | f + 1, [], _, _, t => by simp [runesAux]
  | f + 1, b :: u, hf, hv, t => by
    simp only [utf8ValidAux] at hv
    simp only [List.length_cons] at hf
    cases hx : utf8First (b :: u) with
    | none => rw [hx] at hv; simp at hv
    | some x =>
      obtain ⟨r, n⟩ := x
      rw [hx] at hv
      simp only at hv
      have hn := utf8First_size hx
      have hx' := utf8First_append t hx
      have hlen : ((b :: u).drop n).length ≤ f := by
        simp only [List.length_drop, List.length_cons] at hn ⊢; omega
      have ih := runesAux_append f ((b :: u).drop n) hlen hv t
      simp only [List.cons_append, List.length_cons, runesAux]
      rw [← List.cons_append, hx', hx]
      simp only
      rw [List.drop_append_of_le_length hn.2]
      rw [runesAux_fuel _ (((b :: u).drop n) ++ t).length _ _ (le_refl _), ih]
      · rfl
      · simp only [List.append_eq, List.length_append, List.length_drop, List.length_cons]
          at hn ⊢
        omega

theorem runes_append (s t : GoString) (hv : utf8Valid s = true) :
    runes (s ++ t) = runes s ++ runes t := by
  unfold runes
  unfold utf8Valid at hv
  have h := runesAux_append s.length (s.map UInt8.toNat) (by simp) hv (t.map UInt8.toNat)
  simpa only [List.map_append, List.length_append, List.length_map] using h

theorem utf16Encode_foldl (s : List Nat) : ∀ a : List Nat,
    s.foldl (fun a v => a ++ utf16EncodeRune v) a = a ++ (s.map utf16EncodeRune).flatten := by
  induction s with
  | nil => intro a; simp
  | cons v s ih => intro a; simp [List.foldl_cons, ih]

theorem utf16Encode_eq (s : List Nat) : utf16Encode s = (s.map utf16EncodeRune).flatten := by
  unfold utf16Encode
  rw [utf16Encode_foldl]
  rfl

theorem utf16Encode_append (s t : List Nat) :
    utf16Encode (s ++ t) = utf16Encode s ++ utf16Encode t := by
  simp [utf16Encode_eq]

theorem utf16Encode_cons (v : Nat) (t : List Nat) :
    utf16Encode (v :: t) = utf16EncodeRune v ++ utf16Encode t := by
  simp [utf16Encode_eq]

theorem envBlockStep_spec (pre zs : List UInt8) (s : GoString) :
    envBlockStep (pre ++ zs, pre.length) s =
      ((pre ++ (s ++ [0])) ++ zs.drop (s.length + 1), (pre ++ (s ++ [0])).length) := by
  have h1 : copyInto (pre ++ zs) pre.length (pre.length + s.length) s =
      (pre ++ s) ++ zs.drop s.length := by
    unfold copyInto
    simp [List.take_append_eq_append_take, List.drop_append_eq_append_drop]
  have h2 : copyInto ((pre ++ s) ++ zs.drop s.length) (pre.length + s.length)
      (pre.length + s.length + 1) [0] = (pre ++ (s ++ [0])) ++ zs.drop (s.length + 1) := by
    unfold copyInto
    have hl : pre.length + s.length = (pre ++ s).length := by simp
    rw [hl, List.take_left, List.drop_append]
    simp [Nat.add_comm]
  unfold envBlockStep
  simp only [h1, h2]
  simp [Nat.add_assoc]

theorem envBlockLoop_spec (envv : List GoString) : ∀ pre zs : List UInt8,
    envv.foldl envBlockStep (pre ++ zs, pre.length) =
      ((pre ++ (envv.map (fun s => s ++ [0])).flatten) ++
          zs.drop (envv.map (fun s => s ++ [0])).flatten.length,
        (pre ++ (envv.map (fun s => s ++ [0])).flatten).length) := by
  induction envv with
  | nil => intro pre zs; simp
  | cons s envv ih =>
    intro pre zs
    rw [List.foldl_cons, envBlockStep_spec, ih]
    simp [List.append_assoc, Nat.add_comm, Nat.add_assoc, Nat.add_left_comm]

theorem envBlockLength_spec (envv : List GoString) : ∀ n : Nat,
    envv.foldl (fun length s => length + (s.length + 1)) n =
      n + (envv.map (fun s => s ++ [0])).flatten.length := by
  induction envv with
  | nil => intro n; simp
  | cons s envv ih =>
    intro n
    rw [List.foldl_cons, ih]
    simp only [List.map_cons, List.flatten_cons, List.length_append, List.length_cons,
      List.length_nil]
    omega

/-- The byte buffer `createEnvBlock` fills is every entry followed by a zero byte, and one
zero byte more. -/
theorem createEnvBlock_bytes (envv : List GoString) (hne : envv ≠ []) :
    createEnvBlock envv =
      utf16Encode (runes ((envv.map (fun s => s ++ [0])).flatten ++ [0])) := by
  unfold createEnvBlock
  have hlen : ¬ envv.length = 0 := by
    intro h; exact hne (List.length_eq_zero.mp h)
  rw [if_neg hlen]
  simp only
  rw [envBlockLength_spec, Nat.zero_add]
  have h := envBlockLoop_spec envv []
    (List.replicate ((envv.map (fun s => s ++ [0])).flatten.length + 1) 0)
  simp only [List.nil_append, List.length_nil] at h
  rw [h]
  congr 2
  unfold copyInto
  simp [List.replicate_succ]

/-- The code units of the buffer: valid entries are converted one by one. -/
theorem utf16Encode_block (envv : List GoString) (hv : ∀ s ∈ envv, utf8Valid s = true) :
    utf16Encode (runes ((envv.map (fun s => s ++ [0])).flatten ++ [0])) =
      (envv.map (fun s => utf16Encode (runes s) ++ [0])).flatten ++ [0] := by
  induction envv with
  | nil => decide
  | cons s envv ih =>
    have hs := hv s (List.mem_cons_self _ _)
    have ih := ih (fun s hm => hv s (List.mem_cons_of_mem _ hm))
    have h0 : utf8Valid [0] = true := by decide
    have h1 : utf16Encode (runes [0]) = [0] := by decide
    simp only [List.map_cons, List.flatten_cons, List.append_assoc]
    rw [runes_append s _ hs, runes_append [0] _ h0, utf16Encode_append, utf16Encode_append,
      h1, ih]

theorem utf8First_ne_zero {s : List Nat} {r n : Nat} (h : utf8First s = some (r, n))
    (hz : 0 ∉ s) : r ≠ 0 := by
  rcases utf8First_cases h with ⟨b0, t, rfl, _, hx⟩ | ⟨b0, b1, t, rfl, _, _, _, _, hx⟩ |
    ⟨b0, b1, b2, t, rfl, _, _, _, _, _, _, hx⟩ |
    ⟨b0, b1, b2, b3, t, rfl, _, _, _, _, _, _, _, _, hx⟩
  · simp only [Prod.mk.injEq] at hx
    intro h0
    apply hz
    rw [← hx.1, h0]
    exact List.mem_cons_self _ _
  all_goals
    simp only [Prod.mk.injEq] at hx
    (try split_ifs at *) <;> omega

theorem runesAux_ne_zero : ∀ (f : Nat) (s : List Nat), 0 ∉ s → 0 ∉ runesAux f s
  | 0, _, _ => by simp [runesAux]
  | f + 1, [], _ => by simp [runesAux]
  | f + 1, b :: t, hz => by
    simp only [runesAux]
    cases hx : utf8First (b :: t) with
    | none =>
      simp only [List.mem_cons, not_or]
      refine ⟨by decide, runesAux_ne_zero f t ?_⟩
      intro h; exact hz (List.mem_cons_of_mem _ h)
    | some x =>
      obtain ⟨r, n⟩ := x
      simp only [List.mem_cons, not_or]
      refine ⟨fun h => utf8First_ne_zero hx hz h.symm, runesAux_ne_zero f _ ?_⟩
      intro h; exact hz (List.mem_of_mem_drop h)

theorem runesAux_ne_nil (s : List Nat) (hs : s ≠ []) : runesAux s.length s ≠ [] := by
  cases s with
  | nil => exact absurd rfl hs
  | cons b t =>
    simp only [List.length_cons, runesAux]
    cases utf8First (b :: t) with
    | none => simp
    | some x => simp

theorem utf16EncodeRune_ne_nil (v : Nat) : utf16EncodeRune v ≠ [] := by
  unfold utf16EncodeRune
  split_ifs <;> simp

theorem utf16EncodeRune_ne_zero (v : Nat) (hv : v ≠ 0) : 0 ∉ utf16EncodeRune v := by
  unfold utf16EncodeRune
  split_ifs <;> simp [runeError] <;> omega

theorem utf16Encode_ne_zero (rs : List Nat) (hz : 0 ∉ rs) : 0 ∉ utf16Encode rs := by
  induction rs with
  | nil => simp [utf16Encode]
  | cons v rs ih =>
    rw [utf16Encode_cons]
    simp only [List.mem_cons, not_or] at hz
    simp only [List.mem_append, not_or]
    exact ⟨utf16EncodeRune_ne_zero v (fun h => hz.1 h.symm), ih hz.2⟩

theorem utf16Encode_ne_nil (rs : List Nat) (hs : rs ≠ []) : utf16Encode rs ≠ [] := by
  cases rs with
  | nil => exact absurd rfl hs
  | cons v rs =>
    rw [utf16Encode_cons]
    intro h
    exact utf16EncodeRune_ne_nil v (List.append_eq_nil.mp h).1

theorem entry_units (s : GoString) (hs : s ≠ []) (hz : (0 : UInt8) ∉ s) :
    utf16Encode (runes s) ≠ [] ∧ 0 ∉ utf16Encode (runes s) := by
  unfold runes
  constructor
  · apply utf16Encode_ne_nil
    have h := runesAux_ne_nil (s.map UInt8.toNat) (by simpa using hs)
    simpa only [List.length_map] using h
  · apply utf16Encode_ne_zero
    apply runesAux_ne_zero
    intro h
    obtain ⟨c, hc, h0⟩ := List.mem_map.mp h
    have : c = 0 := by
      apply UInt8.ext
      simpa using h0
    exact hz (this ▸ hc)

theorem takeWhile_entry (e rest : List Nat) (hz : 0 ∉ e) :
    (e ++ 0 :: rest).takeWhile (fun u => u ≠ 0) = e := by
  induction e with
  | nil => simp
  | cons a e ih =>
    simp only [List.mem_cons, not_or] at hz
    have ha : a ≠ 0 := fun h => hz.1 h.symm
    have ih := ih hz.2
    rw [List.cons_append, List.takeWhile_cons, ih]
    simp [ha]

/-- Reading a block of entries without a zero code unit and of length at least one gives
the entries back. -/
theorem envBlockEntries_spec : ∀ (es : List (List Nat)) (f : Nat) (rest : List Nat),
    (∀ e ∈ es, e ≠ [] ∧ 0 ∉ e) → es.length ≤ f →
    envBlockEntries f ((es.map (fun e => e ++ [0])).flatten ++ 0 :: rest) = es
  | [], f, rest, _, _ => by
    cases f with
    | zero => simp [envBlockEntries]
    | succ f => simp [envBlockEntries]
  | e :: es, 0, _, _, hf => by simp at hf
  | e :: es, f + 1, rest, he, hf => by
    have h1 := he e (List.mem_cons_self _ _)
    have ih := envBlockEntries_spec es f rest
      (fun e hm => he e (List.mem_cons_of_mem _ hm))
      (by simp only [List.length_cons] at hf; omega)
    have hblock : ((e :: es).map (fun e => e ++ [0])).flatten ++ 0 :: rest =
        e ++ 0 :: ((es.map (fun e => e ++ [0])).flatten ++ 0 :: rest) := by
      simp
    rw [hblock]
    unfold envBlockEntries
    simp only
    rw [takeWhile_entry e _ h1.2]
    have hlen : ¬ e.length = 0 := fun h => h1.1 (List.length_eq_zero.mp h)
    rw [if_neg hlen]
    have hdrop : (e ++ 0 :: ((es.map (fun e => e ++ [0])).flatten ++ 0 :: rest)).drop
        (e.length + 1) = (es.map (fun e => e ++ [0])).flatten ++ 0 :: rest := by
      rw [show e ++ 0 :: ((es.map (fun e => e ++ [0])).flatten ++ 0 :: rest) =
        (e ++ [0]) ++ ((es.map (fun e => e ++ [0])).flatten ++ 0 :: rest) by simp]
      rw [List.drop_append_of_le_length (by simp)]
      simp
    rw [hdrop, ih]

theorem utf8First_scalar {s : List Nat} {r n : Nat} (h : utf8First s = some (r, n)) :
    IsScalar r := by
  unfold IsScalar
  rcases utf8First_cases h with ⟨b0, t, rfl, _, hx⟩ | ⟨b0, b1, t, rfl, _, _, _, _, hx⟩ |
    ⟨b0, b1, b2, t, rfl, _, _, _, _, _, _, hx⟩ |
    ⟨b0, b1, b2, b3, t, rfl, _, _, _, _, _, _, _, _, hx⟩
  all_goals
    simp only [Prod.mk.injEq] at hx
    (try split_ifs at *) <;> omega

theorem runesAux_scalar : ∀ (f : Nat) (s : List Nat), ∀ r ∈ runesAux f s, IsScalar r
  | 0, _ => by simp [runesAux]
  | f + 1, [] => by simp [runesAux]
  | f + 1, b :: t => by
    simp only [runesAux]
    cases hx : utf8First (b :: t) with
    | none =>
      intro r hr
      rcases List.mem_cons.mp hr with h | h
      · rw [h]; decide
      · exact runesAux_scalar f t r h
    | some x =>
      obtain ⟨r0, n⟩ := x
      intro r hr
      rcases List.mem_cons.mp hr with h | h
      · rw [h]; exact utf8First_scalar hx
      · exact runesAux_scalar f _ r h

theorem utf16Decode_encodeRune (r : Nat) (rest : List Nat) (hr : IsScalar r) :
    utf16Decode (utf16EncodeRune r ++ rest) = r :: utf16Decode rest := by
  unfold IsScalar at hr
  unfold utf16EncodeRune
  by_cases h1 : r < 55296 ∨ (57344 ≤ r ∧ r < 65536)
  · rw [if_pos h1]
    have h2 : r < 55296 ∨ 57344 ≤ r := by omega
    cases rest with
    | nil => simp [utf16Decode, h2]
    | cons v rest => simp [utf16Decode, h2]
  · rw [if_neg h1]
    have h2 : 65536 ≤ r ∧ r ≤ 1114111 := by omega
    rw [if_pos h2]
    have h3 : ¬ (55296 + (r - 65536) / 1024 < 55296 ∨ 57344 ≤ 55296 + (r - 65536) / 1024) := by
      omega
    have h4 : 55296 + (r - 65536) / 1024 < 56320 ∧ 56320 ≤ 56320 + (r - 65536) % 1024 ∧
        56320 + (r - 65536) % 1024 < 57344 := by omega
    have h5 : (55296 + (r - 65536) / 1024 - 55296) * 1024 +
        (56320 + (r - 65536) % 1024 - 56320) + 65536 = r := by omega
    simp only [List.cons_append, List.nil_append, utf16Decode]
    rw [if_neg h3, if_pos h4, h5]
    rfl

theorem utf16Decode_encode (rs : List Nat) (hr : ∀ r ∈ rs, IsScalar r) :
    utf16Decode (utf16Encode rs) = rs := by
  induction rs with
  | nil => simp [utf16Encode, utf16Decode]
  | cons v rs ih =>
    rw [utf16Encode_cons, utf16Decode_encodeRune v _ (hr v (List.mem_cons_self _ _)),
      ih (fun r hm => hr r (List.mem_cons_of_mem _ hm))]

theorem utf8EncodeRune_first {s : List Nat} {r n : Nat} (h : utf8First s = some (r, n)) :
    utf8EncodeRune r = s.take n := by
  unfold utf8EncodeRune
  rcases utf8First_cases h with ⟨b0, t, rfl, h0, hx⟩ | ⟨b0, b1, t, rfl, h0, h0', h1, h1', hx⟩ |
    ⟨b0, b1, b2, t, rfl, h0, h0', h1, h1', h2, h2', hx⟩ |
    ⟨b0, b1, b2, b3, t, rfl, h0, h0', h1, h1', h2, h2', h3, h3', hx⟩
  · simp only [Prod.mk.injEq] at hx
    obtain ⟨rfl, rfl⟩ := hx
    simp [h0]
  · simp only [Prod.mk.injEq] at hx
    obtain ⟨hr, hn⟩ := hx
    clear h
    rw [hr, hn]
    clear hr hn
    have c1 : ¬ (b0 - 192) * 64 + (b1 - 128) < 128 := by omega
    have c2 : (b0 - 192) * 64 + (b1 - 128) < 2048 := by omega
    have e1 : 192 + ((b0 - 192) * 64 + (b1 - 128)) / 64 = b0 := by omega
    have e2 : 128 + ((b0 - 192) * 64 + (b1 - 128)) % 64 = b1 := by omega
    rw [if_neg c1, if_pos c2, e1, e2]
    rfl
  · simp only [Prod.mk.injEq] at hx
    obtain ⟨hr, hn⟩ := hx
    clear h
    rw [hr, hn]
    clear hr hn
    have c1 : ¬ (b0 - 224) * 4096 + (b1 - 128) * 64 + (b2 - 128) < 128 := by
      split_ifs at h1 h1' <;> omega
    have c2 : ¬ (b0 - 224) * 4096 + (b1 - 128) * 64 + (b2 - 128) < 2048 := by
      split_ifs at h1 h1' <;> omega
    have c3 : ¬ ((55296 ≤ (b0 - 224) * 4096 + (b1 - 128) * 64 + (b2 - 128) ∧
        (b0 - 224) * 4096 + (b1 - 128) * 64 + (b2 - 128) < 57344) ∨
        1114111 < (b0 - 224) * 4096 + (b1 - 128) * 64 + (b2 - 128)) := by
      split_ifs at h1 h1' <;> omega
    have c4 : (b0 - 224) * 4096 + (b1 - 128) * 64 + (b2 - 128) < 65536 := by
      split_ifs at h1 h1' <;> omega
    have e1 : 224 + ((b0 - 224) * 4096 + (b1 - 128) * 64 + (b2 - 128)) / 4096 = b0 := by
      split_ifs at h1 h1' <;> omega
    have e2 : 128 + ((b0 - 224) * 4096 + (b1 - 128) * 64 + (b2 - 128)) / 64 % 64 = b1 := by
      split_ifs at h1 h1' <;> omega
    have e3 : 128 + ((b0 - 224) * 4096 + (b1 - 128) * 64 + (b2 - 128)) % 64 = b2 := by
      split_ifs at h1 h1' <;> omega
    rw [if_neg c1, if_neg c2, if_neg c3, if_pos c4, e1, e2, e3]
    rfl
  · simp only [Prod.mk.injEq] at hx
    obtain ⟨hr, hn⟩ := hx
    clear h
    rw [hr, hn]
    clear hr hn
    have c1 : ¬ (b0 - 240) * 262144 + (b1 - 128) * 4096 + (b2 - 128) * 64 + (b3 - 128) < 128 := by
      split_ifs at h1 h1' <;> omega
    have c2 : ¬ (b0 - 240) * 262144 + (b1 - 128) * 4096 + (b2 - 128) * 64 + (b3 - 128) < 2048 := by
      split_ifs at h1 h1' <;> omega
    have c3 : ¬ ((55296 ≤ (b0 - 240) * 262144 + (b1 - 128) * 4096 + (b2 - 128) * 64 + (b3 - 128) ∧
        (b0 - 240) * 262144 + (b1 - 128) * 4096 + (b2 - 128) * 64 + (b3 - 128) < 57344) ∨
        1114111 < (b0 - 240) * 262144 + (b1 - 128) * 4096 + (b2 - 128) * 64 + (b3 - 128)) := by
      split_ifs at h1 h1' <;> omega
    have c4 : ¬ (b0 - 240) * 262144 + (b1 - 128) * 4096 + (b2 - 128) * 64 + (b3 - 128) < 65536 := by
      split_ifs at h1 h1' <;> omega
    have e1 : 240 + ((b0 - 240) * 262144 + (b1 - 128) * 4096 + (b2 - 128) * 64 + (b3 - 128)) /
        262144 = b0 := by
      split_ifs at h1 h1' <;> omega
    have e2 : 128 + ((b0 - 240) * 262144 + (b1 - 128) * 4096 + (b2 - 128) * 64 + (b3 - 128)) /
        4096 % 64 = b1 := by
      split_ifs at h1 h1' <;> omega
    have e3 : 128 + ((b0 - 240) * 262144 + (b1 - 128) * 4096 + (b2 - 128) * 64 + (b3 - 128)) /
        64 % 64 = b2 := by
      split_ifs at h1 h1' <;> omega
    have e4 : 128 + ((b0 - 240) * 262144 + (b1 - 128) * 4096 + (b2 - 128) * 64 + (b3 - 128)) %
        64 = b3 := by
      split_ifs at h1 h1' <;> omega
    rw [if_neg c1, if_neg c2, if_neg c3, if_neg c4, e1, e2, e3, e4]
    rfl

theorem utf8Encode_runesAux : ∀ (f : Nat) (s : List Nat), s.length ≤ f →
    utf8ValidAux f s = true → ((runesAux f s).map utf8EncodeRune).flatten = s
  | 0, s, hf, _ => by
    have hs : s = [] := List.length_eq_zero.mp (by omega)
    subst hs
    simp [runesAux]
  | f + 1, [], _, _ => by simp [runesAux]
  | f + 1, b :: u, hf, hv => by
    simp only [utf8ValidAux] at hv
    simp only [List.length_cons] at hf
    cases hx : utf8First (b :: u) with
    | none => rw [hx] at hv; simp at hv
    | some x =>
      obtain ⟨r, n⟩ := x
      rw [hx] at hv
      simp only at hv
      have hn := utf8First_size hx
      have hlen : ((b :: u).drop n).length ≤ f := by
        simp only [List.length_drop, List.length_cons] at hn ⊢; omega
      have ih := utf8Encode_runesAux f ((b :: u).drop n) hlen hv
      simp only [runesAux]
      rw [hx]
      simp only [List.map_cons, List.flatten_cons]
      rw [ih, utf8EncodeRune_first hx, List.take_append_drop]

theorem stringOfRunes_runes (s : GoString) (hv : utf8Valid s = true) :
    stringOfRunes (runes s) = s := by
  unfold stringOfRunes runes
  unfold utf8Valid at hv
  rw [utf8Encode_runesAux s.length (s.map UInt8.toNat) (by simp) hv, List.map_map]
  conv_rhs => rw [← List.map_id s]
  apply List.map_congr_left
  intro c _
  apply UInt8.ext
  simp [UInt8.ofNat, UInt8.toNat]

/-- What `defaultEnvByToken` reads back from a code unit sequence: every entry is its
string again. -/
theorem entry_roundtrip (s : GoString) (hv : utf8Valid s = true) :
    stringOfRunes (utf16Decode (utf16Encode (runes s))) = s := by
  have hs : ∀ r ∈ runes s, IsScalar r := runesAux_scalar _ _
  rw [utf16Decode_encode _ hs, stringOfRunes_runes s hv]

/-- The block in both cases of `createEnvBlock`: the entries, each with its zero code
unit, then a zero code unit, then at most one more. -/
theorem createEnvBlock_shape (envv : List GoString) (hv : ∀ s ∈ envv, utf8Valid s = true) :
    createEnvBlock envv = (envv.map (fun s => utf16Encode (runes s) ++ [0])).flatten ++
      0 :: (if envv = [] then [0] else []) := by
  by_cases hne : envv = []
  · subst hne; decide
  · rw [createEnvBlock_bytes envv hne, utf16Encode_block envv hv, if_neg hne]

/-- Claim C19.  For every list of entries that are valid UTF-8 and hold no NUL byte,
`createEnvBlock` makes the code units of each entry (its UTF-16 encoding) followed by
one zero code unit, in order, and one more zero code unit at the end; for the empty
list it makes two zero code units.  When moreover no entry is empty, the loop of
`defaultEnvByToken` splits the block into the encoded entries and decodes them to the
entry list. -/
theorem createEnvBlock_format (envv : List GoString)
    (hv : ∀ s ∈ envv, utf8Valid s = true) (hz : ∀ s ∈ envv, (0 : UInt8) ∉ s) :
    createEnvBlock envv =
      (if envv = [] then [0, 0]
       else (envv.map (fun s => utf16Encode (runes s) ++ [0])).flatten ++ [0]) ∧
    ((∀ s ∈ envv, s ≠ []) →
      envBlockEntries (createEnvBlock envv).length (createEnvBlock envv) =
          envv.map (fun s => utf16Encode (runes s)) ∧
        envOfBlock (createEnvBlock envv) = envv) := by
  have hshape := createEnvBlock_shape envv hv
  constructor
  · rw [hshape]
    by_cases hne : envv = []
    · subst hne; rfl
    · rw [if_neg hne, if_neg hne]
  · intro hne
    have hentries : envBlockEntries (createEnvBlock envv).length (createEnvBlock envv) =
        envv.map (fun s => utf16Encode (runes s)) := by
      have hmap : (envv.map (fun s => utf16Encode (runes s) ++ [0])) =
          (envv.map (fun s => utf16Encode (runes s))).map (fun e => e ++ [0]) := by
        rw [List.map_map]; rfl
      rw [hshape, hmap]
      apply envBlockEntries_spec
      · intro e he
        obtain ⟨s, hs, rfl⟩ := List.mem_map.mp he
        exact entry_units s (hne s hs) (hz s hs)
      · simp only [List.length_append, List.length_cons, List.length_map, List.length_flatten,
          List.map_map]
        have hle : ∀ l : List GoString,
            l.length ≤ (l.map (List.length ∘ (fun e => e ++ [0]) ∘
              fun s => utf16Encode (runes s))).sum := by
          intro l
          induction l with
          | nil => simp
          | cons a l ih => simp only [List.map_cons, List.sum_cons, List.length_cons,
              Function.comp, List.length_append, List.length_nil] at ih ⊢; omega
        have := hle envv
        omega
    refine ⟨hentries, ?_⟩
    unfold envOfBlock
    rw [hentries, List.map_map]
    conv_rhs => rw [← List.map_id envv]
    apply List.map_congr_left
    intro s hs
    exact entry_roundtrip s (hv s hs)

/-- Claim C19 on two entries, one of them with a two-byte and a four-byte character. -/
theorem createEnvBlock_format_witness :
    createEnvBlock [str "A=1", str "é=😀"] =
      [65, 61, 49, 0, 233, 61, 55357, 56832, 0, 0] ∧
    envOfBlock (createEnvBlock [str "A=1", str "é=😀"]) = [str "A=1", str "é=😀"] :=
  have h := createEnvBlock_format [str "A=1", str "é=😀"] (by decide) (by decide)
  ⟨h.1.trans (by decide), (h.2 (by decide)).2⟩

/-! ## Starting a session on Windows -/

/-- Every end of `StartWithSysProcAttr`: a session holds its two pipes, the pseudo-console,
the attribute list and the process handle; an error comes with nothing held, except the
error of the auto-close workaround, which comes with the process handle held; the
fault arises exactly from a failed allocation of the attribute list. -/
theorem start_outcomes (w : StartWorld) :
    ((StartWithSysProcAttr w).1 = StartResult.session ∧
      heldAfter (StartWithSysProcAttr w).2 = [WinResource.readPipe, WinResource.writePipe,
        WinResource.conPty, WinResource.attrList, WinResource.processHandle]) ∨
    (∃ e, (StartWithSysProcAttr w).1 = StartResult.error e ∧
      heldAfter (StartWithSysProcAttr w).2 = []) ∨
    (∃ e, (StartWithSysProcAttr w).1 = StartResult.error e ∧ w.createProcess = none ∧
      (makeConPTYAutoCloseReadPipe w).1 = some e ∧
      heldAfter (StartWithSysProcAttr w).2 = [WinResource.processHandle]) ∨
    ((StartWithSysProcAttr w).1 = StartResult.fault ∧ w.newAttrList ≠ none ∧
      heldAfter (StartWithSysProcAttr w).2 = []) := by
  obtain ⟨de, no, pr, p1, p2, cpc, na, ua, cm, di, ar, cp, rf, rr, cv, po⟩ := w
  cases de with
  | some e => simp [StartWithSysProcAttr, heldAfter]
  | none =>
    cases no with
    | some e => simp [StartWithSysProcAttr, heldAfter]
    | none =>
      cases pr with
      | false => simp [StartWithSysProcAttr, openConPTY, heldAfter]
      | true =>
        cases p1 with
        | some e => simp [StartWithSysProcAttr, openConPTY, heldAfter]
        | none =>
          cases p2 with
          | some e => simp [StartWithSysProcAttr, openConPTY, heldAfter]
          | none =>
            cases cpc with
            | some e => simp [StartWithSysProcAttr, openConPTY, heldAfter]
            | none =>
              cases na with
              | some e =>
                simp [StartWithSysProcAttr, openConPTY, createProcess,
                  createProcThreadAttList, heldAfter]
              | none =>
                cases ua with
                | some e =>
                  simp [StartWithSysProcAttr, openConPTY, createProcess,
                    createProcThreadAttList, heldAfter]
                | none =>
                  cases cm with
                  | some e =>
                    simp [StartWithSysProcAttr, openConPTY, createProcess,
                      createProcThreadAttList, heldAfter]
                  | none =>
                    cases di with
                    | some e =>
                      simp [StartWithSysProcAttr, openConPTY, createProcess,
                        createProcThreadAttList, heldAfter]
                    | none =>
                      cases ar with
                      | some e =>
                        simp [StartWithSysProcAttr, openConPTY, createProcess,
                          createProcThreadAttList, heldAfter]
                      | none =>
                        cases cp with
                        | some e =>
                          simp [StartWithSysProcAttr, openConPTY, createProcess,
                            createProcThreadAttList, heldAfter]
                        | none =>
                          by_cases hr : rr = 0 <;> cases rf <;> cases cv <;> cases po <;>
                            simp [StartWithSysProcAttr, openConPTY, createProcess,
                              createProcThreadAttList, makeConPTYAutoCloseReadPipe,
                              heldAfter, hr]

/-- Claim C16, refuted by evaluation.  When the process has been created and the auto-close
workaround fails (`ReleasePseudoConsole` returns `E_HANDLE`), `StartWithSysProcAttr`
returns the error after it has terminated the process and released the thread handle,
the pseudo-console, both pipes and the attribute list, but the process handle is
still held.  When the allocation of the attribute list fails, the start ends in the
fault of `p.attrList.Delete()` on a `nil` container and returns no error. -/
theorem start_leaks_process_handle :
    (StartWithSysProcAttr worldAutoCloseFails).1 =
      StartResult.error (PtyErr.errno 2147942406) ∧
    (StartWithSysProcAttr worldAutoCloseFails).2 =
      [WinAction.acquire WinResource.readPipe,
        WinAction.acquire WinResource.subprocessWritePipe,
        WinAction.acquire WinResource.subprocessReadPipe,
        WinAction.acquire WinResource.writePipe,
        WinAction.acquire WinResource.conPty,
        WinAction.release WinResource.subprocessWritePipe,
        WinAction.release WinResource.subprocessReadPipe,
        WinAction.acquire WinResource.attrList,
        WinAction.acquire WinResource.processHandle,
        WinAction.acquire WinResource.threadHandle,
        WinAction.startWaiter,
        WinAction.releasePseudoConsole,
        WinAction.terminateProcess,
        WinAction.release WinResource.threadHandle,
        WinAction.release WinResource.conPty,
        WinAction.release WinResource.readPipe,
        WinAction.release WinResource.writePipe,
        WinAction.release WinResource.attrList] ∧
    heldAfter (StartWithSysProcAttr worldAutoCloseFails).2 = [WinResource.processHandle] ∧
    (StartWithSysProcAttr worldAttrListFails).1 = StartResult.fault := by
  decide

/-! ## The ANSI stripper -/

theorem take_succ_set (l : GoString) (w : Nat) (c : UInt8) (h : w < l.length) :
    (l.set w c).take (w + 1) = l.take w ++ [c] := by
  induction l generalizing w with
  | nil => simp at h
  | cons a l ih =>
    cases w with
    | zero => simp
    | succ w =>
      simp only [List.length_cons] at h
      simp [ih w (by omega)]

theorem drop_set_lt (l : GoString) (w k : Nat) (c : UInt8) (h : w < k) :
    (l.set w c).drop k = l.drop k := by
  induction l generalizing w k with
  | nil => simp
  | cons a l ih =>
    cases k with
    | zero => omega
    | succ k =>
      cases w with
      | zero => simp
      | succ w => simp [ih w k (by omega)]

theorem getD_eq_head_drop (l : GoString) (k : Nat) (d : UInt8) :
    l.getD k d = (l.drop k).headD d := by
  induction l generalizing k with
  | nil => simp
  | cons a l ih =>
    cases k with
    | zero => simp
    | succ k => simp [ih k]

theorem stripByte_eq (p : GoString) (w : Nat) (s : stripState) (i : Nat) :
    stripByte (p, w, s) i =
      (match (stripNext s (p.getD i 0)).2 with
        | some c => (p.set w c, w + 1, (stripNext s (p.getD i 0)).1)
        | none => (p, w, (stripNext s (p.getD i 0)).1)) := by
  cases s <;> simp only [stripByte, stripNext] <;> split_ifs <;> rfl

theorem stripRun_cons (s : stripState) (x : UInt8) (a : GoString) :
    stripRun s (x :: a) =
      (match (stripNext s x).2 with
        | some c => ((stripRun (stripNext s x).1 a).1, c :: (stripRun (stripNext s x).1 a).2)
        | none => stripRun (stripNext s x).1 a) := rfl

theorem stripRun_append (s : stripState) (a b : GoString) :
    stripRun s (a ++ b) =
      ((stripRun (stripRun s a).1 b).1, (stripRun s a).2 ++ (stripRun (stripRun s a).1 b).2) := by
  induction a generalizing s with
  | nil => simp [stripRun]
  | cons x a ih =>
    rw [List.cons_append, stripRun_cons, stripRun_cons, ih]
    cases (stripNext s x).2 <;> simp

theorem stripRun_single (s : stripState) (b : UInt8) :
    stripRun s [b] = ((stripNext s b).1, ((stripNext s b).2).toList) := by
  simp only [stripRun]
  cases (stripNext s b).2 <;> rfl

/-- The loop of `Read` after `k` bytes: the state and the kept bytes are those of
`stripRun` on the first `k` bytes, the kept bytes are the first `writePtr` bytes of the
buffer, and the bytes not yet read are untouched. -/
theorem stripLoop_spec (p0 : GoString) (s0 : stripState) (k : Nat) (hk : k ≤ p0.length) :
    ((List.range k).foldl stripByte (p0, 0, s0)).2.2 = (stripRun s0 (p0.take k)).1 ∧
    ((List.range k).foldl stripByte (p0, 0, s0)).2.1 = (stripRun s0 (p0.take k)).2.length ∧
    ((List.range k).foldl stripByte (p0, 0, s0)).1.take
        ((List.range k).foldl stripByte (p0, 0, s0)).2.1 = (stripRun s0 (p0.take k)).2 ∧
    ((List.range k).foldl stripByte (p0, 0, s0)).2.1 ≤ k ∧
    ((List.range k).foldl stripByte (p0, 0, s0)).1.drop k = p0.drop k ∧
    ((List.range k).foldl stripByte (p0, 0, s0)).1.length = p0.length := by
  induction k with
  | zero => simp [stripRun]
  | succ k ih =>
    have hlt : k < p0.length := by omega
    obtain ⟨h1, h2, h3, h4, h5, h6⟩ := ih (by omega)
    rw [List.range_succ, List.foldl_append, List.foldl_cons, List.foldl_nil]
    generalize (List.range k).foldl stripByte (p0, 0, s0) = r at h1 h2 h3 h4 h5 h6
    obtain ⟨p, w, s⟩ := r
    simp only at h1 h2 h3 h4 h5 h6
    have hb : p.getD k 0 = p0[k] := by
      rw [getD_eq_head_drop, h5, List.drop_eq_getElem_cons hlt]
      rfl
    have htake : p0.take (k + 1) = p0.take k ++ [p0[k]] := by
      rw [List.take_succ, List.getElem?_eq_getElem hlt]
      rfl
    have hdrop : p.drop (k + 1) = p0.drop (k + 1) := by
      rw [← List.tail_drop, ← List.tail_drop, h5]
    rw [stripByte_eq, hb, htake, stripRun_append, stripRun_single, ← h1]
    cases hn : (stripNext s p0[k]).2 with
    | none =>
      simp only [Option.toList, List.append_nil]
      exact ⟨trivial, h2, h3, by omega, hdrop, h6⟩
    | some c =>
      simp only [Option.toList, List.length_append, List.length_cons, List.length_nil]
      refine ⟨trivial, by omega, ?_, by omega, ?_, ?_⟩
      · rw [take_succ_set p w c (by omega), h3]
      · rw [drop_set_lt p w (k + 1) c (by omega), hdrop]
      · rw [List.length_set, h6]

theorem Read_eq (p : GoString) (rest : List GoString) (s : stripState) :
    ANSIStripper.Read { Source := p :: rest, state := s } =
      ({ Source := rest, state := (stripRun s p).1 }, (stripRun s p).2, false) := by
  unfold ANSIStripper.Read
  simp only
  by_cases hn : p.length = 0
  · have hp : p = [] := List.length_eq_zero.mp hn
    subst hp
    simp [stripRun]
  · rw [if_neg hn]
    obtain ⟨h1, _, h3, _, _, _⟩ := stripLoop_spec p s p.length (le_refl _)
    rw [List.take_length] at h1 h3
    rw [h1, h3]

/-- Reading to the end, with a call of `Read` more than there are chunks: the kept bytes
of the concatenated chunks. -/
theorem readAll_eq (chunks : List GoString) : ∀ (s : stripState) (fuel : Nat),
    chunks.length < fuel →
    readAll fuel { Source := chunks, state := s } = (stripRun s chunks.flatten).2 := by
  induction chunks with
  | nil =>
    intro s fuel hf
    cases fuel with
    | zero => omega
    | succ fuel => simp [readAll, ANSIStripper.Read, stripRun]
  | cons p rest ih =>
    intro s fuel hf
    cases fuel with
    | zero => omega
    | succ fuel =>
      simp only [List.length_cons] at hf
      rw [readAll, Read_eq]
      simp only [Bool.false_eq_true, if_false]
      rw [ih _ fuel (by omega), List.flatten_cons, stripRun_append]

theorem stripRun_csi (s : GoString) :
    (stripRun stripState.stripStateCSI s).2 =
      (stripRun stripState.stripStateNormal (afterCSI s)).2 := by
  induction s with
  | nil => rfl
  | cons b rest ih =>
    rw [stripRun_cons]
    simp only [stripNext, afterCSI]
    split_ifs
    · rfl
    · exact ih

theorem stripRun_oscEsc (s : GoString) :
    (stripRun stripState.stripStateOscEsc s).2 = (stripRun stripState.stripStateEsc s).2 := by
  cases s with
  | nil => rfl
  | cons b rest =>
    rw [stripRun_cons, stripRun_cons]
    by_cases h1 : b = backslash
    · subst h1
      have n1 : backslash ≠ lbracket := by decide
      have n2 : backslash ≠ rbracket := by decide
      simp only [stripNext, n1, n2, if_true, if_false]
    · simp only [stripNext, h1, if_false]

theorem stripRun_osc (s : GoString) :
    (stripRun stripState.stripStateOSC s).2 =
      (stripRun stripState.stripStateNormal (afterOSC s)).2 := by
  induction s with
  | nil => rfl
  | cons b rest ih =>
    rw [stripRun_cons]
    simp only [stripNext, afterOSC]
    split_ifs with h1 h2
    · rfl
    · rw [stripRun_cons]
      simp only [stripNext, h2, if_true]
      exact stripRun_oscEsc rest
    · exact ih

theorem afterCSI_length (s : GoString) : (afterCSI s).length ≤ s.length := by
  induction s with
  | nil => simp [afterCSI]
  | cons b rest ih =>
    simp only [afterCSI]
    split_ifs <;> simp only [List.length_cons] <;> omega

theorem afterOSC_length (s : GoString) : (afterOSC s).length ≤ s.length := by
  induction s with
  | nil => simp [afterOSC]
  | cons b rest ih =>
    simp only [afterOSC]
    split_ifs <;> simp only [List.length_cons] <;> omega

/-- The kept bytes of the loop are the input without its escape sequences, whatever the
fuel from the length of the input on. -/
theorem strippedAux_eq : ∀ (fuel : Nat) (s : GoString), s.length ≤ fuel →
    strippedAux afterOSC fuel s = (stripRun stripState.stripStateNormal s).2
  | 0, s, hf => by
    have hs : s = [] := List.length_eq_zero.mp (by omega)
    subst hs
    rfl
  | fuel + 1, [], _ => rfl
  | fuel + 1, b :: rest, hf => by
    simp only [List.length_cons] at hf
    rw [stripRun_cons]
    simp only [strippedAux, stripNext]
    by_cases hb : b = escByte
    · simp only [hb, ne_eq, not_true_eq_false, if_false, if_true]
      cases rest with
      | nil => rfl
      | cons c rest2 =>
        simp only [List.length_cons] at hf
        have h1 := afterCSI_length rest2
        have h2 := afterOSC_length rest2
        rw [stripRun_cons]
        simp only [stripNext]
        split_ifs
        · rw [strippedAux_eq fuel _ (by omega), stripRun_csi]
        · rw [strippedAux_eq fuel _ (by omega), stripRun_osc]
        · rw [strippedAux_eq fuel _ (by omega)]
    · simp only [hb, ne_eq, not_false_eq_true, if_true, if_false]
      rw [strippedAux_eq fuel rest (by omega)]

theorem stripRun_eq_stripped (s : GoString) :
    (stripRun stripState.stripStateNormal s).2 = stripped s :=
  (strippedAux_eq s.length s (le_refl _)).symm

theorem stripRun_no_esc (s : GoString) (h : escByte ∉ s) :
    stripRun stripState.stripStateNormal s = (stripState.stripStateNormal, s) := by
  induction s with
  | nil => rfl
  | cons b rest ih =>
    simp only [List.mem_cons, not_or] at h
    have hb : b ≠ escByte := fun e => h.1 e.symm
    rw [stripRun_cons]
    simp only [stripNext, hb, if_false]
    rw [ih h.2]

/-- C21 fails as stated.  In `A ESC ] 0 ; t ESC X B BEL C` the OSC sequence runs by the
words of the claim up to BEL, which leaves `AC`.  `Read` leaves the OSC state at the
ESC inside the sequence, drops `ESC X` as a pair and keeps `B`, BEL and `C`. -/
theorem ansiStripper_osc_interrupted :
    readAll 2 (NewANSIStripper [str "A\x1b]0;t\x1bXB\x07C"]) = str "AB\x07C" ∧
    strippedClaimed (str "A\x1b]0;t\x1bXB\x07C") = str "AC" ∧
    readAll 2 (NewANSIStripper [str "A\x1b]0;t\x1bXB\x07C"]) ≠
      strippedClaimed (str "A\x1b]0;t\x1bXB\x07C") := by
  decide

/-- C21, amended.  For every list of chunks that the source delivers, empty chunks
included, reading the stripper to the end, with one call of `Read` more than there are
chunks or with more calls, yields `stripped` of the concatenated chunks: the input
read from the left without every CSI sequence (`ESC [` up to the first byte in
`0x40..0x7E`), every OSC sequence (`ESC ]` up to BEL, or up to the next ESC, which is
not part of it and starts an escape sequence of its own), every other pair of ESC
and one byte, every sequence that the end of the input cuts short and an ESC that
ends the input; so the result does not depend on the chunks.  Input without an ESC
byte is returned unchanged.  The three inputs of the tests give `Hello Red World!`,
`Hello World!` and `StartEnd`, the first of them also when it is read in four chunks
that cut through its sequences. -/
theorem ansiStripper_chunk_independent :
    (∀ (chunks : List GoString) (k : Nat),
      readAll (chunks.length + 1 + k) (NewANSIStripper chunks) = stripped chunks.flatten) ∧
    (∀ (chunks₁ chunks₂ : List GoString) (k₁ k₂ : Nat), chunks₁.flatten = chunks₂.flatten →
      readAll (chunks₁.length + 1 + k₁) (NewANSIStripper chunks₁) =
        readAll (chunks₂.length + 1 + k₂) (NewANSIStripper chunks₂)) ∧
    (∀ (chunks : List GoString) (k : Nat), escByte ∉ chunks.flatten →
      readAll (chunks.length + 1 + k) (NewANSIStripper chunks) = chunks.flatten) ∧
    stripped (str "Hello \x1b[31mRed\x1b[0m World\x1b[1A!") = str "Hello Red World!" ∧
    stripped (str "Hello \x1b]0;Skip Me\x07World\x1b[31m!\x1b[0m") = str "Hello World!" ∧
    stripped (str "Start\x1b]0;Title with ST\x1b\\End") = str "StartEnd" ∧
    readAll 5 (NewANSIStripper [str "Hello \x1b", str "[31", [], str "mRed\x1b[0m World\x1b[1",
      str "A!"]) = str "Hello Red World!" := by
  have hall : ∀ (chunks : List GoString) (k : Nat),
      readAll (chunks.length + 1 + k) (NewANSIStripper chunks) = stripped chunks.flatten := by
    intro chunks k
    unfold NewANSIStripper
    rw [readAll_eq chunks _ _ (by omega), stripRun_eq_stripped]
  refine ⟨hall, ?_, ?_, by decide, by decide, by decide, by decide⟩
  · intro c₁ c₂ k₁ k₂ h
    rw [hall, hall, h]
  · intro chunks k h
    unfold NewANSIStripper
    rw [readAll_eq chunks _ _ (by omega), stripRun_no_esc _ h]

/-! ## Environment precedence on Windows -/

theorem lastWins_append_last (key : GoString → Option GoString) (lower : GoString → GoString)
    (l : List GoString) (kv : GoString) (h : kv ≠ []) :
    ∃ pre, lastWins key lower (l ++ [kv]) = pre ++ [kv] := by
  induction l with
  | nil =>
    refine ⟨[], ?_⟩
    have hs : survives key lower kv [] = true := by
      unfold survives
      cases key kv <;> simp [h]
    simp [lastWins, hs]
  | cons a l ih =>
    obtain ⟨pre, hpre⟩ := ih
    simp only [List.cons_append, lastWins]
    split_ifs
    · exact ⟨a :: pre, congrArg (fun t => a :: t) hpre⟩
    · exact ⟨pre, hpre⟩

/-- A fallback entry that `ApplyEnvFallbackAndInject` appends last is the last entry after
`dedupEnvCase` as well, whatever `Env` and `Inject` hold under another spelling of its
key. -/
theorem fallback_last_survives (lower : GoString → GoString) (Env : List GoString)
    (Fallback Inject : GoMap) (k v : GoString)
    (hk : k ∉ Env.map envKey) (hi : Inject.has k = false) :
    ∃ pre, dedupEnvCase lower true
        (ApplyEnvFallbackAndInject Env (Fallback ++ [(k, v)]) Inject) =
      pre ++ [envEntry k v] := by
  have hf : fallbackEntries Env (Fallback ++ [(k, v)]) Inject =
      fallbackEntries Env Fallback Inject ++ [envEntry k v] := by
    have hcond : (decide (k ∉ Env.map envKey) && !Inject.has k) = true := by
      simp only [hi, Bool.not_false, Bool.and_true, decide_eq_true_eq]
      exact hk
    unfold fallbackEntries
    rw [List.filter_append, List.map_append]
    congr 1
    rw [List.filter_cons]
    simp only [hcond, if_true, List.filter_nil, List.map_cons, List.map_nil]
  have hne : envEntry k v ≠ [] := by
    unfold envEntry
    intro h
    have h2 := congrArg List.length h
    simp only [List.length_append, List.length_nil] at h2
    have h3 : (str "=").length = 1 := by decide
    omega
  rw [ApplyEnvFallbackAndInject_eq, hf, ← List.append_assoc, dedupEnvCase_eq]
  exact lastWins_append_last _ _ _ _ hne

/-- C22 at its failing input.  On the Windows host, whose environment holds
`SystemRoot=C:\Windows`, the configuration `cfgLowerRoot` sets `Env` to
`[systemroot=D:\Other]`.  Normalisation appends the fallback entry
`SystemRoot=C:\Windows`, since `Env` has no key of that spelling, and
`dedupEnvCase(true, ..)` keeps the last entry of the two: the entry for the key is the
fallback value, although `Env` holds the key.  Likewise the fallback `TERM=vt100` wins
over the injected `Term=xterm`. -/
theorem fallback_overrides_after_dedup :
    (NormalizeCommandConfig windowsHost cfgLowerRoot).err = none ∧
    (NormalizeCommandConfig windowsHost cfgLowerRoot).cc.Env =
      some [str "systemroot=D:\\Other", str "PWD=C:\\Users\\me", str "TERM=vt100",
        str "SystemRoot=C:\\Windows"] ∧
    childEnv asciiToLower (NormalizeCommandConfig windowsHost cfgLowerRoot).cc =
      some [str "PWD=C:\\Users\\me", str "TERM=vt100", str "SystemRoot=C:\\Windows"] ∧
    dedupEnvCase asciiToLower true
        (ApplyEnvFallbackAndInject [str "systemroot=X"] [(str "SYSTEMROOT", str "Y")] []) =
      [str "SYSTEMROOT=Y"] ∧
    dedupEnvCase asciiToLower true
        (ApplyEnvFallbackAndInject [] [(str "TERM", str "vt100")] [(str "Term", str "xterm")]) =
      [str "TERM=vt100"] := by
  decide


end Crosspty
